import Mathlib

/-
Shallow embedding of the federated directly-follows-graph discovery
implementation (Rust sources under src/src/federated/).  The sources are
the plaintext/debug variant of the protocol: every "encryption" is the
identity on the carried value (see encrypt_activity, encrypt_timestamp,
decrypt_activity in organization_struct.rs), so ciphertexts of activity
codes (u16) and timestamps (u64, milliseconds) are modelled as Nat.  The
code performs no arithmetic on codes or timestamps other than order
comparisons and table positions; the one place where a u16 conversion can
truncate is modelled explicitly (encode_activity).
-/

/-- An event log: a list of traces, each a case id together with its
events, an event being an (activity name, timestamp) pair.  Events of a
trace are pre-sorted by timestamp by the XES importer. -/
abbrev EvLog := List (String × List (String × Nat))

/-- Association-list model of Rust HashMap insertion: overwrites the value
bound to an existing key, otherwise appends the binding at the end. -/
def aupsert {α β : Type} [DecidableEq α] (k : α) (v : β) :
    List (α × β) → List (α × β)
  | [] => [(k, v)]
  | p :: rest => if p.1 = k then (k, v) :: rest else p :: aupsert k v rest

/-- Association-list model of Rust HashMap lookup (`get`). -/
def alookup {α β : Type} [DecidableEq α] : List (α × β) → α → Option β
  | [], _ => none
  | p :: rest, k => if p.1 = k then some p.2 else alookup rest k

/-- Adds `v` to the count stored under `k`, inserting the key at count `v`
when absent (the HashMap counting idiom used by
`evaluate_decrypted_edges_to_dfg` and the DFG's edge map). -/
def abump {α : Type} [DecidableEq α] (k : α) (v : Nat)
    (m : List (α × Nat)) : List (α × Nat) :=
  match alookup m k with
  | some old => aupsert k (old + v) m
  | none => m ++ [(k, v)]

/-- organization_struct.rs, `comparison_fn` (PublicKeyOrganization): the
timestamp comparison used by the merge, `val1 <= val2`. -/
def comparison_fn (val1 val2 : Nat) : Bool := decide (val1 ≤ val2)

/-- The comparison table `comparison_foreign_to_own` built in
`find_secrets_for_case`: entry (i, j) is `comparison_fn(t_foreign[i],
t_own[j])`.  The source caches it in a HashMap over exactly the in-range
index pairs; we model it as the defining function. -/
def cF2O (foreign_timestamps own_timestamps : List Nat) (i j : Nat) : Bool :=
  comparison_fn (foreign_timestamps.getD i 0) (own_timestamps.getD j 0)

/-- The comparison table `comparison_own_to_foreign`: entry (j, i) is the
negation of `comparison_foreign_to_own[(i, j)]`. -/
def cO2F (foreign_timestamps own_timestamps : List Nat) (j i : Nat) : Bool :=
  !(comparison_fn (foreign_timestamps.getD i 0) (own_timestamps.getD j 0))

/-- organization_struct.rs, `find_following_activity`: starting from
`next_activity`, the loop runs over the indices of `other_activities` in
descending order; at index i it computes an intermediate candidate and
overwrites the running result when `comparison_this_to_other[(pos, i)]`
holds.  Modelled as a left fold over the reversed index range (the
descending `for` loop), with the two cached comparison tables passed as
functions. -/
def find_following_activity (pos : Nat) (next_activity : Nat)
    (other_activities : List Nat)
    (comparison_this_to_other comparison_other_to_this : Nat → Nat → Bool) :
    Nat :=
  (List.range other_activities.length).reverse.foldl
    (fun result i =>
      if comparison_this_to_other pos i then
        (if comparison_other_to_this i (pos + 1) then
          other_activities.getD i 0
        else next_activity)
      else result)
    next_activity

/-- organization_struct.rs, `handle_last`: the successor of the last event
of one side; scans the other side's indices in descending order and
overwrites the running result (initially the end code) when
`comparison_this_to_other[(pos, i)]` holds. -/
def handle_last (pos : Nat) (other_activities : List Nat)
    (comparison_this_to_other : Nat → Nat → Bool) (end_code : Nat) : Nat :=
  (List.range other_activities.length).reverse.foldl
    (fun result i =>
      if comparison_this_to_other pos i then other_activities.getD i 0
      else result)
    end_code

/-- organization_struct.rs, `add_full_trace`: emits (start, first),
(last, end) and all consecutive pairs of a single-side trace.  On an empty
activity list the unconditional loop bound `activities.len() - 1`
underflows on usize (and the element unwraps fail), i.e. the function
panics: modelled as `none`. -/
def add_full_trace (start_code end_code : Nat) (activities : List Nat) :
    Option (List (Nat × Nat)) :=
  if activities.isEmpty then none
  else
    some ([(start_code, activities.getD 0 0),
           (activities.getLastD 0, end_code)] ++
      (List.range (activities.length - 1)).map
        (fun i => (activities.getD i 0, activities.getD (i + 1) 0)))

/-- organization_struct.rs, `find_secrets_for_case`: the per-case secure
merge.  `foreign_*` are A's (encrypted) parallel activity/timestamp
vectors, `own_*` are B's.  If one side is empty the other side is emitted
directly via `add_full_trace`; otherwise the comparison tables are built
and the edge list is: the start edge, one edge per non-final foreign
event, one edge per non-final own event, and the two `handle_last`
edges. -/
def find_secrets_for_case (start_code end_code : Nat)
    (foreign_activities foreign_timestamps own_activities own_timestamps :
      List Nat) : Option (List (Nat × Nat)) :=
  if own_activities.isEmpty then
    add_full_trace start_code end_code foreign_activities
  else if foreign_activities.isEmpty then
    add_full_trace start_code end_code own_activities
  else
    let f2o := cF2O foreign_timestamps own_timestamps
    let o2f := cO2F foreign_timestamps own_timestamps
    let start_edge : Nat × Nat :=
      (start_code,
       if f2o 0 0 then foreign_activities.getD 0 0
       else own_activities.getD 0 0)
    let foreign_edges :=
      (List.range (foreign_activities.length - 1)).map (fun i =>
        (foreign_activities.getD i 0,
         find_following_activity i (foreign_activities.getD (i + 1) 0)
           own_activities f2o o2f))
    let own_edges :=
      (List.range (own_activities.length - 1)).map (fun j =>
        (own_activities.getD j 0,
         find_following_activity j (own_activities.getD (j + 1) 0)
           foreign_activities o2f f2o))
    let last_foreign : Nat × Nat :=
      (foreign_activities.getLastD 0,
       handle_last (foreign_activities.length - 1) own_activities f2o
         end_code)
    let last_own : Nat × Nat :=
      (own_activities.getLastD 0,
       handle_last (own_activities.length - 1) foreign_activities o2f
         end_code)
    some (start_edge ::
      (foreign_edges ++ own_edges ++ [last_foreign, last_own]))

/-- Fuel-indexed helper for `merge_events`; the fuel only makes the
recursion structural (so that the kernel can evaluate it) and is always
sufficient when called through `merge_events`. -/
def merge_fuel {α : Type} : Nat → List (α × Nat) → List (α × Nat) →
    List (α × Nat)
  | 0, _, _ => []
  | _ + 1, [], own => own
  | _ + 1, foreign, [] => foreign
  | fuel + 1, fe :: foreign, oe :: own =>
    if fe.2 ≤ oe.2 then fe :: merge_fuel fuel foreign (oe :: own)
    else oe :: merge_fuel fuel (fe :: foreign) own

/-- Modelled from the spec: the plaintext chronological merge of the two
per-case event sequences by timestamp, with A's (foreign) event first on
equal timestamps.  Events are (activity, timestamp) pairs. -/
def merge_events {α : Type} (foreign own : List (α × Nat)) :
    List (α × Nat) :=
  merge_fuel (foreign.length + own.length) foreign own

/-- The directly-follows pairs of a sequence of activities: consecutive
pairs. -/
def df_pairs {α : Type} (seq : List α) : List (α × α) := seq.zip seq.tail

/-- The directly-follows pairs of a sequence sandwiched between the start
and end sentinels: (start, first), all consecutive pairs, (last, end). -/
def sentinel_df {α : Type} [Inhabited α] (start_code end_code : α)
    (seq : List α) : List (α × α) :=
  match seq with
  | [] => []
  | x :: rest =>
    (start_code, x) :: (df_pairs (x :: rest) ++
      [((x :: rest).getLastD default, end_code)])

/-- utils.rs, `find_name_trace_dictionary`: inserts every trace into a
HashMap keyed by its case id (`concept:name`); a later trace with the same
case id overwrites an earlier one. -/
def find_name_trace_dictionary (log : EvLog) :
    List (String × List (String × Nat)) :=
  log.foldl (fun m t => aupsert t.1 t.2 m) []

/-- organization_struct.rs, `find_activities`: the set of activity names
of an event log, modelled as a duplicate-free list (one enumeration of the
HashSet). -/
def find_activities (log : EvLog) : List String :=
  ((log.map (fun t => t.2.map Prod.fst)).flatten).dedup

/-- organization_struct.rs, `update_with_foreign_activities`: A inserts
start at 0 and end at 1 into its activity table, then assigns position
pos + 2 to the pos-th element of the union of both parties' activity-name
sets (HashMap inserts, so a name equal to a sentinel overwrites the
sentinel's binding).  The HashSet union is modelled as the deduplicated
concatenation of the two name lists. -/
def update_with_foreign_activities
    (own_activities foreign_activities : List String) :
    List (String × Nat) :=
  ((own_activities ++ foreign_activities).dedup).enum.foldl
    (fun m p => aupsert p.2 (p.1 + 2) m)
    (aupsert "end" 1 (aupsert "start" 0 []))

/-- organization_struct.rs: the `pos_to_activity` inversion of the
activity table, built by HashMap inserts (last name wins per position). -/
def invert_table (activity_to_pos : List (String × Nat)) :
    List (Nat × String) :=
  activity_to_pos.foldl (fun inv p => aupsert p.2 p.1 inv) []

/-- organization_struct.rs, `provide_sample_encryptions`: one (code,
ciphertext-of-code) pair per table position; in the debug scheme the
ciphertext is the code itself.  The `u16::try_from(*pos).unwrap()` cannot
truncate for the table sizes the protocol admits. -/
def provide_sample_encryptions (pos_to_activity : List (Nat × String)) :
    List (Nat × Nat) :=
  pos_to_activity.map (fun p => (p.1, p.1))

/-- organization_struct.rs, `sanitize_sample_encryptions` (B): panics when
any published code is >= the number of samples (modelled as `none`);
otherwise replaces any sample whose ciphertext does not decode to its code
by the zero ciphertext. -/
def sanitize_sample_encryptions (samples : List (Nat × Nat)) :
    Option (List (Nat × Nat)) :=
  if samples.any (fun p => decide (samples.length ≤ p.1)) then none
  else some (samples.map (fun p => if p.2 ≠ p.1 then (p.1, 0) else p))

/-- organization_struct.rs, the activity encoding used by both
`preprocess_trace_private_with_encryption` and
`preprocess_trace_using_sample_encryption`:
`u16::try_from(activity_to_pos.get(&activity).unwrap()).unwrap_or(0)`.
The `unwrap` cannot fire inside the protocol (the agreed table covers both
logs' activity names; modelled as defaulting to 0); a table position
beyond u16 truncates to 0, modelled explicitly. -/
def encode_activity (activity_to_pos : List (String × Nat))
    (activity : String) : Nat :=
  let pos := (alookup activity_to_pos activity).getD 0
  if pos < 65536 then pos else 0

/-- organization_struct.rs, `preprocess_trace_private_with_encryption`
(A): encodes and (trivially) encrypts a trace's activities and passes its
timestamps through, as two parallel vectors. -/
def preprocess_trace_private_with_encryption
    (activity_to_pos : List (String × Nat))
    (events : List (String × Nat)) : List Nat × List Nat :=
  (events.map (fun e => encode_activity activity_to_pos e.1),
   events.map Prod.snd)

/-- organization_struct.rs, `preprocess_trace_using_sample_encryption`
(B): the code's ciphertext is copied from the sample encryptions
(`sample_encryptions.get(&activity_pos).unwrap() + 0`; the unwrap cannot
fire because every code the table assigns has a sample), timestamps stay
plaintext. -/
def preprocess_trace_using_sample_encryption
    (activity_to_pos : List (String × Nat)) (samples : List (Nat × Nat))
    (events : List (String × Nat)) : List Nat × List Nat :=
  (events.map (fun e =>
     (alookup samples (encode_activity activity_to_pos e.1)).getD 0 + 0),
   events.map Prod.snd)

/-- organization_struct.rs, `compute_case_to_trace_with_encryption` (A):
the per-case dictionary of A's log restricted to the shared case ids, each
trace encoded and encrypted. -/
def compute_case_to_trace_with_encryption
    (activity_to_pos : List (String × Nat)) (log : EvLog)
    (shared_case_ids : List String) :
    List (String × (List Nat × List Nat)) :=
  ((find_name_trace_dictionary log).filter
      (fun p => shared_case_ids.contains p.1)).map
    (fun p => (p.1, preprocess_trace_private_with_encryption
      activity_to_pos p.2))

/-- organization_struct.rs, `compute_case_to_trace_using_sample_encryption`
(B): the per-case dictionary of B's log, each trace encoded through the
sample encryptions. -/
def compute_case_to_trace_using_sample_encryption
    (activity_to_pos : List (String × Nat)) (samples : List (Nat × Nat))
    (log : EvLog) : List (String × (List Nat × List Nat)) :=
  (find_name_trace_dictionary log).map
    (fun p => (p.1, preprocess_trace_using_sample_encryption
      activity_to_pos samples p.2))

/-- organization_struct.rs, `set_foreign_case_to_trace` (B): stores A's
encrypted per-case data after clamping every activity code that exceeds
`max_activities = activity_to_pos.len() - 1` down to `max_activities`. -/
def set_foreign_case_to_trace (activity_to_pos_len : Nat)
    (foreign_case_to_trace : List (String × (List Nat × List Nat))) :
    List (String × (List Nat × List Nat)) :=
  let max_activities := activity_to_pos_len - 1
  foreign_case_to_trace.map (fun p =>
    (p.1,
     ((p.2.1).map (fun act =>
        if max_activities < act then max_activities else act),
      p.2.2)))

/-- organization_struct.rs, `compute_all_case_names` (B): the HashSet of
B's own case ids extended with the keys of the stored foreign map,
collected and shuffled; modelled as one canonical enumeration (all facts
proved about it are order-insensitive counts). -/
def compute_all_case_names (own_case_ids foreign_keys : List String) :
    List String :=
  (own_case_ids ++ foreign_keys).dedup

/-- organization_struct.rs, `encrypt_all_case_ids` (A): A's case ids in
trace order together with their (trivially encrypted) 64-bit hashes.  The
external SipHasher is passed in as the function `hash`. -/
def encrypt_all_case_ids (hash : String → Nat) (log : EvLog) :
    List String × List Nat :=
  (log.map Prod.fst, log.map (fun t => hash t.1))

/-- organization_struct.rs, `has_matching_case_id` (B): starting from the
encrypted negation of `true_val`, overwrites the result with `true_val`
whenever the foreign hashed case id equals one of B's own hashed case
ids. -/
def has_matching_case_id (true_val : Bool) (foreign_case_id : Nat)
    (own_case_ids : List Nat) : Bool :=
  own_case_ids.foldl
    (fun result case_id =>
      if foreign_case_id = case_id then true_val else result)
    (!true_val)

/-- organization_struct.rs, `find_shared_case_ids` (B): for each of A's
encrypted hashed case ids (position-tagged), the OR of equality tests
against B's own hashed case ids. -/
def find_shared_case_ids (hash : String → Nat) (true_val : Bool)
    (logB : EvLog) (foreign_case_ids : List Nat) : List (Nat × Bool) :=
  let own_case_ids := logB.map (fun t => hash t.1)
  foreign_case_ids.enum.map
    (fun p => (p.1, has_matching_case_id true_val p.2 own_case_ids))

/-- organization_struct.rs, `decrypt_and_identify_shared_case_ids` (A):
keeps the case ids at the positions whose decrypted flag is true; the
HashSet result is modelled as a deduplicated list. -/
def decrypt_and_identify_shared_case_ids (own_case_ids : List String)
    (case_id_check_result : List (Nat × Bool)) : List String :=
  (case_id_check_result.filterMap (fun p =>
    if p.2 then some (own_case_ids.getD p.1 "") else none)).dedup

/-- organization_struct.rs, `decrypt_edges` (A): decrypts each edge pair;
the debug decryption is the identity. -/
def decrypt_edges (secret_edges : List (Nat × Nat)) : List (Nat × Nat) :=
  secret_edges.map (fun e => e)

/-- organization_struct.rs, `find_all_secrets` (B): runs the per-case
merge over the slice [start_case, upper_bound) of `all_case_names`,
looking each case up in the foreign and own maps with an empty-trace
default; a panic of any per-case merge propagates (`none`).  The final
random shuffle of the edge list is omitted: every fact proved downstream
is a multiset count. -/
def find_all_secrets (start_code end_code : Nat)
    (foreign_case_to_trace own_case_to_trace :
      List (String × (List Nat × List Nat)))
    (all_case_names : List String) (start_case upper_bound : Nat) :
    Option (List (Nat × Nat)) :=
  (((all_case_names.take upper_bound).drop start_case).mapM
    (fun case_name =>
      let foreign := (alookup foreign_case_to_trace case_name).getD ([], [])
      let own := (alookup own_case_to_trace case_name).getD ([], [])
      find_secrets_for_case start_code end_code
        foreign.1 foreign.2 own.1 own.2)).map List.flatten

/-- organization_communication.rs, the step values of
`(0..max_size).step_by(window_size)` (window_size >= 1; Rust `step_by`
panics on a zero step). -/
def window_steps (max_size window_size : Nat) : List Nat :=
  (List.range ((max_size + window_size - 1) / window_size)).map
    (fun k => k * window_size)

/-- organization_communication.rs, lines 92-99: the bounds actually
processed for one step: a window that would run past `max_size` is skipped
entirely (`none`); the window before a final short window absorbs the
tail. -/
def window_bounds (max_size window_size step : Nat) : Option (Nat × Nat) :=
  if max_size < step + window_size then none
  else if max_size < step + 2 * window_size then some (step, max_size)
  else some (step, step + window_size)

/-- organization_communication.rs, lines 87-105: the decrypted edges of
the whole run, concatenated over the processed windows (a skipped window
contributes nothing). -/
def communicate_edges (start_code end_code : Nat)
    (foreign_case_to_trace own_case_to_trace :
      List (String × (List Nat × List Nat)))
    (all_case_names : List String) (window_size : Nat) :
    Option (List (Nat × Nat)) :=
  let max_size := all_case_names.length
  ((window_steps max_size window_size).mapM (fun step =>
    match window_bounds max_size window_size step with
    | none => some []
    | some su =>
      (find_all_secrets start_code end_code foreign_case_to_trace
        own_case_to_trace all_case_names su.1 su.2).map
        decrypt_edges)).map List.flatten

/-- Modelled from the spec: the DirectlyFollowsGraph of the external
process_mining crate — activity frequencies, edge frequencies and the
start/end activity sets. -/
structure DFG where
  activities : List (String × Nat)
  edges : List ((String × String) × Nat)
  start_activities : List String
  end_activities : List String

/-- Modelled from the spec: the empty graph
(`DirectlyFollowsGraph::new/default`). -/
def DFG.empty : DFG := ⟨[], [], [], []⟩

/-- Modelled from the spec: `add_activity` registers an activity with the
given count if it is not yet present. -/
def DFG.add_activity (g : DFG) (act : String) (count : Nat) : DFG :=
  if (alookup g.activities act).isSome then g
  else { g with activities := g.activities ++ [(act, count)] }

/-- Modelled from the spec: `add_df_relation` adds `freq` to the edge's
frequency (inserting the edge when absent) and ensures both endpoints
appear among the activities. -/
def DFG.add_df_relation (g : DFG) (from_act to_act : String) (freq : Nat) :
    DFG :=
  let g1 := (g.add_activity from_act 0).add_activity to_act 0
  { g1 with edges := abump (from_act, to_act) freq g1.edges }

/-- The frequency the graph records for an edge (0 when absent). -/
def DFG.edge_freq (g : DFG) (e : String × String) : Nat :=
  (alookup g.edges e).getD 0

/-- utils.rs, `recalculate_activity_counts`: every activity's count is
replaced by the maximum of the total frequency of its ingoing and of its
outgoing relations. -/
def recalculate_activity_counts (g : DFG) : DFG :=
  { g with
    activities := g.activities.map (fun p =>
      (p.1,
       max ((g.edges.filter (fun q => decide (q.1.2 = p.1))).map
              Prod.snd).sum
           ((g.edges.filter (fun q => decide (q.1.1 = p.1))).map
              Prod.snd).sum)) }

/-- organization_struct.rs, `evaluate_decrypted_edges_to_dfg` (A): all
table names are registered at count 0; the decrypted edges whose source
does not decode to "end" are tallied into a frequency map (the source's
`.get(&from).unwrap()` cannot find the key missing inside the protocol,
since every emitted code is a table position; modelled with a default);
each tallied edge whose endpoints both decode is added to the graph. -/
def evaluate_decrypted_edges_to_dfg (activity_to_pos : List (String × Nat))
    (decrypted_edges : List (Nat × Nat)) : DFG :=
  let g0 := activity_to_pos.foldl (fun g p => g.add_activity p.1 0)
    DFG.empty
  let pos_to_activity := invert_table activity_to_pos
  let found_edges_by_pos := decrypted_edges.foldl (fun m e =>
      if (alookup pos_to_activity e.1).getD "" ≠ "end" then abump e 1 m
      else m)
    ([] : List ((Nat × Nat) × Nat))
  found_edges_by_pos.foldl (fun g e =>
      match alookup pos_to_activity e.1.1, alookup pos_to_activity e.1.2
        with
      | some from_act, some to_act => g.add_df_relation from_act to_act e.2
      | _, _ => g)
    g0

/-- The inner loop of `update_graph_with_private_cases`: starting from the
carried `last` activity (initially "start"), adds one edge per event and a
final edge to "end", each at frequency 1. -/
def add_private_trace (g : DFG) (last : String) :
    List String → DFG
  | [] => g.add_df_relation last "end" 1
  | n :: rest => add_private_trace (g.add_df_relation last n 1) n rest

/-- organization_struct.rs, `update_graph_with_private_cases` (A): for
every trace of A whose case id is not shared and whose event list is
non-empty, adds its start/end-sandwiched directly-follows chain to the
graph at frequency 1 per edge. -/
def update_graph_with_private_cases (g : DFG) (logA : EvLog)
    (shared_case_ids : List String) : DFG :=
  logA.foldl (fun g t =>
    if !(shared_case_ids.contains t.1) && !(t.2.isEmpty) then
      add_private_trace g "start" (t.2.map Prod.fst)
    else g) g

/-- organization_communication.rs, `communicate`: the full protocol.  The
external SipHasher is the parameter `hash`; `true_val` is A's encryption
of `true` (the debug scheme yields the boolean itself).  `none` models a
panic of a protocol step. -/
def communicate (hash : String → Nat) (logA logB : EvLog)
    (window_size : Nat) : Option DFG :=
  let psiA := encrypt_all_case_ids hash logA
  let shared_flags := find_shared_case_ids hash true logB psiA.2
  let shared := decrypt_and_identify_shared_case_ids psiA.1 shared_flags
  let activity_to_pos := update_with_foreign_activities
    (find_activities logA) (find_activities logB)
  match sanitize_sample_encryptions
      (provide_sample_encryptions (invert_table activity_to_pos)) with
  | none => none
  | some samples =>
    let start_code := (alookup samples 0).getD 0
    let end_code := (alookup samples 1).getD 0
    let org_a_encrypted := compute_case_to_trace_with_encryption
      activity_to_pos logA shared
    let foreign_map := set_foreign_case_to_trace activity_to_pos.length
      org_a_encrypted
    let all_case_names := compute_all_case_names (logB.map Prod.fst)
      (foreign_map.map Prod.fst)
    let own_map := compute_case_to_trace_using_sample_encryption
      activity_to_pos samples logB
    match communicate_edges start_code end_code foreign_map own_map
        all_case_names window_size with
    | none => none
    | some decrypted_edges =>
      let g1 := evaluate_decrypted_edges_to_dfg activity_to_pos
        decrypted_edges
      let g2 := update_graph_with_private_cases g1 logA shared
      let g3 := recalculate_activity_counts g2
      some { g3 with
        start_activities := g3.start_activities ++ ["start"],
        end_activities := g3.end_activities ++ ["end"] }

/-- Modelled from the spec: the events of one case of a log (the claims
comparing against this oracle assume duplicate-free case ids). -/
def case_events (log : EvLog) (case_id : String) : List (String × Nat) :=
  ((log.find? (fun t => decide (t.1 = case_id))).map Prod.snd).getD []

/-- Modelled from the spec: the case ids occurring in either log, each
once. -/
def oracle_case_ids (logA logB : EvLog) : List String :=
  (logA.map Prod.fst ++ logB.map Prod.fst).dedup

/-- Modelled from the spec: the plaintext (case_id, timestamp)-ordered
merge of one case's A-side and B-side events, as its activity-name
sequence. -/
def oracle_merged (logA logB : EvLog) (case_id : String) : List String :=
  (merge_events (case_events logA case_id) (case_events logB case_id)).map
    Prod.fst

/-- Modelled from the spec: the frequency of one directly-follows edge in
the plaintext-merged log. -/
def oracle_edge_count (logA logB : EvLog) (e : String × String) : Nat :=
  ((oracle_case_ids logA logB).map (fun c =>
    (df_pairs (oracle_merged logA logB c)).count e)).sum

/-- Modelled from the spec: how many cases of the plaintext-merged log
start with activity `x`. -/
def oracle_start_count (logA logB : EvLog) (x : String) : Nat :=
  ((oracle_case_ids logA logB).filter (fun c =>
    (oracle_merged logA logB c).head? = some x)).length

/-- Modelled from the spec: how many cases of the plaintext-merged log
end with activity `x`. -/
def oracle_end_count (logA logB : EvLog) (x : String) : Nat :=
  ((oracle_case_ids logA logB).filter (fun c =>
    (oracle_merged logA logB c).getLast? = some x)).length

/-- Modelled from the spec: the start activities of the plaintext-merged
log (the first activity of every non-empty case). -/
def oracle_start_activities (logA logB : EvLog) : List String :=
  ((oracle_case_ids logA logB).filterMap (fun c =>
    (oracle_merged logA logB c).head?)).dedup

/-- Modelled from the spec: the end activities of the plaintext-merged
log (the last activity of every non-empty case). -/
def oracle_end_activities (logA logB : EvLog) : List String :=
  ((oracle_case_ids logA logB).filterMap (fun c =>
    (oracle_merged logA logB c).getLast?)).dedup

/-- Modelled from the spec's words for C4: the largest-indexed own-side
event whose timestamp lies in the closed interval [t_i, t_{i+1}], or the
next foreign activity when no own-side timestamp lies in that interval. -/
def spec_largest_in_closed_window (t_i t_i1 : Nat)
    (own_activities own_timestamps : List Nat) (next_activity : Nat) :
    Nat :=
  match ((List.range own_timestamps.length).filter (fun j =>
      decide (t_i ≤ own_timestamps.getD j 0) &&
      decide (own_timestamps.getD j 0 ≤ t_i1))).getLast? with
  | some j => own_activities.getD j 0
  | none => next_activity

/-- Timestamp vectors sorted in non-decreasing order. -/
def ts_sorted (l : List Nat) : Prop := List.Pairwise (fun a b => a ≤ b) l

instance (l : List Nat) : Decidable (ts_sorted l) := by
  unfold ts_sorted; infer_instance

/- ------------------------------------------------------------------ -/
/- Theorems.                                                           -/
/- ------------------------------------------------------------------ -/

theorem merge_fuel_irrel {α : Type} (n : Nat) :
    ∀ (m : Nat) (f o : List (α × Nat)),
      f.length + o.length ≤ n → f.length + o.length ≤ m →
      merge_fuel n f o = merge_fuel m f o := by
  induction n with
  | zero =>
    intro m f o hn _
    match f, o with
    | [], [] => cases m <;> rfl
    | a :: _, _ => simp at hn
    | [], a :: _ => simp at hn
  | succ n ih =>
    intro m f o hn hm
    match f, o with
    | [], [] => cases m <;> rfl
    | [], a :: o => match m with
      | m + 1 => rfl
      | 0 => simp at hm
    | a :: f, [] => match m with
      | m + 1 => rfl
      | 0 => simp at hm
    | a :: f, b :: o => match m with
      | 0 => simp at hm
      | m + 1 =>
        simp only [merge_fuel]
        simp only [List.length_cons] at hn hm
        by_cases hc : a.2 ≤ b.2
        · simp only [if_pos hc]
          rw [ih m f (b :: o) (by simp only [List.length_cons]; omega)
            (by simp only [List.length_cons]; omega)]
        · simp only [if_neg hc]
          rw [ih m (a :: f) o (by simp only [List.length_cons]; omega)
            (by simp only [List.length_cons]; omega)]

theorem merge_events_nil_left {α : Type} (o : List (α × Nat)) :
    merge_events [] o = o := by
  cases o <;> rfl

theorem merge_events_nil_right {α : Type} (f : List (α × Nat)) :
    merge_events f [] = f := by
  cases f <;> rfl

theorem merge_events_cons {α : Type} (fe oe : α × Nat)
    (f o : List (α × Nat)) :
    merge_events (fe :: f) (oe :: o) =
      if fe.2 ≤ oe.2 then fe :: merge_events f (oe :: o)
      else oe :: merge_events (fe :: f) o := by
  show merge_fuel ((fe :: f).length + (oe :: o).length) _ _ = _
  simp only [List.length_cons]
  rw [show f.length + 1 + (o.length + 1) = (f.length + (o.length + 1)) + 1
    by omega, merge_fuel]
  by_cases hc : fe.2 ≤ oe.2
  · simp only [if_pos hc]
    rfl
  · simp only [if_neg hc]
    congr 1
    exact merge_fuel_irrel _ _ _ _ (by simp only [List.length_cons]; omega)
      (by simp only [List.length_cons]; omega)

/-- A descending last-write-wins loop computes the value at the first
(lowest) index satisfying the predicate. -/
theorem desc_foldl_eq_find {α : Type} (p : Nat → Bool) (v : Nat → α)
    (n : Nat) :
    ∀ init : α,
      ((List.range n).reverse.foldl
        (fun r i => if p i then v i else r) init)
      = match (List.range n).find? p with
        | some i => v i
        | none => init := by
  induction n with
  | zero => intro init; rfl
  | succ n ih =>
    intro init
    rw [List.range_succ, List.reverse_append]
    simp only [List.reverse_cons, List.reverse_nil, List.nil_append,
      List.singleton_append, List.foldl_cons]
    rw [ih (if p n then v n else init), List.find?_append]
    cases hfind : (List.range n).find? p with
    | some i => simp [Option.or]
    | none =>
      simp only [Option.none_or]
      cases hpn : p n with
      | true => simp [List.find?, hpn]
      | false => simp [List.find?, hpn]

theorem range_find?_eq_none (n : Nat) (p : Nat → Bool) :
    (List.range n).find? p = none ↔ ∀ k, k < n → p k = false := by
  rw [List.find?_eq_none]
  constructor
  · intro h k hk
    have := h k (List.mem_range.mpr hk)
    simpa using this
  · intro h x hx
    have := h x (List.mem_range.mp hx)
    simp [this]

theorem range_find?_eq_some (n : Nat) (p : Nat → Bool) :
    ∀ j : Nat,
      (List.range n).find? p = some j ↔
        j < n ∧ p j = true ∧ ∀ k, k < j → p k = false := by
  induction n with
  | zero => intro j; simp [List.find?]
  | succ n ih =>
    intro j
    rw [List.range_succ, List.find?_append]
    cases hfind : (List.range n).find? p with
    | some i =>
      simp only [Option.or]
      have hi := (ih i).mp hfind
      constructor
      · intro h
        injection h with h
        subst h
        exact ⟨by omega, hi.2.1, hi.2.2⟩
      · intro ⟨hjn, hpj, hmin⟩
        by_cases hij : i = j
        · rw [hij]
        · exfalso
          rcases Nat.lt_or_ge i j with hlt | hge
          · exact absurd hi.2.1 (by simp [hmin i hlt])
          · have : j < i := by omega
            exact absurd hpj (by simp [hi.2.2 j this])
    | none =>
      simp only [Option.none_or]
      have hnone := (range_find?_eq_none n p).mp hfind
      cases hpn : p n with
      | true =>
        simp only [List.find?, hpn]
        constructor
        · intro h
          injection h with h
          subst h
          exact ⟨by omega, hpn, hnone⟩
        · intro ⟨hjn, hpj, _⟩
          by_cases hj : j = n
          · rw [hj]
          · exact absurd hpj (by simp [hnone j (by omega)])
      | false =>
        simp only [List.find?, hpn]
        constructor
        · intro h; cases h
        · intro ⟨hjn, hpj, _⟩
          by_cases hj : j = n
          · subst hj; exact absurd hpj (by simp [hpn])
          · exact absurd hpj (by simp [hnone j (by omega)])

theorem sorted_getD_mono {l : List Nat} (h : ts_sorted l) {i j : Nat}
    (hij : i ≤ j) (hj : j < l.length) :
    l.getD i 0 ≤ l.getD j 0 := by
  rcases Nat.eq_or_lt_of_le hij with heq | hlt
  · subst heq; exact le_refl _
  · have hi : i < l.length := by omega
    rw [List.getD_eq_get l 0 hi, List.getD_eq_get l 0 hj]
    exact (List.pairwise_iff_get.mp h) ⟨i, hi⟩ ⟨j, hj⟩ hlt

/-- `find_following_activity` as a first-match scan: the value attached to
the least other-side index accepted by `comparison_this_to_other`, or the
next activity when no index is accepted. -/
theorem find_following_activity_eq_find (pos next_activity : Nat)
    (other_activities : List Nat) (c2o o2t : Nat → Nat → Bool) :
    find_following_activity pos next_activity other_activities c2o o2t =
      match (List.range other_activities.length).find?
          (fun i => c2o pos i) with
      | some i =>
        if o2t i (pos + 1) then other_activities.getD i 0
        else next_activity
      | none => next_activity :=
  desc_foldl_eq_find (fun i => c2o pos i)
    (fun i => if o2t i (pos + 1) then other_activities.getD i 0
      else next_activity)
    other_activities.length next_activity

/-- `handle_last` as a first-match scan. -/
theorem handle_last_eq_find (pos : Nat) (other_activities : List Nat)
    (c2o : Nat → Nat → Bool) (end_code : Nat) :
    handle_last pos other_activities c2o end_code =
      match (List.range other_activities.length).find?
          (fun i => c2o pos i) with
      | some i => other_activities.getD i 0
      | none => end_code :=
  desc_foldl_eq_find (fun i => c2o pos i)
    (fun i => other_activities.getD i 0)
    other_activities.length end_code

/-- C9: `add_full_trace` is partial: on an empty activities list it panics
(the loop bound `activities.len() - 1` underflows on usize and the element
lookups are unwrapped), and under a non-emptiness precondition the panic
is unreachable; consequently `find_secrets_for_case` requires at least one
of its two per-case activity sequences to be non-empty, and panics when
both are empty instead of returning an empty edge list. -/
theorem C9_partiality_of_add_full_trace :
    (∀ start_code end_code : Nat,
      add_full_trace start_code end_code [] = none) ∧
    (∀ (start_code end_code : Nat) (activities : List Nat),
      activities ≠ [] →
      (add_full_trace start_code end_code activities).isSome) ∧
    (∀ (start_code end_code : Nat) (fts ots : List Nat),
      find_secrets_for_case start_code end_code [] fts [] ots = none) ∧
    (∀ (start_code end_code : Nat) (fas fts oas ots : List Nat),
      fas ≠ [] ∨ oas ≠ [] →
      (find_secrets_for_case start_code end_code fas fts oas ots).isSome) :=
  by
  refine ⟨fun s e => rfl, fun s e acts h => ?_, fun s e fts ots => rfl,
    fun s e fas fts oas ots h => ?_⟩
  · cases acts with
    | nil => exact absurd rfl h
    | cons a rest => rfl
  · cases oas with
    | nil =>
      have hf : fas ≠ [] := by
        rcases h with h | h
        · exact h
        · exact absurd rfl h
      show (add_full_trace s e fas).isSome
      cases fas with
      | nil => exact absurd rfl hf
      | cons a rest => rfl
    | cons o os =>
      cases fas with
      | nil => rfl
      | cons a rest => rfl

/-- Witness for C9: concrete non-empty inputs on which the guarded calls
succeed. -/
theorem C9_witness :
    (add_full_trace 0 1 [5]).isSome ∧
    (find_secrets_for_case 0 1 [5] [3] [] []).isSome :=
  ⟨C9_partiality_of_add_full_trace.2.1 0 1 [5] (by decide),
   C9_partiality_of_add_full_trace.2.2.2 0 1 [5] [3] [] []
     (Or.inl (by decide))⟩

/-- C7: the timestamp comparison used by the merge evaluates to true on
equal timestamps (A's event sorts before B's), so for a single shared case
with A = [a@10] and B = [b@10] (codes a = 2, b = 3, sentinels 0/1) the
merge emits exactly the three edges start→a, a→b, b→end, each once. -/
theorem C7_tie_break_favors_A :
    (∀ t : Nat, comparison_fn t t = true) ∧
    find_secrets_for_case 0 1 [2] [10] [3] [10] =
      some [(0, 2), (2, 3), (3, 1)] := by
  constructor
  · intro t
    simp [comparison_fn]
  · decide

/-- C5 counterexample: with an agreed table of K = 3 codes, the
out-of-range code 7 in A's stored data is clamped to 2 = K - 1 (the
largest assigned code), not to the end sentinel code 1 as the claim
states. -/
theorem C5_counterexample :
    set_foreign_case_to_trace 3 [("c", ([7], [5]))] =
      [("c", ([2], [5]))] ∧ (2 : Nat) ≠ 1 := by
  constructor
  · decide
  · decide

/-- C5 amended: when B stores A's encrypted per-case activity vectors,
every activity code ≥ K (the table size) is replaced by the largest
assigned code K - 1 (not by the end sentinel), codes < K are left
unchanged, timestamps and case keys are untouched, and the function is
total (no abort). -/
theorem C5_clamps_to_largest_code (K : Nat) (hK : 1 ≤ K)
    (foreign_case_to_trace : List (String × (List Nat × List Nat))) :
    set_foreign_case_to_trace K foreign_case_to_trace =
      foreign_case_to_trace.map (fun p =>
        (p.1,
         ((p.2.1).map (fun a => if K ≤ a then K - 1 else a), p.2.2))) := by
  unfold set_foreign_case_to_trace
  have hfun : (fun a => if K - 1 < a then K - 1 else a) =
      (fun a => if K ≤ a then K - 1 else a) := by
    funext a
    by_cases h : K ≤ a
    · rw [if_pos h, if_pos (by omega)]
    · rw [if_neg h, if_neg (by omega)]
  simp only [hfun]

/-- Witness for C5: the amended clamping rule evaluated on a concrete
table size and vector. -/
theorem C5_witness :
    set_foreign_case_to_trace 3 [("d", ([7, 2, 0], [5, 6, 7]))] =
      [("d", ([2, 2, 0], [5, 6, 7]))] := by
  rw [C5_clamps_to_largest_code 3 (by decide)]
  decide

/-- C2 (code bug): the window loop drops every case when B holds fewer
cases than the window size, so the result does depend on `window_size`:
with a single B-side case, window size 1 yields the case's edges while
window size 2 yields no edges at all; the full protocol output differs
accordingly. -/
theorem C2_window_size_changes_result :
    window_steps 1 2 = [0] ∧
    window_bounds 1 2 0 = none ∧
    communicate_edges 0 1 [] [("c", ([4], [7]))] ["c"] 1 =
      some [(0, 4), (4, 1)] ∧
    communicate_edges 0 1 [] [("c", ([4], [7]))] ["c"] 2 = some [] ∧
    (communicate String.length [] [("c", [("b", 20)])] 1).map DFG.edges =
      some [(("start", "b"), 1), (("b", "end"), 1)] ∧
    (communicate String.length [] [("c", [("b", 20)])] 2).map DFG.edges =
      some [] := by
  refine ⟨by decide, by decide, by decide, by decide, ?_, ?_⟩
  · rfl
  · rfl

theorem alookup_aupsert {α β : Type} [DecidableEq α] (m : List (α × β))
    (k k' : α) (v : β) :
    alookup (aupsert k v m) k' = if k' = k then some v else alookup m k' :=
  by
  induction m with
  | nil =>
    by_cases h : k' = k
    · simp [aupsert, alookup, h]
    · simp [aupsert, alookup, h, Ne.symm h]
  | cons p rest ih =>
    by_cases hp : p.1 = k
    · simp only [aupsert, if_pos hp]
      by_cases h : k' = k
      · simp [alookup, h]
      · simp only [alookup, if_neg h]
        rw [if_neg (fun hh : k = k' => h (Eq.symm hh)),
          if_neg (fun hh : p.1 = k' => h (hp ▸ hh : k = k').symm)]
    · simp only [aupsert, if_neg hp]
      by_cases h : k' = k
      · subst h
        simp only [alookup, if_neg hp, ih, if_pos rfl]
      · simp only [alookup, ih, if_neg h]

theorem keys_aupsert {α β : Type} [DecidableEq α] (m : List (α × β))
    (k : α) (v : β) :
    (aupsert k v m).map Prod.fst =
      if k ∈ m.map Prod.fst then m.map Prod.fst
      else m.map Prod.fst ++ [k] := by
  induction m with
  | nil => simp [aupsert]
  | cons p rest ih =>
    by_cases hp : p.1 = k
    · simp [aupsert, hp]
    · simp only [aupsert, if_neg hp, List.map_cons, ih]
      by_cases hmem : k ∈ rest.map Prod.fst
      · simp [hmem, Ne.symm hp]
      · simp [hmem, Ne.symm hp]

theorem nodup_keys_aupsert {α β : Type} [DecidableEq α]
    (m : List (α × β)) (k : α) (v : β)
    (h : (m.map Prod.fst).Nodup) :
    ((aupsert k v m).map Prod.fst).Nodup := by
  rw [keys_aupsert]
  by_cases hmem : k ∈ m.map Prod.fst
  · simpa [hmem] using h
  · simp only [if_neg hmem]
    refine List.Nodup.append h (List.nodup_singleton k) ?_
    intro a ha hb
    rw [List.mem_singleton] at hb
    exact hmem (hb ▸ ha)

theorem aupsert_fresh {α β : Type} [DecidableEq α] (m : List (α × β))
    (k : α) (v : β) (h : k ∉ m.map Prod.fst) :
    aupsert k v m = m ++ [(k, v)] := by
  induction m with
  | nil => rfl
  | cons p rest ih =>
    simp only [List.map_cons, List.mem_cons] at h
    push_neg at h
    simp only [aupsert, if_neg (fun hh : p.1 = k => h.1 (Eq.symm hh)),
      List.cons_append, List.cons.injEq, true_and]
    exact ih h.2

theorem alookup_append {α β : Type} [DecidableEq α]
    (m1 m2 : List (α × β)) (k : α) :
    alookup (m1 ++ m2) k = (alookup m1 k).or (alookup m2 k) := by
  induction m1 with
  | nil => simp [alookup]
  | cons p rest ih =>
    by_cases hp : p.1 = k
    · simp [alookup, hp, Option.or]
    · simp [alookup, hp, ih]

theorem alookup_of_mem_nodup {α β : Type} [DecidableEq α]
    {m : List (α × β)} {k : α} {v : β}
    (hnd : (m.map Prod.fst).Nodup) (hmem : (k, v) ∈ m) :
    alookup m k = some v := by
  induction m with
  | nil => cases hmem
  | cons p rest ih =>
    simp only [List.map_cons, List.nodup_cons] at hnd
    rcases List.mem_cons.mp hmem with heq | htail
    · subst heq
      simp [alookup]
    · have hk : p.1 ≠ k := by
        intro hh
        exact hnd.1 (hh ▸ List.mem_map_of_mem Prod.fst htail)
      simp only [alookup, if_neg hk]
      exact ih hnd.2 htail

theorem alookup_isSome_iff {α β : Type} [DecidableEq α]
    (m : List (α × β)) (k : α) :
    (alookup m k).isSome ↔ k ∈ m.map Prod.fst := by
  induction m with
  | nil => simp [alookup]
  | cons p rest ih =>
    by_cases hp : p.1 = k
    · simp [alookup, hp]
    · simp [alookup, hp, ih, Ne.symm hp]

/-- The dictionary-building fold of `find_name_trace_dictionary`: the
lookup of a name returns the payload of the last log entry carrying that
name, falling back to the accumulator. -/
theorem foldl_aupsert_alookup (log : EvLog) :
    ∀ (acc : List (String × List (String × Nat))) (name : String),
      alookup (log.foldl (fun m t => aupsert t.1 t.2 m) acc) name =
        (Option.map Prod.snd
          ((log.filter (fun t => decide (t.1 = name))).getLast?)).or
          (alookup acc name) := by
  induction log using List.reverseRecOn with
  | nil => intro acc name; simp
  | append_singleton ys t ih =>
    intro acc name
    rw [List.foldl_append, List.foldl_cons, List.foldl_nil,
      List.filter_append, alookup_aupsert]
    by_cases ht : t.1 = name
    · have hfil : List.filter (fun u => decide (u.1 = name)) [t] = [t] := by
        simp [List.filter, ht]
      rw [hfil, List.getLast?_concat, if_pos (Eq.symm ht)]
      simp [Option.or]
    · have hfil : List.filter (fun u => decide (u.1 = name)) [t] = [] := by
        simp [List.filter, ht]
      rw [hfil, List.append_nil, if_neg (Ne.symm ht)]
      exact ih acc name

theorem foldl_aupsert_nodup_keys (log : EvLog) :
    ∀ acc : List (String × List (String × Nat)),
      (acc.map Prod.fst).Nodup →
      (((log.foldl (fun m t => aupsert t.1 t.2 m) acc)).map
        Prod.fst).Nodup := by
  induction log with
  | nil => intro acc h; exact h
  | cons t rest ih =>
    intro acc h
    exact ih _ (nodup_keys_aupsert _ _ _ h)

/-- C10: `find_name_trace_dictionary` keeps at most one trace per case id
(its key list is duplicate-free), and when several traces share a
`concept:name` the later insertion overwrites the earlier ones: the
retained trace is the last one in log order, so the per-case encoding of
both organizations silently ignores the events of all earlier duplicate
traces. -/
theorem C10_duplicate_case_ids_overwrite (log : EvLog) (name : String) :
    alookup (find_name_trace_dictionary log) name =
      Option.map Prod.snd
        ((log.filter (fun t => decide (t.1 = name))).getLast?) ∧
    ((find_name_trace_dictionary log).map Prod.fst).Nodup := by
  constructor
  · rw [find_name_trace_dictionary, foldl_aupsert_alookup]
    simp [alookup]
  · exact foldl_aupsert_nodup_keys log [] (by simp)

theorem has_matching_aux (h : Nat) (l : List Nat) :
    ∀ b : Bool,
      l.foldl (fun result c => if h = c then true else result) b =
        (b || decide (h ∈ l)) := by
  induction l with
  | nil => intro b; simp
  | cons c rest ih =>
    intro b
    rw [List.foldl_cons, ih]
    by_cases hc : h = c
    · simp [hc]
    · simp [hc]

/-- `has_matching_case_id` with the true ciphertext is exactly the
membership test of the hashed id. -/
theorem has_matching_case_id_spec (h : Nat) (l : List Nat) :
    has_matching_case_id true h l = decide (h ∈ l) := by
  rw [has_matching_case_id, has_matching_aux]
  simp

/-- The PSI composite: under hash injectivity on both id lists, membership
in the decrypted shared-id list is exactly membership in both logs' id
lists. -/
theorem psi_shared_iff (hash : String → Nat) (logA logB : EvLog)
    (hinj : ∀ x ∈ logA.map Prod.fst ++ logB.map Prod.fst,
      ∀ y ∈ logA.map Prod.fst ++ logB.map Prod.fst,
      hash x = hash y → x = y)
    (s : String) :
    (s ∈ decrypt_and_identify_shared_case_ids
        (encrypt_all_case_ids hash logA).1
        (find_shared_case_ids hash true logB
          (encrypt_all_case_ids hash logA).2)) ↔
      (s ∈ logA.map Prod.fst ∧ s ∈ logB.map Prod.fst) := by
  unfold decrypt_and_identify_shared_case_ids find_shared_case_ids
    encrypt_all_case_ids
  rw [List.mem_dedup, List.mem_filterMap]
  have hmapmap : (logA.map fun t => hash t.1) =
      (logA.map Prod.fst).map hash := by
    rw [List.map_map]; rfl
  constructor
  · rintro ⟨p, hpmem, hps⟩
    rcases List.mem_map.mp hpmem with ⟨q, hqmem, hpq⟩
    subst hpq
    rw [List.mem_enum_iff_getElem?, hmapmap, List.getElem?_map] at hqmem
    cases hga : (logA.map Prod.fst)[q.1]? with
    | none => rw [hga] at hqmem; cases hqmem
    | some a =>
      rw [hga] at hqmem
      injection hqmem with hq
      simp only [has_matching_case_id_spec] at hps
      by_cases hflag : q.2 ∈ logB.map fun t => hash t.1
      · rw [decide_eq_true hflag, if_pos rfl] at hps
        injection hps with hps
        have hsa : s = a := by
          rw [← hps, List.getD_eq_getElem?_getD, hga]
          rfl
        subst hsa
        constructor
        · exact List.getElem?_mem hga
        · rcases List.mem_map.mp hflag with ⟨t, ht, hht⟩
          have hst : s = t.1 := by
            refine hinj s
              (List.mem_append_left _ (List.getElem?_mem hga)) t.1
              (List.mem_append_right _ (List.mem_map_of_mem Prod.fst ht))
              ?_
            rw [hq, ← hht]
          rw [hst]
          exact List.mem_map_of_mem Prod.fst ht
      · rw [decide_eq_false hflag, if_neg Bool.false_ne_true] at hps
        cases hps
  · rintro ⟨hA, hB⟩
    rcases List.getElem?_of_mem hA with ⟨i, hi⟩
    have hflag : hash s ∈ logB.map fun t => hash t.1 := by
      rcases List.mem_map.mp hB with ⟨t, ht, hts⟩
      exact List.mem_map.mpr ⟨t, ht, by rw [hts]⟩
    refine ⟨(i, true), ?_, ?_⟩
    · apply List.mem_map.mpr
      refine ⟨(i, hash s), ?_, ?_⟩
      · rw [List.mem_enum_iff_getElem?]
        show (logA.map fun t => hash t.1)[i]? = some (hash s)
        rw [hmapmap, List.getElem?_map, hi]
        rfl
      · simp only [has_matching_case_id_spec]
        rw [decide_eq_true hflag]
    · show (if true = true then
          some ((logA.map Prod.fst).getD i "") else none) = some s
      rw [if_pos rfl, List.getD_eq_getElem?_getD, hi]
      rfl

/-- C8: assuming the 64-bit case-id hash is collision-free on the case ids
of both logs, the shared-case-id set computed by the PSI step (A hashes
and publishes its case ids, B computes for each the OR of equality tests
against its own hashed ids, A keeps the ids whose flag is true) equals the
set-theoretic intersection of A's and B's case-id sets. -/
theorem C8_psi_soundness (hash : String → Nat) (logA logB : EvLog)
    (hinj : ∀ x ∈ logA.map Prod.fst ++ logB.map Prod.fst,
      ∀ y ∈ logA.map Prod.fst ++ logB.map Prod.fst,
      hash x = hash y → x = y)
    (s : String) :
    (s ∈ decrypt_and_identify_shared_case_ids
        (encrypt_all_case_ids hash logA).1
        (find_shared_case_ids hash true logB
          (encrypt_all_case_ids hash logA).2)) ↔
      (s ∈ logA.map Prod.fst ∧ s ∈ logB.map Prod.fst) :=
  psi_shared_iff hash logA logB hinj s

/-- Witness for C8: a concrete pair of logs with an injective hash on
their case ids, on which the PSI result contains exactly the common case
id. -/
theorem C8_witness :
    "ccc" ∈ decrypt_and_identify_shared_case_ids
      (encrypt_all_case_ids String.length
        [("a", [("x", 1)]), ("ccc", [("x", 1)])]).1
      (find_shared_case_ids String.length true [("ccc", [("y", 2)])]
        (encrypt_all_case_ids String.length
          [("a", [("x", 1)]), ("ccc", [("x", 1)])]).2) :=
  (C8_psi_soundness String.length [("a", [("x", 1)]), ("ccc", [("x", 1)])]
    [("ccc", [("y", 2)])] (by decide) "ccc").mpr (by decide)

theorem foldl_aupsert_eq_append {α β : Type} [DecidableEq α]
    (ps : List (α × β)) :
    ∀ init : List (α × β), (ps.map Prod.fst).Nodup →
      (∀ p ∈ ps, p.1 ∉ init.map Prod.fst) →
      ps.foldl (fun m p => aupsert p.1 p.2 m) init = init ++ ps := by
  induction ps with
  | nil => intro init _ _; simp
  | cons p rest ih =>
    intro init hnd hfresh
    simp only [List.map_cons, List.nodup_cons] at hnd
    rw [List.foldl_cons,
      aupsert_fresh init p.1 p.2 (hfresh p (List.mem_cons_self p rest)),
      ih (init ++ [p]) hnd.2, List.append_assoc]
    rfl
    intro q hq
    rw [List.map_append, List.mem_append]
    rintro (hql | hqr)
    · exact hfresh q (List.mem_cons_of_mem p hq) hql
    · simp only [List.map_cons, List.map_nil, List.mem_singleton] at hqr
      exact hnd.1 (hqr ▸ List.mem_map_of_mem Prod.fst hq)

/-- The agreed activity table decomposes into the sentinel bindings
followed by the enumerated union, provided no union name collides with a
sentinel. -/
theorem update_with_foreign_activities_eq
    (own_activities foreign_activities : List String)
    (hs : "start" ∉ own_activities ++ foreign_activities)
    (he : "end" ∉ own_activities ++ foreign_activities) :
    update_with_foreign_activities own_activities foreign_activities =
      [("start", 0), ("end", 1)] ++
        ((own_activities ++ foreign_activities).dedup).enum.map
          (fun p => (p.2, p.1 + 2)) := by
  unfold update_with_foreign_activities
  have hinit : aupsert "end" 1 (aupsert "start" 0 []) =
      ([("start", 0), ("end", 1)] : List (String × Nat)) := by decide
  rw [hinit, ← List.foldl_map
    (fun p : Nat × String => (p.2, p.1 + 2))
    (fun m p => aupsert p.1 p.2 m)]
  apply foldl_aupsert_eq_append
  · rw [List.map_map]
    show ((own_activities ++ foreign_activities).dedup).enum.map
      Prod.snd |>.Nodup
    rw [List.enum_map_snd]
    exact List.nodup_dedup _
  · intro p hp
    rcases List.mem_map.mp hp with ⟨q, hq, hpq⟩
    have hq2 : q.2 ∈ own_activities ++ foreign_activities := by
      rw [← List.mem_dedup]
      have := List.mem_enum_iff_getElem?.mp hq
      exact List.getElem?_mem this
    intro hmem
    simp only [List.map_cons, List.map_nil, List.mem_cons,
      List.mem_singleton] at hmem
    rcases hmem with h1 | h1 | h1
    · exact hs (by rw [← hpq] at h1; simp only at h1; rw [← h1]; exact hq2)
    · exact he (by rw [← hpq] at h1; simp only at h1; rw [← h1]; exact hq2)
    · cases h1

/-- The agreed activity table, characterized: sentinel bindings at 0 and
1, every union name bound once to a code in [2, K), keys duplicate-free,
codes exactly [0, K). -/
theorem table_structure
    (own_activities foreign_activities : List String)
    (table : List (String × Nat))
    (htab : table =
      update_with_foreign_activities own_activities foreign_activities)
    (hs : "start" ∉ own_activities ++ foreign_activities)
    (he : "end" ∉ own_activities ++ foreign_activities) :
    alookup table "start" = some 0 ∧ alookup table "end" = some 1 ∧
    (∀ a ∈ own_activities ++ foreign_activities,
      ∃ c, alookup table a = some c ∧ 2 ≤ c ∧ c < table.length) ∧
    (table.map Prod.fst).Nodup ∧
    table.map Prod.snd = List.range table.length := by
  have hdec := update_with_foreign_activities_eq own_activities
    foreign_activities hs he
  subst htab
  rw [hdec]
  set names := (own_activities ++ foreign_activities).dedup with hnames
  set ps := names.enum.map (fun p : Nat × String => (p.2, p.1 + 2))
    with hps
  have hkeys : ps.map Prod.fst = names := by
    rw [hps, List.map_map]
    show names.enum.map Prod.snd = names
    rw [List.enum_map_snd]
  have hlen : (([("start", 0), ("end", 1)] :
      List (String × Nat)) ++ ps).length = names.length + 2 := by
    rw [List.length_append, hps, List.length_map, List.enum_length]
    simp [Nat.add_comm]
  have hnodup : ((([("start", 0), ("end", 1)] : List (String × Nat)) ++
      ps).map Prod.fst).Nodup := by
    rw [List.map_append, hkeys]
    refine List.Nodup.append (by decide) (List.nodup_dedup _) ?_
    intro a ha hb
    simp only [List.map_cons, List.map_nil, List.mem_cons,
      List.mem_singleton] at ha
    rcases ha with h1 | h1 | h1
    · subst h1; exact hs (List.mem_dedup.mp hb)
    · subst h1; exact he (List.mem_dedup.mp hb)
    · cases h1
  refine ⟨by rw [alookup_append]; rfl, by rw [alookup_append]; rfl,
    ?_, hnodup, ?_⟩
  · intro a ha
    have haN : a ∈ names := by rw [hnames, List.mem_dedup]; exact ha
    rcases List.getElem?_of_mem haN with ⟨i, hi⟩
    have hmem : (a, i + 2) ∈ ps := by
      rw [hps]
      exact List.mem_map.mpr ⟨(i, a),
        List.mem_enum_iff_getElem?.mpr hi, rfl⟩
    refine ⟨i + 2, ?_, by omega, ?_⟩
    · exact alookup_of_mem_nodup hnodup
        (List.mem_append_right _ hmem)
    · rw [hlen]
      have hilt : i < names.length :=
        (List.getElem?_eq_some_iff.mp hi).1
      omega
  · have h2 : List.range (names.length + 2) =
        0 :: 1 :: (List.range names.length).map (fun i => i + 2) := by
      rw [List.range_succ_eq_map, List.range_succ_eq_map, List.map_cons,
        List.map_map]
      rfl
    have h3 : names.enum.map (fun q : Nat × String => q.1 + 2) =
        (List.range names.length).map (fun i => i + 2) := by
      rw [show (fun q : Nat × String => q.1 + 2) =
        ((fun i => i + 2) ∘ Prod.fst) from rfl, ← List.map_map,
        List.enum_map_fst]
    rw [List.map_append, hps, List.map_map, hlen, h2]
    show ([0, 1] : List Nat) ++
        names.enum.map (fun q : Nat × String => q.1 + 2) =
      0 :: 1 :: (List.range names.length).map (fun i => i + 2)
    rw [h3]
    rfl

/-- C6 amended: provided neither log contains an activity literally named
"start" or "end", the agreed table maps start to 0 and end to 1, gives
every activity of either log exactly one code in [2, K), has
duplicate-free names, and its codes are exactly [0, K) — a bijection
between the K names and the K codes. -/
theorem C6_table_bijection
    (own_activities foreign_activities : List String)
    (table : List (String × Nat))
    (htab : table =
      update_with_foreign_activities own_activities foreign_activities)
    (hs : "start" ∉ own_activities ++ foreign_activities)
    (he : "end" ∉ own_activities ++ foreign_activities) :
    alookup table "start" = some 0 ∧ alookup table "end" = some 1 ∧
    (∀ a ∈ own_activities ++ foreign_activities,
      ∃ c, alookup table a = some c ∧ 2 ≤ c ∧ c < table.length) ∧
    (table.map Prod.fst).Nodup ∧
    table.map Prod.snd = List.range table.length :=
  table_structure own_activities foreign_activities table htab hs he

/-- C6 counterexample: a log whose only activity is literally named
"start" makes the enumeration overwrite the sentinel binding, so the
table maps "start" to 2, not 0 (and no name maps to 0 at all). -/
theorem C6_counterexample :
    alookup (update_with_foreign_activities ["start"] []) "start" =
      some 2 ∧
    alookup (update_with_foreign_activities ["start"] []) "start" ≠
      some 0 := by
  constructor
  · decide
  · decide

/-- Witness for C6: the table for concrete sentinel-free logs. -/
theorem C6_witness :
    alookup (update_with_foreign_activities ["a", "b"] ["b", "c"])
      "start" = some 0 :=
  (C6_table_bijection ["a", "b"] ["b", "c"] _ rfl (by decide)
    (by decide)).1

/-- A descending two-test selection loop, characterized: the first index
accepted by the lower test decides; its value is taken when the upper test
also accepts, and provided failure of the upper test propagates upward
(which timestamp sortedness guarantees at the call sites), the whole loop
equals the first index accepted by both tests. -/
theorem find_window_char (acts : List Nat) (next : Nat)
    (lowB upB : Nat → Bool)
    (hanti : ∀ u v : Nat, u < acts.length → v < acts.length → u ≤ v →
      upB u = false → upB v = false) :
    (match (List.range acts.length).find? lowB with
     | some k => if upB k then acts.getD k 0 else next
     | none => next)
    = match (List.range acts.length).find?
        (fun m => lowB m && upB m) with
      | some k => acts.getD k 0
      | none => next := by
  cases hfind : (List.range acts.length).find? lowB with
  | none =>
    have hnone := (range_find?_eq_none _ _).mp hfind
    have hnone2 : (List.range acts.length).find?
        (fun m => lowB m && upB m) = none :=
      (range_find?_eq_none _ _).mpr
        (fun m hm => by rw [hnone m hm]; rfl)
    rw [hnone2]
  | some k =>
    obtain ⟨hk, hlowk, hmin⟩ :=
      (range_find?_eq_some acts.length lowB k).mp hfind
    cases hupp : upB k with
    | true =>
      have hsome2 : (List.range acts.length).find?
          (fun m => lowB m && upB m) = some k :=
        (range_find?_eq_some acts.length _ k).mpr
          ⟨hk, by rw [hlowk, hupp]; rfl,
           fun m hm => by rw [hmin m hm]; rfl⟩
      rw [hsome2]
      simp [hupp]
    | false =>
      have hnone2 : (List.range acts.length).find?
          (fun m => lowB m && upB m) = none := by
        apply (range_find?_eq_none _ _).mpr
        intro m hm
        by_cases hmk : m < k
        · rw [hmin m hmk]; rfl
        · rw [hanti k m hk hm (by omega) hupp, Bool.and_false]
      rw [hnone2]
      simp [hupp]

/-- Both merge-successor loops characterized as first-match window scans
(A side: non-strict lower, strict upper; B side: strict lower, non-strict
upper). -/
theorem ffa_window_both
    (foreign_timestamps own_timestamps foreign_activities
      own_activities : List Nat) (i j next : Nat)
    (hfsort : ts_sorted foreign_timestamps)
    (hosort : ts_sorted own_timestamps)
    (hflen : foreign_activities.length = foreign_timestamps.length)
    (holen : own_activities.length = own_timestamps.length) :
    (find_following_activity i next own_activities
        (cF2O foreign_timestamps own_timestamps)
        (cO2F foreign_timestamps own_timestamps) =
      match (List.range own_activities.length).find? (fun m =>
          decide (foreign_timestamps.getD i 0 ≤
            own_timestamps.getD m 0) &&
          decide (own_timestamps.getD m 0 <
            foreign_timestamps.getD (i + 1) 0)) with
      | some k => own_activities.getD k 0
      | none => next) ∧
    (find_following_activity j next foreign_activities
        (cO2F foreign_timestamps own_timestamps)
        (cF2O foreign_timestamps own_timestamps) =
      match (List.range foreign_activities.length).find? (fun m =>
          decide (own_timestamps.getD j 0 <
            foreign_timestamps.getD m 0) &&
          decide (foreign_timestamps.getD m 0 ≤
            own_timestamps.getD (j + 1) 0)) with
      | some k => foreign_activities.getD k 0
      | none => next) := by
  constructor
  · rw [find_following_activity_eq_find,
      find_window_char own_activities next
        (fun m => cF2O foreign_timestamps own_timestamps i m)
        (fun m => cO2F foreign_timestamps own_timestamps m (i + 1)) ?_]
    · have hpred : (fun m =>
          cF2O foreign_timestamps own_timestamps i m &&
          cO2F foreign_timestamps own_timestamps m (i + 1)) =
          (fun m =>
            decide (foreign_timestamps.getD i 0 ≤
              own_timestamps.getD m 0) &&
            decide (own_timestamps.getD m 0 <
              foreign_timestamps.getD (i + 1) 0)) := by
        funext m
        unfold cF2O cO2F comparison_fn
        congr 1
        rw [← decide_not, decide_eq_decide]
        omega
      rw [hpred]
    · intro u v hu hv huv hfail
      unfold cO2F comparison_fn at hfail ⊢
      simp only [Bool.not_eq_false', decide_eq_true_eq] at hfail
      simp only [Bool.not_eq_false', decide_eq_true_eq]
      calc foreign_timestamps.getD (i + 1) 0
          ≤ own_timestamps.getD u 0 := hfail
        _ ≤ own_timestamps.getD v 0 :=
            sorted_getD_mono hosort huv (holen ▸ hv)
  · rw [find_following_activity_eq_find,
      find_window_char foreign_activities next
        (fun m => cO2F foreign_timestamps own_timestamps j m)
        (fun m => cF2O foreign_timestamps own_timestamps m (j + 1)) ?_]
    · have hpred : (fun m =>
          cO2F foreign_timestamps own_timestamps j m &&
          cF2O foreign_timestamps own_timestamps m (j + 1)) =
          (fun m =>
            decide (own_timestamps.getD j 0 <
              foreign_timestamps.getD m 0) &&
            decide (foreign_timestamps.getD m 0 ≤
              own_timestamps.getD (j + 1) 0)) := by
        funext m
        unfold cF2O cO2F comparison_fn
        congr 1
        rw [← decide_not, decide_eq_decide]
        omega
      rw [hpred]
    · intro u v hu hv huv hfail
      unfold cF2O comparison_fn at hfail ⊢
      simp only [decide_eq_false_iff_not] at hfail
      simp only [decide_eq_false_iff_not]
      intro hle
      exact hfail (le_trans
        (sorted_getD_mono hfsort huv (hflen ▸ hv)) hle)

/-- C4 amended: in the merge of one shared case with both sides non-empty
and both timestamp vectors sorted ascending, the successor computed for
the A-side event a_i is the earliest (least-indexed) B-event whose
timestamp lies in the half-open window [t^A_i, t^A_{i+1}), or a_{i+1}
when no B-timestamp lies in that window — not the largest-indexed B-event
of the closed interval; symmetrically, the successor of the B-side event
b_j is the earliest A-event whose timestamp lies in the half-open window
(t^B_j, t^B_{j+1}], or b_{j+1}. -/
theorem C4_first_event_in_window
    (foreign_timestamps own_timestamps foreign_activities
      own_activities : List Nat) (i j next : Nat)
    (hfsort : ts_sorted foreign_timestamps)
    (hosort : ts_sorted own_timestamps)
    (hflen : foreign_activities.length = foreign_timestamps.length)
    (holen : own_activities.length = own_timestamps.length) :
    (find_following_activity i next own_activities
        (cF2O foreign_timestamps own_timestamps)
        (cO2F foreign_timestamps own_timestamps) =
      match (List.range own_activities.length).find? (fun m =>
          decide (foreign_timestamps.getD i 0 ≤
            own_timestamps.getD m 0) &&
          decide (own_timestamps.getD m 0 <
            foreign_timestamps.getD (i + 1) 0)) with
      | some k => own_activities.getD k 0
      | none => next) ∧
    (find_following_activity j next foreign_activities
        (cO2F foreign_timestamps own_timestamps)
        (cF2O foreign_timestamps own_timestamps) =
      match (List.range foreign_activities.length).find? (fun m =>
          decide (own_timestamps.getD j 0 <
            foreign_timestamps.getD m 0) &&
          decide (foreign_timestamps.getD m 0 ≤
            own_timestamps.getD (j + 1) 0)) with
      | some k => foreign_activities.getD k 0
      | none => next) :=
  ffa_window_both foreign_timestamps own_timestamps foreign_activities
    own_activities i j next hfsort hosort hflen holen

/-- C4 counterexample: with A-side timestamps [0, 10] and B-side
timestamps [2, 5] (B codes 4 and 5), the edge emitted for a_0 goes to 4 —
the earliest B-event of the window — while the claim's "largest-indexed
B-event of the closed interval [t_i, t_{i+1}]" formula names 5; the edge
(2, 5) is not emitted at all. -/
theorem C4_counterexample :
    find_secrets_for_case 0 1 [2, 3] [0, 10] [4, 5] [2, 5] =
      some [(0, 2), (2, 4), (4, 5), (3, 1), (5, 3)] ∧
    spec_largest_in_closed_window 0 10 [4, 5] [2, 5] 3 = 5 ∧
    (2, 5) ∉ [(0, 2), (2, 4), (4, 5), (3, 1), (5, 3)] := by
  refine ⟨by decide, by decide, by decide⟩

/-- Witness for C4: the characterization evaluated at the counterexample's
inputs yields the earliest in-window B-event. -/
theorem C4_witness :
    find_following_activity 0 3 [4, 5] (cF2O [0, 10] [2, 5])
      (cO2F [0, 10] [2, 5]) = 4 := by
  rw [(C4_first_event_in_window [0, 10] [2, 5] [2, 3] [4, 5] 0 0 3
    (by decide) (by decide) (by decide) (by decide)).1]
  decide

theorem df_pairs_eq_range_map (acts : List Nat) :
    (List.range (acts.length - 1)).map
        (fun i => (acts.getD i 0, acts.getD (i + 1) 0)) =
      df_pairs acts := by
  induction acts with
  | nil => rfl
  | cons a rest ih =>
    cases rest with
    | nil => rfl
    | cons b rest2 =>
      show (List.range (rest2.length + 1)).map _ = _
      rw [List.range_succ_eq_map, List.map_cons, List.map_map]
      have hshift : ((fun i =>
          ((a :: b :: rest2).getD i 0, (a :: b :: rest2).getD (i + 1) 0)) ∘
            Nat.succ) =
          (fun i => ((b :: rest2).getD i 0, (b :: rest2).getD (i + 1) 0)) :=
        by
        funext i
        rfl
      rw [hshift]
      have ih2 := ih
      show ((a, b) :: (List.range ((b :: rest2).length - 1)).map
          (fun i => ((b :: rest2).getD i 0, (b :: rest2).getD (i + 1) 0))) =
        df_pairs (a :: b :: rest2)
      rw [ih2]
      rfl

theorem getLastD_irrel (l : List Nat) (h : l ≠ []) (d1 d2 : Nat) :
    l.getLastD d1 = l.getLastD d2 := by
  cases l with
  | nil => exact absurd rfl h
  | cons x xs => rw [List.getLastD_cons, List.getLastD_cons]

theorem add_full_trace_perm (start_code end_code : Nat)
    (acts : List Nat) (h : acts ≠ []) :
    ∃ l, add_full_trace start_code end_code acts = some l ∧
      l.Perm (sentinel_df start_code end_code acts) := by
  cases acts with
  | nil => exact absurd rfl h
  | cons a rest =>
    refine ⟨_, rfl, ?_⟩
    show ([(start_code, a), ((a :: rest).getLastD 0, end_code)] ++
      (List.range ((a :: rest).length - 1)).map
        (fun i => ((a :: rest).getD i 0, (a :: rest).getD (i + 1) 0)))
      |>.Perm _
    rw [df_pairs_eq_range_map]
    show ((start_code, a) :: ((a :: rest).getLastD 0, end_code) ::
      df_pairs (a :: rest)).Perm
      ((start_code, a) :: (df_pairs (a :: rest) ++
        [((a :: rest).getLastD default, end_code)]))
    refine List.Perm.cons _ ?_
    have hd : (a :: rest).getLastD default = (a :: rest).getLastD 0 :=
      getLastD_irrel _ (by simp) _ _
    rw [hd]
    exact (List.perm_append_singleton _ _).symm

theorem merge_ne_nil (f o : List (Nat × Nat)) (hne : f ≠ [] ∨ o ≠ []) :
    merge_events f o ≠ [] := by
  cases f with
  | nil =>
    rw [merge_events_nil_left]
    rcases hne with h | h
    · exact absurd rfl h
    · exact h
  | cons fa fs =>
    cases o with
    | nil => rw [merge_events_nil_right]; simp
    | cons ob os =>
      rw [merge_events_cons]
      by_cases hc : fa.2 ≤ ob.2
      · simp [hc]
      · simp [hc]

theorem range_find?_succ (n : Nat) (p : Nat → Bool) :
    (List.range (n + 1)).find? p =
      if p 0 then some 0
      else ((List.range n).find? (fun i => p (i + 1))).map
        (fun i => i + 1) := by
  rw [List.range_succ_eq_map]
  cases hp : p 0 with
  | true =>
    rw [List.find?_cons_of_pos _ hp]
    rfl
  | false =>
    rw [List.find?_cons_of_neg _ (by simp [hp]), List.find?_map,
      if_neg (by simp)]
    rfl

/-- Peeling the other-side head off `find_following_activity` when the
loop's test rejects index 0. -/
theorem ffa_shift_other (pos next x : Nat) (xs : List Nat)
    (c2o o2t : Nat → Nat → Bool) (h0 : c2o pos 0 = false) :
    find_following_activity pos next (x :: xs) c2o o2t =
      find_following_activity pos next xs (fun a b => c2o a (b + 1))
        (fun a b => o2t (a + 1) b) := by
  rw [find_following_activity_eq_find, find_following_activity_eq_find]
  show (match (List.range (xs.length + 1)).find? (fun i => c2o pos i) with
    | some i => if o2t i (pos + 1) then (x :: xs).getD i 0 else next
    | none => next) = _
  rw [range_find?_succ, h0, if_neg (by simp : ¬ (false = true))]
  cases hfind : (List.range xs.length).find?
      (fun i => c2o pos (i + 1)) with
  | none => rfl
  | some k => rfl

/-- Peeling the other-side head off `handle_last` when the loop's test
rejects index 0. -/
theorem handle_last_shift (pos x : Nat) (xs : List Nat)
    (c2o : Nat → Nat → Bool) (end_code : Nat)
    (h0 : c2o pos 0 = false) :
    handle_last pos (x :: xs) c2o end_code =
      handle_last pos xs (fun a b => c2o a (b + 1)) end_code := by
  rw [handle_last_eq_find, handle_last_eq_find]
  show (match (List.range (xs.length + 1)).find? (fun i => c2o pos i) with
    | some i => (x :: xs).getD i 0
    | none => end_code) = _
  rw [range_find?_succ, h0, if_neg (by simp : ¬ (false = true))]
  cases hfind : (List.range xs.length).find?
      (fun i => c2o pos (i + 1)) with
  | none => rfl
  | some k => rfl

/-- The head of the per-case merge output: whichever side is non-empty,
the first emitted edge is the start edge toward the head of the
chronological merge. -/
theorem find_secrets_head_structure (start_code end_code : Nat)
    (f o : List (Nat × Nat)) (hne : f ≠ [] ∨ o ≠ []) :
    ∃ t, find_secrets_for_case start_code end_code
        (f.map Prod.fst) (f.map Prod.snd) (o.map Prod.fst)
        (o.map Prod.snd) =
      some ((start_code,
        ((merge_events f o).map Prod.fst).getD 0 0) :: t) := by
  cases f with
  | nil =>
    cases o with
    | nil =>
      rcases hne with h | h
      · exact absurd rfl h
      · exact absurd rfl h
    | cons ob os =>
      rw [merge_events_nil_left]
      exact ⟨_, rfl⟩
  | cons fa fs =>
    cases o with
    | nil =>
      rw [merge_events_nil_right]
      exact ⟨_, rfl⟩
    | cons ob os =>
      rw [merge_events_cons]
      obtain ⟨t, ht⟩ : ∃ t, find_secrets_for_case start_code end_code
          ((fa :: fs).map Prod.fst) ((fa :: fs).map Prod.snd)
          ((ob :: os).map Prod.fst) ((ob :: os).map Prod.snd) =
        some ((start_code,
          if cF2O ((fa :: fs).map Prod.snd) ((ob :: os).map Prod.snd) 0 0
          then ((fa :: fs).map Prod.fst).getD 0 0
          else ((ob :: os).map Prod.fst).getD 0 0) :: t) := ⟨_, rfl⟩
      refine ⟨t, ?_⟩
      rw [ht]
      by_cases hc : fa.2 ≤ ob.2
      · have hb : cF2O ((fa :: fs).map Prod.snd)
            ((ob :: os).map Prod.snd) 0 0 = true := decide_eq_true hc
        rw [if_pos hc]
        congr 2
        rw [if_pos hb]
        rfl
      · have hb : ¬ (cF2O ((fa :: fs).map Prod.snd)
            ((ob :: os).map Prod.snd) 0 0 = true) :=
          fun hh => hc (of_decide_eq_true hh)
        rw [if_neg hc]
        congr 2
        rw [if_neg hb]
        rfl

theorem ts_sorted_tail {x : Nat} {xs : List Nat}
    (h : ts_sorted (x :: xs)) : ts_sorted xs :=
  List.Pairwise.of_cons h

theorem ts_sorted_head_le {x : Nat} {xs : List Nat}
    (h : ts_sorted (x :: xs)) {j : Nat} (hj : j < (x :: xs).length) :
    x ≤ (x :: xs).getD j 0 := by
  have := sorted_getD_mono h (Nat.zero_le j) hj
  simpa using this

theorem sentinel_df_head (start_code end_code : Nat) (seq : List Nat)
    (h : seq ≠ []) :
    sentinel_df start_code end_code seq =
      (start_code, seq.getD 0 0) ::
        (df_pairs seq ++ [(seq.getLastD 0, end_code)]) := by
  cases seq with
  | nil => exact absurd rfl h
  | cons x rest =>
    show (start_code, x) :: (df_pairs (x :: rest) ++
        [((x :: rest).getLastD default, end_code)]) = _
    rw [List.getLastD_cons]
    show _ = (start_code, x) :: (df_pairs (x :: rest) ++
        [((x :: rest).getLastD 0, end_code)])
    rw [List.getLastD_cons]

theorem sentinel_df_cons_cons (start_code end_code x : Nat)
    (seq : List Nat) (h : seq ≠ []) :
    sentinel_df start_code end_code (x :: seq) =
      (start_code, x) :: ((x, seq.getD 0 0) ::
        (df_pairs seq ++ [(seq.getLastD 0, end_code)])) := by
  cases seq with
  | nil => exact absurd rfl h
  | cons y rest =>
    show (start_code, x) :: (df_pairs (x :: y :: rest) ++
        [((x :: y :: rest).getLastD default, end_code)]) = _
    rw [List.getLastD_cons, List.getLastD_cons]
    show (start_code, x) :: ((x, y) :: (df_pairs (y :: rest) ++
        [(rest.getLastD y, end_code)])) = _
    rw [show (y :: rest).getD 0 0 = y from rfl, List.getLastD_cons]

theorem perm_extract_middle {α : Type} (l1 l2 l3 r : List α) (a : α)
    (h : (l1 ++ l2 ++ l3).Perm r) :
    (l1 ++ (a :: l2) ++ l3).Perm (a :: r) := by
  have e : l1 ++ (a :: l2) ++ l3 = l1 ++ a :: (l2 ++ l3) := by
    simp [List.append_assoc]
  rw [e]
  refine List.Perm.trans List.perm_middle (List.Perm.cons a ?_)
  rw [← List.append_assoc]
  exact h

theorem perm_append_two {α : Type} (l : List α) (x y : α) :
    (l ++ [x, y]).Perm (y :: (l ++ [x])) := by
  have he : l ++ [x, y] = (l ++ [x]) ++ [y] :=
    (List.append_assoc l [x] [y]).symm
  rw [he]
  exact List.perm_append_singleton _ _

theorem find_secrets_perm_aux (start_code end_code : Nat) :
    ∀ (n : Nat) (f o : List (Nat × Nat)),
      f.length + o.length ≤ n →
      ts_sorted (f.map Prod.snd) → ts_sorted (o.map Prod.snd) →
      f ≠ [] ∨ o ≠ [] →
      ∃ l, find_secrets_for_case start_code end_code
          (f.map Prod.fst) (f.map Prod.snd) (o.map Prod.fst)
          (o.map Prod.snd) = some l ∧
        l.Perm (sentinel_df start_code end_code
          ((merge_events f o).map Prod.fst)) := by
  intro n
  induction n with
  | zero =>
    intro f o hlen _ _ hne
    match f, o with
    | [], [] => rcases hne with h | h <;> exact absurd rfl h
    | a :: _, _ => simp at hlen
    | [], a :: _ => simp at hlen
  | succ n ih =>
    intro f o hlen hf ho hne
    match f, o with
    | [], [] => rcases hne with h | h <;> exact absurd rfl h
    | [], ob :: os =>
      rw [merge_events_nil_left]
      show ∃ l, add_full_trace start_code end_code
          ((ob :: os).map Prod.fst) = some l ∧
        l.Perm (sentinel_df start_code end_code ((ob :: os).map Prod.fst))
      exact add_full_trace_perm _ _ _ (by simp)
    | fa :: fs, [] =>
      rw [merge_events_nil_right]
      show ∃ l, add_full_trace start_code end_code
          ((fa :: fs).map Prod.fst) = some l ∧
        l.Perm (sentinel_df start_code end_code ((fa :: fs).map Prod.fst))
      exact add_full_trace_perm _ _ _ (by simp)
    | fa :: fs, ob :: os =>
      have hts : find_secrets_for_case start_code end_code
          ((fa :: fs).map Prod.fst) ((fa :: fs).map Prod.snd)
          ((ob :: os).map Prod.fst) ((ob :: os).map Prod.snd) =
        some ((start_code,
            if cF2O ((fa :: fs).map Prod.snd) ((ob :: os).map Prod.snd)
                0 0
            then ((fa :: fs).map Prod.fst).getD 0 0
            else ((ob :: os).map Prod.fst).getD 0 0) ::
          ((List.range (((fa :: fs).map Prod.fst).length - 1)).map
              (fun i => (((fa :: fs).map Prod.fst).getD i 0,
                find_following_activity i
                  (((fa :: fs).map Prod.fst).getD (i + 1) 0)
                  ((ob :: os).map Prod.fst)
                  (cF2O ((fa :: fs).map Prod.snd)
                    ((ob :: os).map Prod.snd))
                  (cO2F ((fa :: fs).map Prod.snd)
                    ((ob :: os).map Prod.snd)))) ++
            (List.range (((ob :: os).map Prod.fst).length - 1)).map
              (fun j => (((ob :: os).map Prod.fst).getD j 0,
                find_following_activity j
                  (((ob :: os).map Prod.fst).getD (j + 1) 0)
                  ((fa :: fs).map Prod.fst)
                  (cO2F ((fa :: fs).map Prod.snd)
                    ((ob :: os).map Prod.snd))
                  (cF2O ((fa :: fs).map Prod.snd)
                    ((ob :: os).map Prod.snd)))) ++
            [(((fa :: fs).map Prod.fst).getLastD 0,
              handle_last (((fa :: fs).map Prod.fst).length - 1)
                ((ob :: os).map Prod.fst)
                (cF2O ((fa :: fs).map Prod.snd) ((ob :: os).map Prod.snd))
                end_code),
             (((ob :: os).map Prod.fst).getLastD 0,
              handle_last (((ob :: os).map Prod.fst).length - 1)
                ((fa :: fs).map Prod.fst)
                (cO2F ((fa :: fs).map Prod.snd) ((ob :: os).map Prod.snd))
                end_code)])) := rfl
      by_cases hle : fa.2 ≤ ob.2
      · rw [merge_events_cons, if_pos hle]
        have hb : cF2O ((fa :: fs).map Prod.snd) ((ob :: os).map Prod.snd)
            0 0 = true := decide_eq_true hle
        cases fs with
        | nil =>
          rw [merge_events_nil_left]
          refine ⟨_, hts, ?_⟩
          rw [if_pos hb]
          have hOE : (List.range ((((ob :: os)).map Prod.fst).length - 1)).map
              (fun j => (((ob :: os).map Prod.fst).getD j 0,
                find_following_activity j
                  (((ob :: os).map Prod.fst).getD (j + 1) 0)
                  ((fa :: ([] : List (Nat × Nat))).map Prod.fst)
                  (cO2F ((fa :: ([] : List (Nat × Nat))).map Prod.snd)
                    ((ob :: os).map Prod.snd))
                  (cF2O ((fa :: ([] : List (Nat × Nat))).map Prod.snd)
                    ((ob :: os).map Prod.snd)))) =
              df_pairs ((ob :: os).map Prod.fst) := by
            rw [← df_pairs_eq_range_map]
            apply List.map_congr_left
            intro j hj
            rw [List.mem_range] at hj
            simp only [List.length_map, List.length_cons] at hj
            congr 1
            rw [find_following_activity_eq_find]
            have hcond : cO2F ((fa :: ([] : List (Nat × Nat))).map Prod.snd)
                ((ob :: os).map Prod.snd) j 0 = false := by
              have hle2 : fa.2 ≤ ((ob :: os).map Prod.snd).getD j 0 := by
                refine le_trans hle
                  (sorted_getD_mono ho (Nat.zero_le j) ?_)
                simp only [List.length_map, List.length_cons]
                omega
              show (!(comparison_fn fa.2
                (((ob :: os).map Prod.snd).getD j 0))) = false
              simp only [comparison_fn, Bool.not_eq_false',
                decide_eq_true_eq]
              exact hle2
            have hp0 : ¬ ((fun i => cO2F
                ((fa :: ([] : List (Nat × Nat))).map Prod.snd)
                ((ob :: os).map Prod.snd) j i) 0 = true) := by
              intro hcontra
              have hc2 : cO2F ((fa :: ([] : List (Nat × Nat))).map
                  Prod.snd) ((ob :: os).map Prod.snd) j 0 = true := hcontra
              rw [hcond] at hc2
              exact Bool.false_ne_true hc2
            rw [show List.range (((fa :: ([] : List (Nat × Nat))).map
              Prod.fst).length) = [0] from rfl]
            rw [List.find?_cons_of_neg _ hp0]
            rfl
          have hLF : handle_last
              (((fa :: ([] : List (Nat × Nat))).map Prod.fst).length - 1)
              ((ob :: os).map Prod.fst)
              (cF2O ((fa :: ([] : List (Nat × Nat))).map Prod.snd)
                ((ob :: os).map Prod.snd))
              end_code = ob.1 := by
            rw [handle_last_eq_find]
            have hfind : (List.range
                (((ob :: os).map Prod.fst).length)).find?
                (fun i => cF2O
                  ((fa :: ([] : List (Nat × Nat))).map Prod.snd)
                  ((ob :: os).map Prod.snd)
                  (((fa :: ([] : List (Nat × Nat))).map
                    Prod.fst).length - 1) i) = some 0 := by
              apply ((range_find?_eq_some _ _) 0).mpr
              refine ⟨by simp, ?_, fun k hk => absurd hk
                (Nat.not_lt_zero k)⟩
              exact decide_eq_true hle
            rw [hfind]
            rfl
          have hLO : handle_last ((((ob :: os)).map Prod.fst).length - 1)
              ((fa :: ([] : List (Nat × Nat))).map Prod.fst)
              (cO2F ((fa :: ([] : List (Nat × Nat))).map Prod.snd)
                ((ob :: os).map Prod.snd))
              end_code = end_code := by
            rw [handle_last_eq_find]
            have hcond : cO2F ((fa :: ([] : List (Nat × Nat))).map
                Prod.snd) ((ob :: os).map Prod.snd)
                ((((ob :: os)).map Prod.fst).length - 1) 0 = false := by
              have hle2 : fa.2 ≤ ((ob :: os).map Prod.snd).getD
                  ((((ob :: os)).map Prod.fst).length - 1) 0 := by
                refine le_trans hle
                  (sorted_getD_mono ho (Nat.zero_le _) ?_)
                simp only [List.length_map, List.length_cons]
                omega
              show (!(comparison_fn fa.2
                (((ob :: os).map Prod.snd).getD
                  ((((ob :: os)).map Prod.fst).length - 1) 0))) = false
              simp only [comparison_fn, Bool.not_eq_false',
                decide_eq_true_eq]
              exact hle2
            have hp0 : ¬ ((fun i => cO2F
                ((fa :: ([] : List (Nat × Nat))).map Prod.snd)
                ((ob :: os).map Prod.snd)
                ((((ob :: os)).map Prod.fst).length - 1) i) 0 = true) := by
              intro hcontra
              have hc2 : cO2F ((fa :: ([] : List (Nat × Nat))).map
                  Prod.snd) ((ob :: os).map Prod.snd)
                  ((((ob :: os)).map Prod.fst).length - 1) 0 = true :=
                hcontra
              rw [hcond] at hc2
              exact Bool.false_ne_true hc2
            rw [show List.range (((fa :: ([] : List (Nat × Nat))).map
              Prod.fst).length) = [0] from rfl]
            rw [List.find?_cons_of_neg _ hp0]
            rfl
          rw [hOE, hLF, hLO]
          have hsent : sentinel_df start_code end_code
              ((fa :: ob :: os).map Prod.fst) =
            (start_code, fa.1) :: ((fa.1, ob.1) ::
              (df_pairs ((ob :: os).map Prod.fst) ++
                [(((ob :: os).map Prod.fst).getLastD 0, end_code)])) := by
            show (start_code, fa.1) ::
              (df_pairs (fa.1 :: (ob :: os).map Prod.fst) ++
                [((fa.1 :: (ob :: os).map Prod.fst).getLastD default,
                  end_code)]) = _
            rw [List.getLastD_cons,
              getLastD_irrel ((ob :: os).map Prod.fst) (by simp) fa.1 0]
            rfl
          rw [hsent]
          refine List.Perm.cons _ ?_
          show (df_pairs ((ob :: os).map Prod.fst) ++
            ((fa.1, ob.1) ::
              [(((ob :: os).map Prod.fst).getLastD 0, end_code)])).Perm
            ((fa.1, ob.1) :: (df_pairs ((ob :: os).map Prod.fst) ++
              [(((ob :: os).map Prod.fst).getLastD 0, end_code)]))
          exact List.perm_middle
        | cons fa2 fs' =>
          have hf' : ts_sorted ((fa2 :: fs').map Prod.snd) :=
            ts_sorted_tail hf
          have hlen' : (fa2 :: fs').length + (ob :: os).length ≤ n := by
            simp only [List.length_cons] at hlen
            simp only [List.length_cons]
            omega
          obtain ⟨l', hsub, hperm⟩ := ih (fa2 :: fs') (ob :: os) hlen'
            hf' ho (Or.inr (by simp))
          have hts' : find_secrets_for_case start_code end_code
              ((fa2 :: fs').map Prod.fst) ((fa2 :: fs').map Prod.snd)
              ((ob :: os).map Prod.fst) ((ob :: os).map Prod.snd) =
            some ((start_code,
                if cF2O ((fa2 :: fs').map Prod.snd)
                    ((ob :: os).map Prod.snd) 0 0
                then ((fa2 :: fs').map Prod.fst).getD 0 0
                else ((ob :: os).map Prod.fst).getD 0 0) ::
              ((List.range (((fa2 :: fs').map Prod.fst).length - 1)).map
                  (fun i => (((fa2 :: fs').map Prod.fst).getD i 0,
                    find_following_activity i
                      (((fa2 :: fs').map Prod.fst).getD (i + 1) 0)
                      ((ob :: os).map Prod.fst)
                      (cF2O ((fa2 :: fs').map Prod.snd)
                        ((ob :: os).map Prod.snd))
                      (cO2F ((fa2 :: fs').map Prod.snd)
                        ((ob :: os).map Prod.snd)))) ++
                (List.range (((ob :: os).map Prod.fst).length - 1)).map
                  (fun j => (((ob :: os).map Prod.fst).getD j 0,
                    find_following_activity j
                      (((ob :: os).map Prod.fst).getD (j + 1) 0)
                      ((fa2 :: fs').map Prod.fst)
                      (cO2F ((fa2 :: fs').map Prod.snd)
                        ((ob :: os).map Prod.snd))
                      (cF2O ((fa2 :: fs').map Prod.snd)
                        ((ob :: os).map Prod.snd)))) ++
                [(((fa2 :: fs').map Prod.fst).getLastD 0,
                  handle_last (((fa2 :: fs').map Prod.fst).length - 1)
                    ((ob :: os).map Prod.fst)
                    (cF2O ((fa2 :: fs').map Prod.snd)
                      ((ob :: os).map Prod.snd))
                    end_code),
                 (((ob :: os).map Prod.fst).getLastD 0,
                  handle_last (((ob :: os).map Prod.fst).length - 1)
                    ((fa2 :: fs').map Prod.fst)
                    (cO2F ((fa2 :: fs').map Prod.snd)
                      ((ob :: os).map Prod.snd))
                    end_code)])) := rfl
          have hMne : (merge_events (fa2 :: fs') (ob :: os)).map
              Prod.fst ≠ [] := by
            have hm := merge_ne_nil (fa2 :: fs') (ob :: os)
              (Or.inr (by simp))
            intro hcon
            exact hm (by simpa using hcon)
          have hm0 : ((merge_events (fa2 :: fs') (ob :: os)).map
              Prod.fst).getD 0 0 =
              if fa2.2 <= ob.2 then fa2.1 else ob.1 := by
            rw [merge_events_cons]
            by_cases hc : fa2.2 <= ob.2
            · rw [if_pos hc, if_pos hc]
              rfl
            · rw [if_neg hc, if_neg hc]
              rfl
          have hFE0 : find_following_activity 0
              (((fa :: fa2 :: fs').map Prod.fst).getD (0 + 1) 0)
              ((ob :: os).map Prod.fst)
              (cF2O ((fa :: fa2 :: fs').map Prod.snd)
                ((ob :: os).map Prod.snd))
              (cO2F ((fa :: fa2 :: fs').map Prod.snd)
                ((ob :: os).map Prod.snd)) =
              ((merge_events (fa2 :: fs') (ob :: os)).map
                Prod.fst).getD 0 0 := by
            rw [find_following_activity_eq_find]
            have hfind : (List.range
                (((ob :: os).map Prod.fst).length)).find?
                (fun i => cF2O ((fa :: fa2 :: fs').map Prod.snd)
                  ((ob :: os).map Prod.snd) 0 i) = some 0 := by
              apply ((range_find?_eq_some _ _) 0).mpr
              exact ⟨by simp, decide_eq_true hle,
                fun k hk => absurd hk (Nat.not_lt_zero k)⟩
            rw [hfind, hm0]
            show (if cO2F ((fa :: fa2 :: fs').map Prod.snd)
                ((ob :: os).map Prod.snd) 0 (0 + 1)
              then ((ob :: os).map Prod.fst).getD 0 0
              else ((fa :: fa2 :: fs').map Prod.fst).getD (0 + 1) 0) = _
            by_cases hc : fa2.2 <= ob.2
            · have hup : cO2F ((fa :: fa2 :: fs').map Prod.snd)
                  ((ob :: os).map Prod.snd) 0 (0 + 1) = false := by
                show (!(comparison_fn fa2.2 ob.2)) = false
                simp only [comparison_fn, Bool.not_eq_false',
                  decide_eq_true_eq]
                exact hc
              rw [if_neg (fun hcontra =>
                  Bool.false_ne_true (hup.symm.trans hcontra)),
                if_pos hc]
              rfl
            · have hup : cO2F ((fa :: fa2 :: fs').map Prod.snd)
                  ((ob :: os).map Prod.snd) 0 (0 + 1) = true := by
                show (!(comparison_fn fa2.2 ob.2)) = true
                simp only [comparison_fn, Bool.not_eq_true',
                  decide_eq_false_iff_not]
                exact hc
              rw [if_pos hup, if_neg hc]
              rfl
          have hFEbig : (List.range
              (((fa :: fa2 :: fs').map Prod.fst).length - 1)).map
              (fun i => (((fa :: fa2 :: fs').map Prod.fst).getD i 0,
                find_following_activity i
                  (((fa :: fa2 :: fs').map Prod.fst).getD (i + 1) 0)
                  ((ob :: os).map Prod.fst)
                  (cF2O ((fa :: fa2 :: fs').map Prod.snd)
                    ((ob :: os).map Prod.snd))
                  (cO2F ((fa :: fa2 :: fs').map Prod.snd)
                    ((ob :: os).map Prod.snd)))) =
            (fa.1, ((merge_events (fa2 :: fs') (ob :: os)).map
              Prod.fst).getD 0 0) ::
              (List.range (((fa2 :: fs').map Prod.fst).length - 1)).map
                (fun i => (((fa2 :: fs').map Prod.fst).getD i 0,
                  find_following_activity i
                    (((fa2 :: fs').map Prod.fst).getD (i + 1) 0)
                    ((ob :: os).map Prod.fst)
                    (cF2O ((fa2 :: fs').map Prod.snd)
                      ((ob :: os).map Prod.snd))
                    (cO2F ((fa2 :: fs').map Prod.snd)
                      ((ob :: os).map Prod.snd)))) := by
            rw [show (((fa :: fa2 :: fs').map Prod.fst).length - 1) =
              ((((fa2 :: fs').map Prod.fst).length - 1) + 1) from by simp]
            rw [List.range_succ_eq_map, List.map_cons, List.map_map]
            congr 1
            · show (((fa :: fa2 :: fs').map Prod.fst).getD 0 0,
                find_following_activity 0
                  (((fa :: fa2 :: fs').map Prod.fst).getD (0 + 1) 0)
                  ((ob :: os).map Prod.fst)
                  (cF2O ((fa :: fa2 :: fs').map Prod.snd)
                    ((ob :: os).map Prod.snd))
                  (cO2F ((fa :: fa2 :: fs').map Prod.snd)
                    ((ob :: os).map Prod.snd))) = _
              rw [hFE0]
              exact rfl
          have hOEbig : (List.range
              (((ob :: os).map Prod.fst).length - 1)).map
              (fun j => (((ob :: os).map Prod.fst).getD j 0,
                find_following_activity j
                  (((ob :: os).map Prod.fst).getD (j + 1) 0)
                  ((fa :: fa2 :: fs').map Prod.fst)
                  (cO2F ((fa :: fa2 :: fs').map Prod.snd)
                    ((ob :: os).map Prod.snd))
                  (cF2O ((fa :: fa2 :: fs').map Prod.snd)
                    ((ob :: os).map Prod.snd)))) =
            (List.range (((ob :: os).map Prod.fst).length - 1)).map
              (fun j => (((ob :: os).map Prod.fst).getD j 0,
                find_following_activity j
                  (((ob :: os).map Prod.fst).getD (j + 1) 0)
                  ((fa2 :: fs').map Prod.fst)
                  (cO2F ((fa2 :: fs').map Prod.snd)
                    ((ob :: os).map Prod.snd))
                  (cF2O ((fa2 :: fs').map Prod.snd)
                    ((ob :: os).map Prod.snd)))) := by
            apply List.map_congr_left
            intro j hj
            rw [List.mem_range] at hj
            simp only [List.length_map, List.length_cons] at hj
            congr 1
            have h0j : cO2F ((fa :: fa2 :: fs').map Prod.snd)
                ((ob :: os).map Prod.snd) j 0 = false := by
              have hle2 : fa.2 <= ((ob :: os).map Prod.snd).getD j 0 := by
                refine le_trans hle
                  (sorted_getD_mono ho (Nat.zero_le j) ?_)
                simp only [List.length_map, List.length_cons]
                omega
              show (!(comparison_fn fa.2
                (((ob :: os).map Prod.snd).getD j 0))) = false
              simp only [comparison_fn, Bool.not_eq_false',
                decide_eq_true_eq]
              exact hle2
            rw [show ((fa :: fa2 :: fs').map Prod.fst) =
              fa.1 :: ((fa2 :: fs').map Prod.fst) from rfl]
            rw [ffa_shift_other j
              (((ob :: os).map Prod.fst).getD (j + 1) 0) fa.1
              ((fa2 :: fs').map Prod.fst)
              (cO2F ((fa :: fa2 :: fs').map Prod.snd)
                ((ob :: os).map Prod.snd))
              (cF2O ((fa :: fa2 :: fs').map Prod.snd)
                ((ob :: os).map Prod.snd)) h0j]
            rfl
          have hLObig : handle_last
              (((ob :: os).map Prod.fst).length - 1)
              ((fa :: fa2 :: fs').map Prod.fst)
              (cO2F ((fa :: fa2 :: fs').map Prod.snd)
                ((ob :: os).map Prod.snd)) end_code =
            handle_last (((ob :: os).map Prod.fst).length - 1)
              ((fa2 :: fs').map Prod.fst)
              (cO2F ((fa2 :: fs').map Prod.snd)
                ((ob :: os).map Prod.snd)) end_code := by
            have h0 : cO2F ((fa :: fa2 :: fs').map Prod.snd)
                ((ob :: os).map Prod.snd)
                (((ob :: os).map Prod.fst).length - 1) 0 = false := by
              have hle2 : fa.2 <= ((ob :: os).map Prod.snd).getD
                  (((ob :: os).map Prod.fst).length - 1) 0 := by
                refine le_trans hle
                  (sorted_getD_mono ho (Nat.zero_le _) ?_)
                simp only [List.length_map, List.length_cons]
                omega
              show (!(comparison_fn fa.2 (((ob :: os).map Prod.snd).getD
                (((ob :: os).map Prod.fst).length - 1) 0))) = false
              simp only [comparison_fn, Bool.not_eq_false',
                decide_eq_true_eq]
              exact hle2
            rw [show ((fa :: fa2 :: fs').map Prod.fst) =
              fa.1 :: ((fa2 :: fs').map Prod.fst) from rfl]
            rw [handle_last_shift _ fa.1 _ _ _ h0]
            rfl
          have hSE' : (if cF2O ((fa2 :: fs').map Prod.snd)
                ((ob :: os).map Prod.snd) 0 0
              then ((fa2 :: fs').map Prod.fst).getD 0 0
              else ((ob :: os).map Prod.fst).getD 0 0) =
              ((merge_events (fa2 :: fs') (ob :: os)).map
                Prod.fst).getD 0 0 := by
            rw [hm0]
            by_cases hc : fa2.2 <= ob.2
            · have hb2 : cF2O ((fa2 :: fs').map Prod.snd)
                  ((ob :: os).map Prod.snd) 0 0 = true :=
                decide_eq_true hc
              rw [if_pos hb2, if_pos hc]
              rfl
            · have hb2 : ¬ (cF2O ((fa2 :: fs').map Prod.snd)
                  ((ob :: os).map Prod.snd) 0 0 = true) :=
                fun hh => hc (of_decide_eq_true hh)
              rw [if_neg hb2, if_neg hc]
              rfl
          have hl' := Option.some.inj (hsub.symm.trans hts')
          rw [hSE'] at hl'
          rw [sentinel_df_head start_code end_code _ hMne] at hperm
          rw [hl'] at hperm
          have htail := hperm.cons_inv
          refine ⟨_, hts, ?_⟩
          rw [if_pos hb, hFEbig, hOEbig, hLObig]
          rw [show ((fa :: merge_events (fa2 :: fs') (ob :: os)).map
            Prod.fst) = fa.1 :: ((merge_events (fa2 :: fs')
              (ob :: os)).map Prod.fst) from rfl]
          rw [sentinel_df_cons_cons start_code end_code fa.1 _ hMne]
          exact List.Perm.cons _ (List.Perm.cons _ htail)
      · rw [merge_events_cons, if_neg hle]
        have hbF : ¬ (cF2O ((fa :: fs).map Prod.snd)
            ((ob :: os).map Prod.snd) 0 0 = true) :=
          fun hh => hle (of_decide_eq_true hh)
        have hlt : ob.2 < fa.2 := Nat.lt_of_not_le hle
        cases os with
        | nil =>
          rw [merge_events_nil_right]
          refine ⟨_, hts, ?_⟩
          rw [if_neg hbF]
          have hFE : (List.range
              (((fa :: fs).map Prod.fst).length - 1)).map
              (fun i => (((fa :: fs).map Prod.fst).getD i 0,
                find_following_activity i
                  (((fa :: fs).map Prod.fst).getD (i + 1) 0)
                  ((ob :: ([] : List (Nat × Nat))).map Prod.fst)
                  (cF2O ((fa :: fs).map Prod.snd)
                    ((ob :: ([] : List (Nat × Nat))).map Prod.snd))
                  (cO2F ((fa :: fs).map Prod.snd)
                    ((ob :: ([] : List (Nat × Nat))).map Prod.snd)))) =
              df_pairs ((fa :: fs).map Prod.fst) := by
            rw [← df_pairs_eq_range_map]
            apply List.map_congr_left
            intro i hi
            rw [List.mem_range] at hi
            simp only [List.length_map, List.length_cons] at hi
            congr 1
            rw [find_following_activity_eq_find]
            have hcond : cF2O ((fa :: fs).map Prod.snd)
                ((ob :: ([] : List (Nat × Nat))).map Prod.snd) i 0 =
                false := by
              have hlt2 : ob.2 < ((fa :: fs).map Prod.snd).getD i 0 := by
                refine lt_of_lt_of_le hlt
                  (sorted_getD_mono hf (Nat.zero_le i) ?_)
                simp only [List.length_map, List.length_cons]
                omega
              show comparison_fn (((fa :: fs).map Prod.snd).getD i 0)
                ob.2 = false
              simp only [comparison_fn, decide_eq_false_iff_not]
              exact Nat.not_le.mpr hlt2
            have hp0 : ¬ ((fun k => cF2O ((fa :: fs).map Prod.snd)
                ((ob :: ([] : List (Nat × Nat))).map Prod.snd) i k) 0 =
                true) := by
              intro hcontra
              have hc2 : cF2O ((fa :: fs).map Prod.snd)
                  ((ob :: ([] : List (Nat × Nat))).map Prod.snd) i 0 =
                  true := hcontra
              rw [hcond] at hc2
              exact Bool.false_ne_true hc2
            rw [show List.range (((ob :: ([] : List (Nat × Nat))).map
              Prod.fst).length) = [0] from rfl]
            rw [List.find?_cons_of_neg _ hp0]
            rfl
          have hOEnil : (List.range
              (((ob :: ([] : List (Nat × Nat))).map Prod.fst).length -
                1)).map
              (fun j => (((ob :: ([] : List (Nat × Nat))).map
                  Prod.fst).getD j 0,
                find_following_activity j
                  (((ob :: ([] : List (Nat × Nat))).map Prod.fst).getD
                    (j + 1) 0)
                  ((fa :: fs).map Prod.fst)
                  (cO2F ((fa :: fs).map Prod.snd)
                    ((ob :: ([] : List (Nat × Nat))).map Prod.snd))
                  (cF2O ((fa :: fs).map Prod.snd)
                    ((ob :: ([] : List (Nat × Nat))).map Prod.snd)))) =
              ([] : List (Nat × Nat)) := rfl
          have hLF : handle_last (((fa :: fs).map Prod.fst).length - 1)
              ((ob :: ([] : List (Nat × Nat))).map Prod.fst)
              (cF2O ((fa :: fs).map Prod.snd)
                ((ob :: ([] : List (Nat × Nat))).map Prod.snd))
              end_code = end_code := by
            rw [handle_last_eq_find]
            have hcond : cF2O ((fa :: fs).map Prod.snd)
                ((ob :: ([] : List (Nat × Nat))).map Prod.snd)
                (((fa :: fs).map Prod.fst).length - 1) 0 = false := by
              have hlt2 : ob.2 < ((fa :: fs).map Prod.snd).getD
                  (((fa :: fs).map Prod.fst).length - 1) 0 := by
                refine lt_of_lt_of_le hlt
                  (sorted_getD_mono hf (Nat.zero_le _) ?_)
                simp only [List.length_map, List.length_cons]
                omega
              show comparison_fn (((fa :: fs).map Prod.snd).getD
                (((fa :: fs).map Prod.fst).length - 1) 0) ob.2 = false
              simp only [comparison_fn, decide_eq_false_iff_not]
              exact Nat.not_le.mpr hlt2
            have hp0 : ¬ ((fun k => cF2O ((fa :: fs).map Prod.snd)
                ((ob :: ([] : List (Nat × Nat))).map Prod.snd)
                (((fa :: fs).map Prod.fst).length - 1) k) 0 = true) := by
              intro hcontra
              have hc2 : cF2O ((fa :: fs).map Prod.snd)
                  ((ob :: ([] : List (Nat × Nat))).map Prod.snd)
                  (((fa :: fs).map Prod.fst).length - 1) 0 = true :=
                hcontra
              rw [hcond] at hc2
              exact Bool.false_ne_true hc2
            rw [show List.range (((ob :: ([] : List (Nat × Nat))).map
              Prod.fst).length) = [0] from rfl]
            rw [List.find?_cons_of_neg _ hp0]
            rfl
          have hLO : handle_last
              (((ob :: ([] : List (Nat × Nat))).map Prod.fst).length - 1)
              ((fa :: fs).map Prod.fst)
              (cO2F ((fa :: fs).map Prod.snd)
                ((ob :: ([] : List (Nat × Nat))).map Prod.snd))
              end_code = fa.1 := by
            rw [handle_last_eq_find]
            have hfind : (List.range
                (((fa :: fs).map Prod.fst).length)).find?
                (fun i => cO2F ((fa :: fs).map Prod.snd)
                  ((ob :: ([] : List (Nat × Nat))).map Prod.snd)
                  (((ob :: ([] : List (Nat × Nat))).map
                    Prod.fst).length - 1) i) = some 0 := by
              apply ((range_find?_eq_some _ _) 0).mpr
              refine ⟨by simp, ?_, fun k hk => absurd hk
                (Nat.not_lt_zero k)⟩
              show (!(comparison_fn fa.2 ob.2)) = true
              simp only [comparison_fn, Bool.not_eq_true',
                decide_eq_false_iff_not]
              exact hle
            rw [hfind]
            rfl
          have hsent : sentinel_df start_code end_code
              ((ob :: fa :: fs).map Prod.fst) =
            (start_code, ob.1) :: ((ob.1, fa.1) ::
              (df_pairs ((fa :: fs).map Prod.fst) ++
                [(((fa :: fs).map Prod.fst).getLastD 0, end_code)])) := by
            show (start_code, ob.1) ::
              (df_pairs (ob.1 :: (fa :: fs).map Prod.fst) ++
                [((ob.1 :: (fa :: fs).map Prod.fst).getLastD default,
                  end_code)]) = _
            rw [List.getLastD_cons,
              getLastD_irrel ((fa :: fs).map Prod.fst) (by simp) ob.1 0]
            rfl
          rw [hFE, hOEnil, List.append_nil, hLF, hLO, hsent]
          refine List.Perm.cons _ ?_
          exact perm_append_two _ _ _
        | cons o2 os' =>
          have ho' : ts_sorted ((o2 :: os').map Prod.snd) :=
            ts_sorted_tail ho
          have hlen' : (fa :: fs).length + (o2 :: os').length ≤ n := by
            simp only [List.length_cons] at hlen
            simp only [List.length_cons]
            omega
          obtain ⟨l', hsub, hperm⟩ := ih (fa :: fs) (o2 :: os') hlen'
            hf ho' (Or.inl (by simp))
          have hts' : find_secrets_for_case start_code end_code
              ((fa :: fs).map Prod.fst) ((fa :: fs).map Prod.snd)
              ((o2 :: os').map Prod.fst) ((o2 :: os').map Prod.snd) =
            some ((start_code,
                if cF2O ((fa :: fs).map Prod.snd)
                    ((o2 :: os').map Prod.snd) 0 0
                then ((fa :: fs).map Prod.fst).getD 0 0
                else ((o2 :: os').map Prod.fst).getD 0 0) ::
              ((List.range (((fa :: fs).map Prod.fst).length - 1)).map
                  (fun i => (((fa :: fs).map Prod.fst).getD i 0,
                    find_following_activity i
                      (((fa :: fs).map Prod.fst).getD (i + 1) 0)
                      ((o2 :: os').map Prod.fst)
                      (cF2O ((fa :: fs).map Prod.snd)
                        ((o2 :: os').map Prod.snd))
                      (cO2F ((fa :: fs).map Prod.snd)
                        ((o2 :: os').map Prod.snd)))) ++
                (List.range (((o2 :: os').map Prod.fst).length - 1)).map
                  (fun j => (((o2 :: os').map Prod.fst).getD j 0,
                    find_following_activity j
                      (((o2 :: os').map Prod.fst).getD (j + 1) 0)
                      ((fa :: fs).map Prod.fst)
                      (cO2F ((fa :: fs).map Prod.snd)
                        ((o2 :: os').map Prod.snd))
                      (cF2O ((fa :: fs).map Prod.snd)
                        ((o2 :: os').map Prod.snd)))) ++
                [(((fa :: fs).map Prod.fst).getLastD 0,
                  handle_last (((fa :: fs).map Prod.fst).length - 1)
                    ((o2 :: os').map Prod.fst)
                    (cF2O ((fa :: fs).map Prod.snd)
                      ((o2 :: os').map Prod.snd))
                    end_code),
                 (((o2 :: os').map Prod.fst).getLastD 0,
                  handle_last (((o2 :: os').map Prod.fst).length - 1)
                    ((fa :: fs).map Prod.fst)
                    (cO2F ((fa :: fs).map Prod.snd)
                      ((o2 :: os').map Prod.snd))
                    end_code)])) := rfl
          have hMne : (merge_events (fa :: fs) (o2 :: os')).map
              Prod.fst ≠ [] := by
            have hm := merge_ne_nil (fa :: fs) (o2 :: os')
              (Or.inl (by simp))
            intro hcon
            exact hm (by simpa using hcon)
          have hm0 : ((merge_events (fa :: fs) (o2 :: os')).map
              Prod.fst).getD 0 0 =
              if fa.2 <= o2.2 then fa.1 else o2.1 := by
            rw [merge_events_cons]
            by_cases hc : fa.2 <= o2.2
            · rw [if_pos hc, if_pos hc]
              rfl
            · rw [if_neg hc, if_neg hc]
              rfl
          have hOE0 : find_following_activity 0
              (((ob :: o2 :: os').map Prod.fst).getD (0 + 1) 0)
              ((fa :: fs).map Prod.fst)
              (cO2F ((fa :: fs).map Prod.snd)
                ((ob :: o2 :: os').map Prod.snd))
              (cF2O ((fa :: fs).map Prod.snd)
                ((ob :: o2 :: os').map Prod.snd)) =
              ((merge_events (fa :: fs) (o2 :: os')).map
                Prod.fst).getD 0 0 := by
            rw [find_following_activity_eq_find]
            have hfind : (List.range
                (((fa :: fs).map Prod.fst).length)).find?
                (fun i => cO2F ((fa :: fs).map Prod.snd)
                  ((ob :: o2 :: os').map Prod.snd) 0 i) = some 0 := by
              apply ((range_find?_eq_some _ _) 0).mpr
              refine ⟨by simp, ?_, fun k hk => absurd hk
                (Nat.not_lt_zero k)⟩
              show (!(comparison_fn fa.2 ob.2)) = true
              simp only [comparison_fn, Bool.not_eq_true',
                decide_eq_false_iff_not]
              exact hle
            rw [hfind, hm0]
            show (if cF2O ((fa :: fs).map Prod.snd)
                ((ob :: o2 :: os').map Prod.snd) 0 (0 + 1)
              then ((fa :: fs).map Prod.fst).getD 0 0
              else ((ob :: o2 :: os').map Prod.fst).getD (0 + 1) 0) = _
            by_cases hc : fa.2 <= o2.2
            · have hup : cF2O ((fa :: fs).map Prod.snd)
                  ((ob :: o2 :: os').map Prod.snd) 0 (0 + 1) = true :=
                decide_eq_true hc
              rw [if_pos hup, if_pos hc]
              rfl
            · have hup : ¬ (cF2O ((fa :: fs).map Prod.snd)
                  ((ob :: o2 :: os').map Prod.snd) 0 (0 + 1) = true) :=
                fun hh => hc (of_decide_eq_true hh)
              rw [if_neg hup, if_neg hc]
              rfl
          have hOEbig : (List.range
              (((ob :: o2 :: os').map Prod.fst).length - 1)).map
              (fun j => (((ob :: o2 :: os').map Prod.fst).getD j 0,
                find_following_activity j
                  (((ob :: o2 :: os').map Prod.fst).getD (j + 1) 0)
                  ((fa :: fs).map Prod.fst)
                  (cO2F ((fa :: fs).map Prod.snd)
                    ((ob :: o2 :: os').map Prod.snd))
                  (cF2O ((fa :: fs).map Prod.snd)
                    ((ob :: o2 :: os').map Prod.snd)))) =
            (ob.1, ((merge_events (fa :: fs) (o2 :: os')).map
              Prod.fst).getD 0 0) ::
              (List.range (((o2 :: os').map Prod.fst).length - 1)).map
                (fun j => (((o2 :: os').map Prod.fst).getD j 0,
                  find_following_activity j
                    (((o2 :: os').map Prod.fst).getD (j + 1) 0)
                    ((fa :: fs).map Prod.fst)
                    (cO2F ((fa :: fs).map Prod.snd)
                      ((o2 :: os').map Prod.snd))
                    (cF2O ((fa :: fs).map Prod.snd)
                      ((o2 :: os').map Prod.snd)))) := by
            rw [show (((ob :: o2 :: os').map Prod.fst).length - 1) =
              ((((o2 :: os').map Prod.fst).length - 1) + 1) from by simp]
            rw [List.range_succ_eq_map, List.map_cons, List.map_map]
            congr 1
            · show (((ob :: o2 :: os').map Prod.fst).getD 0 0,
                find_following_activity 0
                  (((ob :: o2 :: os').map Prod.fst).getD (0 + 1) 0)
                  ((fa :: fs).map Prod.fst)
                  (cO2F ((fa :: fs).map Prod.snd)
                    ((ob :: o2 :: os').map Prod.snd))
                  (cF2O ((fa :: fs).map Prod.snd)
                    ((ob :: o2 :: os').map Prod.snd))) = _
              rw [hOE0]
              exact rfl
          have hFEbig : (List.range
              (((fa :: fs).map Prod.fst).length - 1)).map
              (fun i => (((fa :: fs).map Prod.fst).getD i 0,
                find_following_activity i
                  (((fa :: fs).map Prod.fst).getD (i + 1) 0)
                  ((ob :: o2 :: os').map Prod.fst)
                  (cF2O ((fa :: fs).map Prod.snd)
                    ((ob :: o2 :: os').map Prod.snd))
                  (cO2F ((fa :: fs).map Prod.snd)
                    ((ob :: o2 :: os').map Prod.snd)))) =
            (List.range (((fa :: fs).map Prod.fst).length - 1)).map
              (fun i => (((fa :: fs).map Prod.fst).getD i 0,
                find_following_activity i
                  (((fa :: fs).map Prod.fst).getD (i + 1) 0)
                  ((o2 :: os').map Prod.fst)
                  (cF2O ((fa :: fs).map Prod.snd)
                    ((o2 :: os').map Prod.snd))
                  (cO2F ((fa :: fs).map Prod.snd)
                    ((o2 :: os').map Prod.snd)))) := by
            apply List.map_congr_left
            intro i hi
            rw [List.mem_range] at hi
            simp only [List.length_map, List.length_cons] at hi
            congr 1
            have h0i : cF2O ((fa :: fs).map Prod.snd)
                ((ob :: o2 :: os').map Prod.snd) i 0 = false := by
              have hlt2 : ob.2 < ((fa :: fs).map Prod.snd).getD i 0 := by
                refine lt_of_lt_of_le hlt
                  (sorted_getD_mono hf (Nat.zero_le i) ?_)
                simp only [List.length_map, List.length_cons]
                omega
              show comparison_fn (((fa :: fs).map Prod.snd).getD i 0)
                ob.2 = false
              simp only [comparison_fn, decide_eq_false_iff_not]
              exact Nat.not_le.mpr hlt2
            rw [show ((ob :: o2 :: os').map Prod.fst) =
              ob.1 :: ((o2 :: os').map Prod.fst) from rfl]
            rw [ffa_shift_other i
              (((fa :: fs).map Prod.fst).getD (i + 1) 0) ob.1
              ((o2 :: os').map Prod.fst)
              (cF2O ((fa :: fs).map Prod.snd)
                ((ob :: o2 :: os').map Prod.snd))
              (cO2F ((fa :: fs).map Prod.snd)
                ((ob :: o2 :: os').map Prod.snd)) h0i]
            rfl
          have hLFbig : handle_last
              (((fa :: fs).map Prod.fst).length - 1)
              ((ob :: o2 :: os').map Prod.fst)
              (cF2O ((fa :: fs).map Prod.snd)
                ((ob :: o2 :: os').map Prod.snd)) end_code =
            handle_last (((fa :: fs).map Prod.fst).length - 1)
              ((o2 :: os').map Prod.fst)
              (cF2O ((fa :: fs).map Prod.snd)
                ((o2 :: os').map Prod.snd)) end_code := by
            have h0 : cF2O ((fa :: fs).map Prod.snd)
                ((ob :: o2 :: os').map Prod.snd)
                (((fa :: fs).map Prod.fst).length - 1) 0 = false := by
              have hlt2 : ob.2 < ((fa :: fs).map Prod.snd).getD
                  (((fa :: fs).map Prod.fst).length - 1) 0 := by
                refine lt_of_lt_of_le hlt
                  (sorted_getD_mono hf (Nat.zero_le _) ?_)
                simp only [List.length_map, List.length_cons]
                omega
              show comparison_fn (((fa :: fs).map Prod.snd).getD
                (((fa :: fs).map Prod.fst).length - 1) 0) ob.2 = false
              simp only [comparison_fn, decide_eq_false_iff_not]
              exact Nat.not_le.mpr hlt2
            rw [show ((ob :: o2 :: os').map Prod.fst) =
              ob.1 :: ((o2 :: os').map Prod.fst) from rfl]
            rw [handle_last_shift _ ob.1 _ _ _ h0]
            rfl
          have hSE' : (if cF2O ((fa :: fs).map Prod.snd)
                ((o2 :: os').map Prod.snd) 0 0
              then ((fa :: fs).map Prod.fst).getD 0 0
              else ((o2 :: os').map Prod.fst).getD 0 0) =
              ((merge_events (fa :: fs) (o2 :: os')).map
                Prod.fst).getD 0 0 := by
            rw [hm0]
            by_cases hc : fa.2 <= o2.2
            · have hb2 : cF2O ((fa :: fs).map Prod.snd)
                  ((o2 :: os').map Prod.snd) 0 0 = true :=
                decide_eq_true hc
              rw [if_pos hb2, if_pos hc]
              rfl
            · have hb2 : ¬ (cF2O ((fa :: fs).map Prod.snd)
                  ((o2 :: os').map Prod.snd) 0 0 = true) :=
                fun hh => hc (of_decide_eq_true hh)
              rw [if_neg hb2, if_neg hc]
              rfl
          have hl' := Option.some.inj (hsub.symm.trans hts')
          rw [hSE'] at hl'
          rw [sentinel_df_head start_code end_code _ hMne] at hperm
          rw [hl'] at hperm
          have htail := hperm.cons_inv
          refine ⟨_, hts, ?_⟩
          rw [if_neg hbF, hFEbig, hOEbig, hLFbig]
          rw [show ((ob :: merge_events (fa :: fs) (o2 :: os')).map
            Prod.fst) = ob.1 :: ((merge_events (fa :: fs)
              (o2 :: os')).map Prod.fst) from rfl]
          rw [sentinel_df_cons_cons start_code end_code ob.1 _ hMne]
          refine List.Perm.cons _ ?_
          exact perm_extract_middle _ _ _ _ _ htail

/-- Per-case secure-merge correctness: on sorted per-side event sequences,
`find_secrets_for_case` succeeds and its edge list is a permutation of the
directly-follows edges (with sentinels) of the chronological merge. -/
theorem find_secrets_perm (start_code end_code : Nat)
    (f o : List (Nat × Nat))
    (hf : ts_sorted (f.map Prod.snd)) (ho : ts_sorted (o.map Prod.snd))
    (hne : f ≠ [] ∨ o ≠ []) :
    ∃ l, find_secrets_for_case start_code end_code
        (f.map Prod.fst) (f.map Prod.snd) (o.map Prod.fst)
        (o.map Prod.snd) = some l ∧
      l.Perm (sentinel_df start_code end_code
        ((merge_events f o).map Prod.fst)) :=
  find_secrets_perm_aux start_code end_code (f.length + o.length) f o
    (le_refl _) hf ho hne

/-- `add_activity` never changes the start/end activity lists or the edge
map. -/
theorem add_activity_proj (g : DFG) (a : String) (c : Nat) :
    (g.add_activity a c).start_activities = g.start_activities ∧
    (g.add_activity a c).end_activities = g.end_activities ∧
    (g.add_activity a c).edges = g.edges := by
  unfold DFG.add_activity
  cases (alookup g.activities a).isSome <;> exact ⟨rfl, rfl, rfl⟩

theorem add_activity_keys_mono (g : DFG) (a : String) (c : Nat)
    (b : String) (hb : b ∈ g.activities.map Prod.fst) :
    b ∈ (g.add_activity a c).activities.map Prod.fst := by
  unfold DFG.add_activity
  cases (alookup g.activities a).isSome
  · show b ∈ (g.activities ++ [(a, c)]).map Prod.fst
    rw [List.map_append]
    exact List.mem_append_left _ hb
  · exact hb

theorem add_activity_mem_self (g : DFG) (a : String) (c : Nat) :
    a ∈ (g.add_activity a c).activities.map Prod.fst := by
  unfold DFG.add_activity
  cases h : (alookup g.activities a).isSome
  · show a ∈ (g.activities ++ [(a, c)]).map Prod.fst
    rw [List.map_append]
    exact List.mem_append_right _ (by simp)
  · exact (alookup_isSome_iff _ _).mp h

/-- `add_df_relation` never changes the start/end activity lists. -/
theorem add_df_relation_proj (g : DFG) (x y : String) (f : Nat) :
    (g.add_df_relation x y f).start_activities = g.start_activities ∧
    (g.add_df_relation x y f).end_activities = g.end_activities := by
  constructor
  · show ((g.add_activity x 0).add_activity y 0).start_activities = _
    rw [(add_activity_proj _ _ _).1, (add_activity_proj _ _ _).1]
  · show ((g.add_activity x 0).add_activity y 0).end_activities = _
    rw [(add_activity_proj _ _ _).2.1, (add_activity_proj _ _ _).2.1]

theorem add_df_relation_keys_mono (g : DFG) (x y : String) (f : Nat)
    (b : String) (hb : b ∈ g.activities.map Prod.fst) :
    b ∈ (g.add_df_relation x y f).activities.map Prod.fst := by
  show b ∈ ((g.add_activity x 0).add_activity y 0).activities.map Prod.fst
  exact add_activity_keys_mono _ _ _ _ (add_activity_keys_mono _ _ _ _ hb)

/-- A fold whose step preserves a projection preserves it globally. -/
theorem foldl_proj_eq {β γ : Type} (pr : DFG → γ) (f : DFG → β → DFG)
    (hf : ∀ g x, pr (f g x) = pr g) :
    ∀ (l : List β) (g : DFG), pr (l.foldl f g) = pr g := by
  intro l
  induction l with
  | nil => intro g; rfl
  | cons x xs ih =>
    intro g
    rw [List.foldl_cons, ih, hf]

/-- A fold whose step preserves activity-key membership preserves it
globally. -/
theorem foldl_keys_mono {β : Type} (f : DFG → β → DFG)
    (hf : ∀ g x b, b ∈ g.activities.map Prod.fst →
      b ∈ (f g x).activities.map Prod.fst) :
    ∀ (l : List β) (g : DFG) (b : String),
      b ∈ g.activities.map Prod.fst →
      b ∈ (l.foldl f g).activities.map Prod.fst := by
  intro l
  induction l with
  | nil => intro g b h; exact h
  | cons x xs ih =>
    intro g b h
    rw [List.foldl_cons]
    exact ih _ _ (hf _ _ _ h)

/-- The activity-registration fold puts every table name among the
activities. -/
theorem foldl_add_activity_keys (table : List (String × Nat)) :
    ∀ (g : DFG) (b : String),
      b ∈ table.map Prod.fst ∨ b ∈ g.activities.map Prod.fst →
      b ∈ (table.foldl (fun g p => g.add_activity p.1 0)
        g).activities.map Prod.fst := by
  induction table with
  | nil =>
    intro g b h
    rcases h with h | h
    · cases h
    · exact h
  | cons p rest ih =>
    intro g b h
    rw [List.foldl_cons]
    apply ih
    rcases h with h | h
    · rcases List.mem_cons.mp h with h1 | h1
      · right
        rw [h1]
        exact add_activity_mem_self _ _ _
      · exact Or.inl h1
    · exact Or.inr (add_activity_keys_mono _ _ _ _ h)

/-- Every table name is a vertex of the graph assembled from the
decrypted edges. -/
theorem eval_keys (table : List (String × Nat)) (de : List (Nat × Nat))
    (b : String) (hb : b ∈ table.map Prod.fst) :
    b ∈ (evaluate_decrypted_edges_to_dfg table de).activities.map
      Prod.fst := by
  show b ∈ ((de.foldl (fun m e =>
      if (alookup (invert_table table) e.1).getD "" ≠ "end"
      then abump e 1 m else m) ([] : List ((Nat × Nat) × Nat))).foldl
    (fun g e =>
      match alookup (invert_table table) e.1.1,
          alookup (invert_table table) e.1.2 with
      | some from_act, some to_act =>
        g.add_df_relation from_act to_act e.2
      | _, _ => g)
    (table.foldl (fun g p => g.add_activity p.1 0)
      DFG.empty)).activities.map Prod.fst
  apply foldl_keys_mono
  · intro g x c hc
    cases h1 : alookup (invert_table table) x.1.1 with
    | none => exact hc
    | some a1 =>
      cases h2 : alookup (invert_table table) x.1.2 with
      | none => exact hc
      | some a2 => exact add_df_relation_keys_mono _ _ _ _ _ hc
  · exact foldl_add_activity_keys table DFG.empty b (Or.inl hb)

/-- The graph assembled from the decrypted edges has empty start/end
activity lists. -/
theorem eval_start_end (table : List (String × Nat))
    (de : List (Nat × Nat)) :
    (evaluate_decrypted_edges_to_dfg table de).start_activities = [] ∧
    (evaluate_decrypted_edges_to_dfg table de).end_activities = [] := by
  have hstep1 : ∀ (g : DFG) (e : (Nat × Nat) × Nat),
      (match alookup (invert_table table) e.1.1,
          alookup (invert_table table) e.1.2 with
        | some from_act, some to_act =>
          g.add_df_relation from_act to_act e.2
        | _, _ => g).start_activities = g.start_activities := by
    intro g e
    cases h1 : alookup (invert_table table) e.1.1 with
    | none => rfl
    | some a1 =>
      cases h2 : alookup (invert_table table) e.1.2 with
      | none => rfl
      | some a2 => exact (add_df_relation_proj _ _ _ _).1
  have hstep2 : ∀ (g : DFG) (e : (Nat × Nat) × Nat),
      (match alookup (invert_table table) e.1.1,
          alookup (invert_table table) e.1.2 with
        | some from_act, some to_act =>
          g.add_df_relation from_act to_act e.2
        | _, _ => g).end_activities = g.end_activities := by
    intro g e
    cases h1 : alookup (invert_table table) e.1.1 with
    | none => rfl
    | some a1 =>
      cases h2 : alookup (invert_table table) e.1.2 with
      | none => rfl
      | some a2 => exact (add_df_relation_proj _ _ _ _).2
  constructor
  · show (((de.foldl (fun m e =>
        if (alookup (invert_table table) e.1).getD "" ≠ "end"
        then abump e 1 m else m) ([] : List ((Nat × Nat) × Nat))).foldl
      (fun g e =>
        match alookup (invert_table table) e.1.1,
            alookup (invert_table table) e.1.2 with
        | some from_act, some to_act =>
          g.add_df_relation from_act to_act e.2
        | _, _ => g)
      (table.foldl (fun g p => g.add_activity p.1 0)
        DFG.empty)).start_activities) = []
    rw [foldl_proj_eq DFG.start_activities _ hstep1,
      foldl_proj_eq DFG.start_activities
        (fun (g : DFG) (p : String × Nat) => g.add_activity p.1 0)
        (fun g p => (add_activity_proj g p.1 0).1)]
    rfl
  · show (((de.foldl (fun m e =>
        if (alookup (invert_table table) e.1).getD "" ≠ "end"
        then abump e 1 m else m) ([] : List ((Nat × Nat) × Nat))).foldl
      (fun g e =>
        match alookup (invert_table table) e.1.1,
            alookup (invert_table table) e.1.2 with
        | some from_act, some to_act =>
          g.add_df_relation from_act to_act e.2
        | _, _ => g)
      (table.foldl (fun g p => g.add_activity p.1 0)
        DFG.empty)).end_activities) = []
    rw [foldl_proj_eq DFG.end_activities _ hstep2,
      foldl_proj_eq DFG.end_activities
        (fun (g : DFG) (p : String × Nat) => g.add_activity p.1 0)
        (fun g p => (add_activity_proj g p.1 0).2.1)]
    rfl

theorem add_private_trace_proj :
    ∀ (l : List String) (g : DFG) (last : String),
      (add_private_trace g last l).start_activities =
        g.start_activities ∧
      (add_private_trace g last l).end_activities = g.end_activities := by
  intro l
  induction l with
  | nil =>
    intro g last
    exact ⟨(add_df_relation_proj _ _ _ _).1,
      (add_df_relation_proj _ _ _ _).2⟩
  | cons n rest ih =>
    intro g last
    constructor
    · show (add_private_trace (g.add_df_relation last n 1)
        n rest).start_activities = _
      rw [(ih _ _).1, (add_df_relation_proj _ _ _ _).1]
    · show (add_private_trace (g.add_df_relation last n 1)
        n rest).end_activities = _
      rw [(ih _ _).2, (add_df_relation_proj _ _ _ _).2]

theorem add_private_trace_keys_mono :
    ∀ (l : List String) (g : DFG) (last b : String),
      b ∈ g.activities.map Prod.fst →
      b ∈ (add_private_trace g last l).activities.map Prod.fst := by
  intro l
  induction l with
  | nil =>
    intro g last b hb
    exact add_df_relation_keys_mono _ _ _ _ _ hb
  | cons n rest ih =>
    intro g last b hb
    exact ih _ _ _ (add_df_relation_keys_mono _ _ _ _ _ hb)

theorem update_private_proj (g : DFG) (logA : EvLog)
    (shared : List String) :
    (update_graph_with_private_cases g logA shared).start_activities =
      g.start_activities ∧
    (update_graph_with_private_cases g logA shared).end_activities =
      g.end_activities := by
  have hstep : ∀ (g : DFG) (t : String × List (String × Nat)),
      ((if !(shared.contains t.1) && !(t.2.isEmpty) then
        add_private_trace g "start" (t.2.map Prod.fst) else
        g)).start_activities = g.start_activities ∧
      ((if !(shared.contains t.1) && !(t.2.isEmpty) then
        add_private_trace g "start" (t.2.map Prod.fst) else
        g)).end_activities = g.end_activities := by
    intro g t
    cases (!(shared.contains t.1) && !(t.2.isEmpty))
    · exact ⟨rfl, rfl⟩
    · exact ⟨(add_private_trace_proj _ _ _).1,
        (add_private_trace_proj _ _ _).2⟩
  unfold update_graph_with_private_cases
  exact ⟨foldl_proj_eq DFG.start_activities _
      (fun g t => (hstep g t).1) logA g,
    foldl_proj_eq DFG.end_activities _
      (fun g t => (hstep g t).2) logA g⟩

theorem update_private_keys_mono (g : DFG) (logA : EvLog)
    (shared : List String) (b : String)
    (hb : b ∈ g.activities.map Prod.fst) :
    b ∈ (update_graph_with_private_cases g logA
      shared).activities.map Prod.fst := by
  unfold update_graph_with_private_cases
  refine foldl_keys_mono _ ?_ logA g b hb
  intro g t c hc
  cases (!(shared.contains t.1) && !(t.2.isEmpty))
  · exact hc
  · exact add_private_trace_keys_mono _ _ _ _ hc

theorem recalculate_keys (g : DFG) :
    (recalculate_activity_counts g).activities.map Prod.fst =
      g.activities.map Prod.fst := by
  show (g.activities.map (fun p =>
    (p.1,
     max ((g.edges.filter (fun q => decide (q.1.2 = p.1))).map
            Prod.snd).sum
         ((g.edges.filter (fun q => decide (q.1.1 = p.1))).map
            Prod.snd).sum))).map Prod.fst = g.activities.map Prod.fst
  rw [List.map_map]
  apply List.map_congr_left
  intro p _
  rfl

theorem recalculate_proj (g : DFG) :
    (recalculate_activity_counts g).start_activities =
      g.start_activities ∧
    (recalculate_activity_counts g).end_activities = g.end_activities ∧
    (recalculate_activity_counts g).edges = g.edges :=
  ⟨rfl, rfl, rfl⟩

/-- Membership of keys survives the key-value insertion fold. -/
theorem foldl_aupsert_keys_mono {α β γ : Type} [DecidableEq α]
    (keyf : γ → α) (valf : γ → β) (ps : List γ) :
    ∀ (init : List (α × β)) (k : α), k ∈ init.map Prod.fst →
      k ∈ (ps.foldl (fun m p => aupsert (keyf p) (valf p) m)
        init).map Prod.fst := by
  induction ps with
  | nil => intro init k h; exact h
  | cons p rest ih =>
    intro init k h
    rw [List.foldl_cons]
    apply ih
    rw [keys_aupsert]
    by_cases hmem : keyf p ∈ init.map Prod.fst
    · rw [if_pos hmem]; exact h
    · rw [if_neg hmem]; exact List.mem_append_left _ h

/-- Whatever the logs contain, the agreed activity table always carries
the names "start" and "end" among its keys (even when a log activity
overwrites a sentinel's code). -/
theorem table_keys_sentinels (own foreign : List String) :
    "start" ∈ (update_with_foreign_activities own foreign).map
      Prod.fst ∧
    "end" ∈ (update_with_foreign_activities own foreign).map Prod.fst :=
  by
  unfold update_with_foreign_activities
  constructor
  · apply foldl_aupsert_keys_mono (fun p : Nat × String => p.2)
      (fun p : Nat × String => p.1 + 2)
    decide
  · apply foldl_aupsert_keys_mono (fun p : Nat × String => p.2)
      (fun p : Nat × String => p.1 + 2)
    decide

/-- C3 amended: the sentinel vertices are NOT stripped from the returned
graph: every successful run of `communicate` keeps "start" and "end"
among the activities, and the start/end activity lists are exactly the
literal singletons ["start"] and ["end"] appended by the final step (no
decrypted edge start→x ever contributes x to them). -/
theorem C3_sentinels_retained (hash : String → Nat)
    (logA logB : EvLog) (window_size : Nat) (g : DFG)
    (h : communicate hash logA logB window_size = some g) :
    "start" ∈ g.activities.map Prod.fst ∧
    "end" ∈ g.activities.map Prod.fst ∧
    g.start_activities = ["start"] ∧
    g.end_activities = ["end"] := by
  simp only [communicate] at h
  split at h
  · exact Option.noConfusion h
  · split at h
    · exact Option.noConfusion h
    · injection h with h2
      subst h2
      dsimp only
      refine ⟨?_, ?_, ?_, ?_⟩
      · rw [recalculate_keys]
        exact update_private_keys_mono _ _ _ _
          (eval_keys _ _ _ (table_keys_sentinels _ _).1)
      · rw [recalculate_keys]
        exact update_private_keys_mono _ _ _ _
          (eval_keys _ _ _ (table_keys_sentinels _ _).2)
      · rw [(recalculate_proj _).1, (update_private_proj _ _ _).1,
          (eval_start_end _ _).1]
        rfl
      · rw [(recalculate_proj _).2.1, (update_private_proj _ _ _).2,
          (eval_start_end _ _).2]
        rfl

/-- C3 counterexample: a one-case pair of logs on which the returned
graph still contains the vertices "start" and "end", keeps the
sentinel-incident edges start→a and b→end, and has start_activities
["start"] rather than the claimed contribution ["a"]. -/
theorem C3_counterexample :
    ∃ g, communicate String.length [("c", [("a", 10)])]
        [("c", [("b", 20)])] 1 = some g ∧
      "start" ∈ g.activities.map Prod.fst ∧
      "end" ∈ g.activities.map Prod.fst ∧
      g.start_activities ≠ ["a"] ∧
      g.edge_freq ("start", "a") = 1 ∧
      g.edge_freq ("b", "end") = 1 :=
  ⟨DFG.mk [("start", 1), ("end", 1), ("a", 1), ("b", 1)]
      [(("start", "a"), 1), (("a", "b"), 1), (("b", "end"), 1)]
      ["start"] ["end"],
    rfl, by decide, by decide, by decide, by decide, by decide⟩

/-- Witness for C3: the amended theorem applied to a concrete run. -/
theorem C3_witness :
    "start" ∈ (DFG.mk [("start", 1), ("end", 1), ("a", 1), ("b", 1)]
        [(("start", "a"), 1), (("a", "b"), 1), (("b", "end"), 1)]
        ["start"] ["end"]).activities.map Prod.fst ∧
    "end" ∈ (DFG.mk [("start", 1), ("end", 1), ("a", 1), ("b", 1)]
        [(("start", "a"), 1), (("a", "b"), 1), (("b", "end"), 1)]
        ["start"] ["end"]).activities.map Prod.fst ∧
    (DFG.mk [("start", 1), ("end", 1), ("a", 1), ("b", 1)]
        [(("start", "a"), 1), (("a", "b"), 1), (("b", "end"), 1)]
        ["start"] ["end"]).start_activities = ["start"] ∧
    (DFG.mk [("start", 1), ("end", 1), ("a", 1), ("b", 1)]
        [(("start", "a"), 1), (("a", "b"), 1), (("b", "end"), 1)]
        ["start"] ["end"]).end_activities = ["end"] :=
  C3_sentinels_retained String.length [("c", [("a", 10)])]
    [("c", [("b", 20)])] 1 _ rfl

/-- `mapM` over a mapped list composes the functions. -/
theorem mapM_option_map {α γ β : Type} (h : α → γ) (f : γ → Option β) :
    ∀ l : List α, (l.map h).mapM f = l.mapM (fun a => f (h a)) := by
  intro l
  induction l with
  | nil => rfl
  | cons a rest ih =>
    rw [List.map_cons, List.mapM_cons, List.mapM_cons, ih]

/-- `mapM` only depends on the function's values on the list. -/
theorem mapM_option_congr {α β : Type} (f g : α → Option β)
    (l : List α) (h : ∀ a ∈ l, f a = g a) : l.mapM f = l.mapM g := by
  induction l with
  | nil => rfl
  | cons a rest ih =>
    rw [List.mapM_cons, List.mapM_cons, h a (List.mem_cons_self a rest),
      ih (fun b hb => h b (List.mem_cons_of_mem a hb))]

theorem mapM_option_singleton {α β : Type} (f : α → Option β) (x : α) :
    [x].mapM f = (f x).map (fun v => [v]) := by
  rw [List.mapM_cons, List.mapM_nil]
  cases f x <;> rfl

/-- When the function succeeds on every element, `mapM` returns the map
of the extracted values. -/
theorem mapM_option_eq_some {α β : Type} [Inhabited β]
    (f : α → Option β) :
    ∀ l : List α, (∀ a ∈ l, (f a).isSome) →
      l.mapM f = some (l.map (fun a => (f a).getD default)) := by
  intro l
  induction l with
  | nil => intro _; rfl
  | cons a rest ih =>
    intro h
    rw [List.mapM_cons, ih (fun b hb => h b (List.mem_cons_of_mem a hb))]
    cases hfa : f a with
    | none =>
      exact absurd (h a (List.mem_cons_self a rest))
        (by rw [hfa]; simp)
    | some v =>
      show some (v :: rest.map _) = _
      rw [List.map_cons, hfa]
      rfl

/-- For the skip-free window schedule (window size 1), the bounds of an
in-range step are the singleton window [step, step+1). -/
theorem window_bounds_one (max step : Nat) (h : step < max) :
    window_bounds max 1 step = some (step, step + 1) := by
  unfold window_bounds
  rw [if_neg (by omega)]
  by_cases h2 : max < step + 2 * 1
  · rw [if_pos h2]
    have hm : max = step + 1 := by omega
    rw [hm]
  · rw [if_neg h2]

theorem slice_one {α : Type} [Inhabited α] (l : List α) (k : Nat)
    (hk : k < l.length) :
    (l.take (k + 1)).drop k = [l.getD k default] := by
  rw [List.take_succ]
  have hlt : (l.take k).length = k := by
    rw [List.length_take]
    omega
  rw [List.drop_left' hlt]
  rw [List.getElem?_eq_getElem hk]
  rw [List.getD_eq_getElem?_getD, List.getElem?_eq_getElem hk]
  rfl

/-- A window of size one runs the per-case merge on exactly one case. -/
theorem find_all_secrets_one (s e : Nat)
    (fm om : List (String × (List Nat × List Nat)))
    (names : List String) (k : Nat) (hk : k < names.length) :
    find_all_secrets s e fm om names k (k + 1) =
      (find_secrets_for_case s e
        ((alookup fm (names.getD k "")).getD ([], [])).1
        ((alookup fm (names.getD k "")).getD ([], [])).2
        ((alookup om (names.getD k "")).getD ([], [])).1
        ((alookup om (names.getD k "")).getD ([], [])).2).map
        (fun l => l ++ []) := by
  unfold find_all_secrets
  rw [slice_one names k hk]
  rw [mapM_option_singleton]
  show ((find_secrets_for_case s e
      ((alookup fm (names.getD k "")).getD ([], [])).1
      ((alookup fm (names.getD k "")).getD ([], [])).2
      ((alookup om (names.getD k "")).getD ([], [])).1
      ((alookup om (names.getD k "")).getD ([], [])).2).map
        (fun v => [v])).map List.flatten = _
  rw [Option.map_map]
  rfl

theorem decrypt_edges_id (l : List (Nat × Nat)) : decrypt_edges l = l :=
  by
  unfold decrypt_edges
  induction l with
  | nil => rfl
  | cons a rest ih => rw [List.map_cons, ih]

/-- The value of one size-one window step. -/
theorem step_one (s e : Nat)
    (fm om : List (String × (List Nat × List Nat)))
    (names : List String) (k : Nat) (hk : k < names.length) :
    (match window_bounds names.length 1 k with
     | none => some []
     | some su => (find_all_secrets s e fm om names su.1 su.2).map
         decrypt_edges) =
    find_secrets_for_case s e
      ((alookup fm (names.getD k "")).getD ([], [])).1
      ((alookup fm (names.getD k "")).getD ([], [])).2
      ((alookup om (names.getD k "")).getD ([], [])).1
      ((alookup om (names.getD k "")).getD ([], [])).2 := by
  rw [window_bounds_one _ _ hk]
  show (find_all_secrets s e fm om names k (k + 1)).map
    decrypt_edges = _
  rw [find_all_secrets_one s e fm om names k hk, Option.map_map]
  cases hc : find_secrets_for_case s e
      ((alookup fm (names.getD k "")).getD ([], [])).1
      ((alookup fm (names.getD k "")).getD ([], [])).2
      ((alookup om (names.getD k "")).getD ([], [])).1
      ((alookup om (names.getD k "")).getD ([], [])).2 with
  | none => rfl
  | some v =>
    show some (decrypt_edges (v ++ [])) = some v
    rw [decrypt_edges_id, List.append_nil]

/-- Reindexing a `mapM` over positions as a `mapM` over the list. -/
theorem range_mapM_getD {β : Type} (f : String → Option β) :
    ∀ names : List String,
      (List.range names.length).mapM
        (fun k => f (names.getD k "")) = names.mapM f := by
  intro names
  induction names with
  | nil => rfl
  | cons nm rest ih =>
    show (List.range (rest.length + 1)).mapM
      (fun k => f ((nm :: rest).getD k "")) = _
    rw [List.range_succ_eq_map, List.mapM_cons, mapM_option_map]
    rw [show (fun (a : Nat) =>
        f ((nm :: rest).getD (Nat.succ a) "")) =
      (fun k => f (rest.getD k "")) from rfl]
    rw [ih, List.mapM_cons]
    rfl

/-- With window size 1 the window machinery degenerates to one per-case
merge for every entry of `all_case_names`, in order. -/
theorem communicate_edges_one (s e : Nat)
    (fm om : List (String × (List Nat × List Nat)))
    (names : List String) :
    communicate_edges s e fm om names 1 =
      (names.mapM (fun nm => find_secrets_for_case s e
        ((alookup fm nm).getD ([], [])).1
        ((alookup fm nm).getD ([], [])).2
        ((alookup om nm).getD ([], [])).1
        ((alookup om nm).getD ([], [])).2)).map List.flatten := by
  simp only [communicate_edges, window_steps]
  rw [show names.length + 1 - 1 = names.length from by omega,
    Nat.div_one]
  rw [mapM_option_map]
  rw [mapM_option_congr _ (fun k => find_secrets_for_case s e
      ((alookup fm (names.getD k "")).getD ([], [])).1
      ((alookup fm (names.getD k "")).getD ([], [])).2
      ((alookup om (names.getD k "")).getD ([], [])).1
      ((alookup om (names.getD k "")).getD ([], [])).2)
    (List.range names.length) ?_]
  · exact congrArg (Option.map List.flatten)
      (range_mapM_getD (fun nm => find_secrets_for_case s e
        ((alookup fm nm).getD ([], [])).1
        ((alookup fm nm).getD ([], [])).2
        ((alookup om nm).getD ([], [])).1
        ((alookup om nm).getD ([], [])).2) names)
  · intro k hkmem
    rw [List.mem_range] at hkmem
    rw [show k * 1 = k from Nat.mul_one k]
    exact step_one s e fm om names k hkmem

/-- Fuel-indexed helper: the chronological merge commutes with
relabelling the activity component (it only inspects timestamps). -/
theorem merge_events_map_aux {α β : Type} (c : α → β) :
    ∀ (n : Nat) (f o : List (α × Nat)), f.length + o.length ≤ n →
      merge_events (f.map (fun ev => (c ev.1, ev.2)))
        (o.map (fun ev => (c ev.1, ev.2))) =
      (merge_events f o).map (fun ev => (c ev.1, ev.2)) := by
  intro n
  induction n with
  | zero =>
    intro f o hlen
    match f, o with
    | [], [] => rfl
    | a :: _, _ => simp at hlen
    | [], a :: _ => simp at hlen
  | succ n ih =>
    intro f o hlen
    match f, o with
    | [], o =>
      show merge_events [] (o.map (fun ev => (c ev.1, ev.2))) = _
      rw [merge_events_nil_left, merge_events_nil_left]
    | fa :: fs, [] =>
      show merge_events ((fa :: fs).map (fun ev => (c ev.1, ev.2)))
        ([] : List (β × Nat)) = _
      rw [merge_events_nil_right, merge_events_nil_right]
    | fa :: fs, ob :: os =>
      show merge_events ((c fa.1, fa.2) ::
          fs.map (fun ev => (c ev.1, ev.2)))
        ((c ob.1, ob.2) :: os.map (fun ev => (c ev.1, ev.2))) = _
      rw [merge_events_cons, merge_events_cons]
      simp only [List.length_cons] at hlen
      by_cases hc : fa.2 ≤ ob.2
      · rw [if_pos hc, if_pos hc, List.map_cons]
        congr 1
        exact ih fs (ob :: os) (by simp only [List.length_cons]; omega)
      · rw [if_neg hc, if_neg hc, List.map_cons]
        congr 1
        exact ih (fa :: fs) os (by simp only [List.length_cons]; omega)

theorem merge_events_map {α β : Type} (c : α → β)
    (f o : List (α × Nat)) :
    merge_events (f.map (fun ev => (c ev.1, ev.2)))
      (o.map (fun ev => (c ev.1, ev.2))) =
    (merge_events f o).map (fun ev => (c ev.1, ev.2)) :=
  merge_events_map_aux c (f.length + o.length) f o (le_refl _)

theorem df_pairs_map {α β : Type} (c : α → β) :
    ∀ seq : List α, df_pairs (seq.map c) =
      (df_pairs seq).map (fun p => (c p.1, c p.2)) := by
  intro seq
  induction seq with
  | nil => rfl
  | cons x rest ih =>
    cases rest with
    | nil => rfl
    | cons y rest2 =>
      show (c x, c y) :: df_pairs ((y :: rest2).map c) = _
      rw [ih]
      rfl

/-- The default of `getLastD` is irrelevant on a non-empty list
(generic version). -/
theorem getLastD_congr {α : Type} :
    ∀ (l : List α), l ≠ [] → ∀ d1 d2 : α, l.getLastD d1 = l.getLastD d2 :=
  by
  intro l
  induction l with
  | nil => intro h; exact absurd rfl h
  | cons x rest ih =>
    intro _ d1 d2
    rw [List.getLastD_cons, List.getLastD_cons]

theorem getLastD_map {α β : Type} (c : α → β) :
    ∀ (l : List α), l ≠ [] → ∀ (d1 : β) (d2 : α),
      (l.map c).getLastD d1 = c (l.getLastD d2) := by
  intro l
  induction l with
  | nil => intro h; exact absurd rfl h
  | cons x rest ih =>
    intro _ d1 d2
    cases rest with
    | nil => rfl
    | cons y rest2 =>
      rw [show ((x :: y :: rest2).map c) =
        c x :: ((y :: rest2).map c) from rfl, List.getLastD_cons,
        List.getLastD_cons]
      exact ih (by simp) (c x) x

theorem df_pairs_snoc {α : Type} [Inhabited α] :
    ∀ (seq : List α), seq ≠ [] → ∀ x : α,
      df_pairs (seq ++ [x]) =
        df_pairs seq ++ [(seq.getLastD default, x)] := by
  intro seq
  induction seq with
  | nil => intro h; exact absurd rfl h
  | cons a rest ih =>
    intro _ x
    cases rest with
    | nil => rfl
    | cons b rest2 =>
      show (a, b) :: df_pairs ((b :: rest2) ++ [x]) = _
      rw [ih (by simp) x]
      show (a, b) :: (df_pairs (b :: rest2) ++
          [((b :: rest2).getLastD default, x)]) =
        (a, b) :: (df_pairs (b :: rest2) ++
          [((a :: b :: rest2).getLastD default, x)])
      rw [show ((a :: b :: rest2) : List α).getLastD default =
          (b :: rest2).getLastD a from
            List.getLastD_cons default a (b :: rest2),
        getLastD_congr (b :: rest2) (by simp) a default]

/-- The sentinel-sandwiched directly-follows pairs are the plain
directly-follows pairs of the start/end-extended sequence. -/
theorem sentinel_df_eq_df_pairs {α : Type} [Inhabited α] (s e : α) :
    ∀ seq : List α, seq ≠ [] →
      sentinel_df s e seq = df_pairs (s :: (seq ++ [e])) := by
  intro seq h
  cases seq with
  | nil => exact absurd rfl h
  | cons x rest =>
    show (s, x) :: (df_pairs (x :: rest) ++
        [((x :: rest).getLastD default, e)]) =
      (s, x) :: df_pairs ((x :: rest) ++ [e])
    rw [df_pairs_snoc (x :: rest) (by simp) e]

/-- Relabelling a non-empty sequence relabels its sentinel-sandwiched
edge list pointwise. -/
theorem sentinel_df_map {α β : Type} [Inhabited α] [Inhabited β]
    (c : α → β) (s e : α) (seq : List α) (h : seq ≠ []) :
    sentinel_df (c s) (c e) (seq.map c) =
      (sentinel_df s e seq).map (fun p => (c p.1, c p.2)) := by
  cases seq with
  | nil => exact absurd rfl h
  | cons x rest =>
    show (c s, c x) :: (df_pairs ((x :: rest).map c) ++
        [(((x :: rest).map c).getLastD default, c e)]) =
      ((s, x) :: (df_pairs (x :: rest) ++
        [((x :: rest).getLastD default, e)])).map
        (fun p => (c p.1, c p.2))
    rw [df_pairs_map]
    rw [show (((s, x) :: (df_pairs (x :: rest) ++
        [((x :: rest).getLastD default, e)])).map
        (fun p => (c p.1, c p.2))) =
      ((c s, c x) :: ((df_pairs (x :: rest)).map
          (fun p => (c p.1, c p.2)) ++
        [(c ((x :: rest).getLastD default), c e)])) from by
      rw [List.map_cons, List.map_append]
      rfl]
    rw [getLastD_map c (x :: rest) (by simp) default default]

/-- Counting through an injective-on-the-list relabelling. -/
theorem count_map_of_injOn {α β : Type} [DecidableEq α] [DecidableEq β]
    (f : α → β) (a : α) :
    ∀ l : List α, (∀ b ∈ l, f b = f a → b = a) →
      (l.map f).count (f a) = l.count a := by
  intro l
  induction l with
  | nil => intro _; rfl
  | cons x rest ih =>
    intro hinj
    rw [List.map_cons, List.count_cons, List.count_cons,
      ih (fun b hb => hinj b (List.mem_cons_of_mem x hb))]
    congr 1
    by_cases hx : x = a
    · subst hx
      simp
    · have hfx : ¬ (f x = f a) :=
        fun hf => hx (hinj x (List.mem_cons_self x rest) hf)
      simp [hx, hfx]

theorem alookup_abump {α : Type} [DecidableEq α] (m : List (α × Nat))
    (k k' : α) (v : Nat) :
    alookup (abump k v m) k' =
      if k' = k then some ((alookup m k).getD 0 + v)
      else alookup m k' := by
  unfold abump
  cases hm : alookup m k with
  | some old =>
    rw [alookup_aupsert]
    by_cases h : k' = k
    · rw [if_pos h, if_pos h]
      rfl
    · rw [if_neg h, if_neg h]
  | none =>
    rw [alookup_append]
    by_cases h : k' = k
    · rw [if_pos h, h, hm]
      show alookup [(k, v)] k = some (0 + v)
      rw [Nat.zero_add]
      unfold alookup
      rw [if_pos rfl]
    · rw [if_neg h]
      cases hk' : alookup m k' with
      | some w => rfl
      | none =>
        show alookup [(k, v)] k' = none
        unfold alookup
        rw [if_neg (fun hh : k = k' => h hh.symm)]
        rfl

/-- The frequency effect of a single `add_df_relation`. -/
theorem add_df_relation_freq (g : DFG) (a b : String) (f : Nat)
    (p : String × String) :
    (g.add_df_relation a b f).edge_freq p =
      g.edge_freq p + (if p = (a, b) then f else 0) := by
  have he : (g.add_df_relation a b f).edges =
      abump (a, b) f g.edges := by
    show abump (a, b) f ((g.add_activity a 0).add_activity b 0).edges = _
    rw [(add_activity_proj _ _ _).2.2, (add_activity_proj _ _ _).2.2]
  show (alookup (g.add_df_relation a b f).edges p).getD 0 = _
  rw [he, alookup_abump]
  by_cases hp : p = (a, b)
  · subst hp
    rw [if_pos rfl, if_pos rfl]
    rfl
  · rw [if_neg hp, if_neg hp]
    rfl

/-- The edge-frequency effect of the decoded-edge registration fold. -/
theorem add_df_fold_freq (pos_to : List (Nat × String)) (x y : String) :
    ∀ (entries : List ((Nat × Nat) × Nat)) (g : DFG),
      (entries.foldl (fun g e =>
          match alookup pos_to e.1.1, alookup pos_to e.1.2 with
          | some from_act, some to_act =>
            g.add_df_relation from_act to_act e.2
          | _, _ => g) g).edge_freq (x, y) =
        g.edge_freq (x, y) +
        ((entries.filter (fun e =>
          decide (alookup pos_to e.1.1 = some x) &&
          decide (alookup pos_to e.1.2 = some y))).map Prod.snd).sum := by
  intro entries
  induction entries with
  | nil => intro g; rfl
  | cons en rest ih =>
    intro g
    rw [List.foldl_cons, ih, List.filter_cons]
    cases hl1 : alookup pos_to en.1.1 with
    | none =>
      rw [if_neg (by simp)]
    | some fa =>
      cases hl2 : alookup pos_to en.1.2 with
      | none =>
        rw [if_neg (by simp)]
      | some ta =>
        rw [add_df_relation_freq]
        by_cases hfa : fa = x
        · by_cases hta : ta = y
          · subst hfa
            subst hta
            rw [if_pos rfl, if_pos (by simp), List.map_cons,
              List.sum_cons]
            omega
          · rw [if_neg (fun hcontra => hta
                (by rw [Prod.mk.injEq] at hcontra
                    exact hcontra.2.symm)),
              if_neg (by simp [hta])]
            omega
        · rw [if_neg (fun hcontra => hfa
              (by rw [Prod.mk.injEq] at hcontra
                  exact hcontra.1.symm)),
            if_neg (by simp [hfa])]
          omega

/-- When the guard accepts every element, a guarded fold is the plain
fold. -/
theorem foldl_filter_cond_all {α β : Type} (cond : α → Prop)
    [DecidablePred cond] (f : β → α → β) :
    ∀ (de : List α) (m : β), (∀ e ∈ de, cond e) →
      de.foldl (fun m e => if cond e then f m e else m) m =
      de.foldl f m := by
  intro de
  induction de with
  | nil => intro m _; rfl
  | cons e rest ih =>
    intro m h
    rw [List.foldl_cons, List.foldl_cons,
      if_pos (h e (List.mem_cons_self e rest))]
    exact ih _ (fun e' he' => h e' (List.mem_cons_of_mem _ he'))

theorem aupsert_filter_sum {α : Type} [DecidableEq α] (P : α → Bool)
    (k : α) (v : Nat) :
    ∀ (m : List (α × Nat)) (old : Nat), alookup m k = some old →
      (((aupsert k (old + v) m).filter (fun en => P en.1)).map
        Prod.snd).sum =
      ((m.filter (fun en => P en.1)).map Prod.snd).sum +
        (if P k then v else 0) := by
  intro m
  induction m with
  | nil => intro old h; cases h
  | cons p rest ih =>
    intro old h
    by_cases hp : p.1 = k
    · unfold alookup at h
      rw [if_pos hp] at h
      injection h with h
      subst h
      rw [show aupsert k (p.2 + v) (p :: rest) =
        (k, p.2 + v) :: rest from by
          simp only [aupsert]
          rw [if_pos hp]]
      rw [List.filter_cons, List.filter_cons]
      by_cases hP : P k
      · rw [if_pos (by simp [hP]), if_pos (by rw [hp]; simp [hP]),
          List.map_cons, List.map_cons, List.sum_cons, List.sum_cons,
          if_pos hP]
        omega
      · rw [if_neg (by simp [hP]), if_neg (by rw [hp]; simp [hP]),
          if_neg hP]
        omega
    · unfold alookup at h
      rw [if_neg hp] at h
      rw [show aupsert k (old + v) (p :: rest) =
        p :: aupsert k (old + v) rest from by
          simp only [aupsert]
          rw [if_neg hp]]
      rw [List.filter_cons, List.filter_cons]
      by_cases hPp : P p.1
      · rw [if_pos (by simp [hPp]), if_pos (by simp [hPp]),
          List.map_cons, List.map_cons, List.sum_cons, List.sum_cons,
          ih old h]
        omega
      · rw [if_neg (by simp [hPp]), if_neg (by simp [hPp]), ih old h]

theorem abump_filter_sum {α : Type} [DecidableEq α] (P : α → Bool)
    (k : α) (v : Nat) (m : List (α × Nat)) :
    (((abump k v m).filter (fun en => P en.1)).map Prod.snd).sum =
      ((m.filter (fun en => P en.1)).map Prod.snd).sum +
      (if P k then v else 0) := by
  unfold abump
  cases hm : alookup m k with
  | some old => exact aupsert_filter_sum P k v m old hm
  | none =>
    rw [List.filter_append, List.map_append, List.sum_append]
    show _ + (([(k, v)].filter (fun en => P en.1)).map Prod.snd).sum = _
    congr 1
    by_cases hP : P k
    · rw [show ([(k, v)].filter (fun en => P en.1)) = [(k, v)] from by
        simp [hP], if_pos hP]
      rfl
    · rw [show ([(k, v)].filter (fun en => P en.1)) = [] from by
        simp [hP], if_neg hP]
      rfl

/-- The guarded counting fold tallies exactly: summing the counts of the
keys accepted by `P` gives the number of accepted elements. -/
theorem tally_filter_sum {α : Type} [DecidableEq α] (P : α → Bool) :
    ∀ (de : List α) (m : List (α × Nat)),
      (((de.foldl (fun m e => abump e 1 m) m).filter
        (fun en => P en.1)).map Prod.snd).sum =
      ((m.filter (fun en => P en.1)).map Prod.snd).sum + de.countP P :=
  by
  intro de
  induction de with
  | nil =>
    intro m
    rfl
  | cons e rest ih =>
    intro m
    rw [List.foldl_cons, ih, abump_filter_sum, List.countP_cons]
    omega

/-- Master count for the decrypted-edge graph: when no edge's source
decodes to "end" (true inside the protocol), the frequency of the decoded
edge (x, y) is the number of decrypted code pairs decoding to (x, y). -/
theorem eval_edge_freq (table : List (String × Nat))
    (de : List (Nat × Nat)) (x y : String)
    (hno_end : ∀ p ∈ de,
      ((alookup (invert_table table) p.1).getD "" ≠ "end")) :
    (evaluate_decrypted_edges_to_dfg table de).edge_freq (x, y) =
      de.countP (fun p =>
        decide (alookup (invert_table table) p.1 = some x) &&
        decide (alookup (invert_table table) p.2 = some y)) := by
  show ((de.foldl (fun m e =>
      if (alookup (invert_table table) e.1).getD "" ≠ "end"
      then abump e 1 m else m) ([] : List ((Nat × Nat) × Nat))).foldl
    (fun g e =>
      match alookup (invert_table table) e.1.1,
          alookup (invert_table table) e.1.2 with
      | some from_act, some to_act =>
        g.add_df_relation from_act to_act e.2
      | _, _ => g)
    (table.foldl (fun g p => g.add_activity p.1 0)
      DFG.empty)).edge_freq (x, y) = _
  rw [add_df_fold_freq]
  have hg0 : (table.foldl (fun g p => g.add_activity p.1 0)
      DFG.empty).edge_freq (x, y) = 0 := by
    show (alookup (table.foldl (fun g p => g.add_activity p.1 0)
      DFG.empty).edges (x, y)).getD 0 = 0
    rw [foldl_proj_eq DFG.edges
      (fun (g : DFG) (p : String × Nat) => g.add_activity p.1 0)
      (fun g p => (add_activity_proj g p.1 0).2.2)]
    rfl
  rw [hg0, Nat.zero_add]
  rw [foldl_filter_cond_all
    (fun e : Nat × Nat =>
      (alookup (invert_table table) e.1).getD "" ≠ "end")
    (fun m e => abump e 1 m) de _ hno_end]
  exact (tally_filter_sum (fun q : Nat × Nat =>
    decide (alookup (invert_table table) q.1 = some x) &&
    decide (alookup (invert_table table) q.2 = some y)) de
    []).trans (Nat.zero_add _)

/-- The frequency effect of adding one private trace: exactly the
directly-follows pairs of the last-to-end extended chain. -/
theorem add_private_trace_freq (p : String × String) :
    ∀ (l : List String) (g : DFG) (last : String),
      (add_private_trace g last l).edge_freq p =
        g.edge_freq p + (df_pairs (last :: (l ++ ["end"]))).count p := by
  intro l
  induction l with
  | nil =>
    intro g last
    show (g.add_df_relation last "end" 1).edge_freq p = _
    rw [add_df_relation_freq]
    congr 1
    show (if p = (last, "end") then 1 else 0) =
      ([(last, "end")] : List (String × String)).count p
    rw [List.count_cons, List.count_nil]
    by_cases hp : p = (last, "end")
    · rw [if_pos hp, if_pos (by rw [beq_iff_eq]; exact hp.symm)]
    · rw [if_neg hp,
        if_neg (by rw [beq_iff_eq]; exact fun h => hp h.symm)]
  | cons n rest ih =>
    intro g last
    show (add_private_trace (g.add_df_relation last n 1)
      n rest).edge_freq p = _
    rw [ih, add_df_relation_freq]
    rw [show df_pairs (last :: ((n :: rest) ++ ["end"])) =
      (last, n) :: df_pairs (n :: (rest ++ ["end"])) from rfl]
    rw [List.count_cons]
    by_cases hp : p = (last, n)
    · rw [if_pos hp, if_pos (by rw [beq_iff_eq]; exact hp.symm)]
      omega
    · rw [if_neg hp,
        if_neg (by rw [beq_iff_eq]; exact fun h => hp h.symm)]
      omega

/-- The total frequency effect of A's private-case pass. -/
theorem update_private_freq (p : String × String)
    (shared : List String) :
    ∀ (logA : EvLog) (g : DFG),
      (update_graph_with_private_cases g logA shared).edge_freq p =
        g.edge_freq p +
        ((logA.filter (fun t => !(shared.contains t.1) &&
          !(t.2.isEmpty))).map (fun t =>
            (df_pairs ("start" :: ((t.2.map Prod.fst) ++
              ["end"]))).count p)).sum := by
  intro logA
  induction logA with
  | nil => intro g; rfl
  | cons t rest ih =>
    intro g
    show (((t :: rest) : EvLog).foldl (fun g t =>
      if !(shared.contains t.1) && !(t.2.isEmpty) then
        add_private_trace g "start" (t.2.map Prod.fst)
      else g) g).edge_freq p = _
    rw [List.foldl_cons]
    show ((rest : EvLog).foldl (fun g t =>
      if !(shared.contains t.1) && !(t.2.isEmpty) then
        add_private_trace g "start" (t.2.map Prod.fst)
      else g) (if !(shared.contains t.1) && !(t.2.isEmpty) then
        add_private_trace g "start" (t.2.map Prod.fst)
      else g)).edge_freq p = _
    rw [show ∀ g' : DFG, ((rest : EvLog).foldl (fun g t =>
        if !(shared.contains t.1) && !(t.2.isEmpty) then
          add_private_trace g "start" (t.2.map Prod.fst)
        else g) g').edge_freq p =
        g'.edge_freq p +
        ((rest.filter (fun t => !(shared.contains t.1) &&
          !(t.2.isEmpty))).map (fun t =>
            (df_pairs ("start" :: ((t.2.map Prod.fst) ++
              ["end"]))).count p)).sum from fun g' => ih g']
    rw [List.filter_cons]
    cases hc : (!(shared.contains t.1) && !(t.2.isEmpty))
    · rfl
    · rw [if_pos rfl, if_pos rfl, add_private_trace_freq,
        List.map_cons, List.sum_cons]
      omega

theorem alookup_cons {α β : Type} [DecidableEq α] (p : α × β)
    (rest : List (α × β)) (k : α) :
    alookup (p :: rest) k =
      if p.1 = k then some p.2 else alookup rest k := rfl

theorem alookup_mem {α β : Type} [DecidableEq α] :
    ∀ (m : List (α × β)) (k : α) (v : β),
      alookup m k = some v → (k, v) ∈ m := by
  intro m
  induction m with
  | nil => intro k v h; cases h
  | cons p rest ih =>
    intro k v h
    unfold alookup at h
    by_cases hp : p.1 = k
    · rw [if_pos hp] at h
      injection h with h
      rw [← hp, ← h]
      exact List.mem_cons_self _ _
    · rw [if_neg hp] at h
      exact List.mem_cons_of_mem _ (ih k v h)

theorem alookup_eq_find? {α β : Type} [DecidableEq α]
    (l : List (α × β)) (k : α) :
    alookup l k = (l.find? (fun p => decide (p.1 = k))).map Prod.snd :=
  by
  induction l with
  | nil => rfl
  | cons p rest ih =>
    by_cases hp : p.1 = k
    · rw [List.find?_cons_of_pos _ (by simp [hp])]
      unfold alookup
      rw [if_pos hp]
      rfl
    · rw [List.find?_cons_of_neg _ (by simp [hp])]
      unfold alookup
      rw [if_neg hp]
      exact ih

theorem alookup_map_snd {α β γ : Type} [DecidableEq α] (f : β → γ) :
    ∀ (l : List (α × β)) (k : α),
      alookup (l.map (fun p => (p.1, f p.2))) k =
        (alookup l k).map f := by
  intro l
  induction l with
  | nil => intro k; rfl
  | cons p rest ih =>
    intro k
    show alookup ((p.1, f p.2) :: rest.map (fun p => (p.1, f p.2))) k = _
    unfold alookup
    by_cases hp : p.1 = k
    · rw [if_pos hp, if_pos hp]
      rfl
    · rw [if_neg hp, if_neg hp]
      exact ih k

theorem alookup_filter_key {α β : Type} [DecidableEq α] (Q : α → Bool) :
    ∀ (l : List (α × β)) (k : α),
      alookup (l.filter (fun p => Q p.1)) k =
        if Q k then alookup l k else none := by
  intro l
  induction l with
  | nil =>
    intro k
    cases Q k
    · rfl
    · rfl
  | cons p rest ih =>
    intro k
    rw [List.filter_cons]
    cases hq : Q p.1
    · rw [if_neg (by simp [hq]), ih]
      by_cases hp : p.1 = k
      · subst hp
        rw [hq]
        rfl
      · cases hqk : Q k
        · rfl
        · rw [if_pos rfl, if_pos rfl, alookup_cons, if_neg hp]
    · rw [if_pos (by simp [hq]), alookup_cons]
      by_cases hp : p.1 = k
      · subst hp
        rw [if_pos rfl, hq, if_pos rfl, alookup_cons, if_pos rfl]
      · rw [if_neg hp, ih]
        cases hqk : Q k
        · rfl
        · rw [if_pos rfl, if_pos rfl, alookup_cons, if_neg hp]

/-- With duplicate-free code values, inverting the table is just
swapping its pairs. -/
theorem invert_table_eq (table : List (String × Nat))
    (hnd : (table.map Prod.snd).Nodup) :
    invert_table table = table.map (fun p => (p.2, p.1)) := by
  unfold invert_table
  rw [← List.foldl_map (fun p : String × Nat => (p.2, p.1))
    (fun m q => aupsert q.1 q.2 m)]
  rw [foldl_aupsert_eq_append]
  · rfl
  · rw [List.map_map]
    show (table.map Prod.snd).Nodup
    exact hnd
  · intro p _ hmem
    cases hmem

theorem table_code_lt (table : List (String × Nat))
    (hrange : table.map Prod.snd = List.range table.length)
    (n : String) (c : Nat) (h : alookup table n = some c) :
    c < table.length := by
  have hmem := alookup_mem table n c h
  have hc : c ∈ table.map Prod.snd :=
    List.mem_map_of_mem Prod.snd hmem
  rw [hrange] at hc
  exact List.mem_range.mp hc

theorem snd_nodup_of_range (table : List (String × Nat))
    (hrange : table.map Prod.snd = List.range table.length) :
    (table.map Prod.snd).Nodup := by
  rw [hrange]
  exact List.nodup_range _

/-- Decoding through the inverted table is exactly membership in the
table (codes duplicate-free). -/
theorem decode_iff (table : List (String × Nat))
    (hrange : table.map Prod.snd = List.range table.length)
    (c : Nat) (n : String) :
    alookup (invert_table table) c = some n ↔ (n, c) ∈ table := by
  rw [invert_table_eq table (snd_nodup_of_range table hrange)]
  constructor
  · intro h
    have hmem := alookup_mem _ _ _ h
    rcases List.mem_map.mp hmem with ⟨q, hq, hqe⟩
    have h1 : q.2 = c := congrArg Prod.fst hqe
    have h2 : q.1 = n := congrArg Prod.snd hqe
    rw [← h1, ← h2]
    exact hq
  · intro h
    apply alookup_of_mem_nodup
    · rw [List.map_map]
      show (table.map Prod.snd).Nodup
      exact snd_nodup_of_range table hrange
    · exact List.mem_map.mpr ⟨(n, c), h, rfl⟩

theorem encode_of_lookup (table : List (String × Nat))
    (hrange : table.map Prod.snd = List.range table.length)
    (hK : table.length ≤ 65536) (n : String) (c : Nat)
    (h : alookup table n = some c) :
    encode_activity table n = c := by
  unfold encode_activity
  rw [h]
  have hc : c < 65536 :=
    lt_of_lt_of_le (table_code_lt table hrange n c h) hK
  show (if (some c).getD 0 < 65536 then (some c).getD 0 else 0) = c
  rw [if_pos (show (some c).getD 0 < 65536 from hc)]
  rfl

theorem encode_lt (table : List (String × Nat))
    (hrange : table.map Prod.snd = List.range table.length)
    (hKpos : 0 < table.length) (n : String) :
    encode_activity table n < table.length := by
  unfold encode_activity
  cases h : alookup table n with
  | none =>
    show (if (none : Option Nat).getD 0 < 65536
      then (none : Option Nat).getD 0 else 0) < table.length
    rw [if_pos (by decide : ((none : Option Nat).getD 0) < 65536)]
    exact hKpos
  | some c =>
    have hc := table_code_lt table hrange n c h
    show (if (some c).getD 0 < 65536
      then (some c).getD 0 else 0) < table.length
    by_cases h6 : c < 65536
    · rw [if_pos (show (some c).getD 0 < 65536 from h6)]
      exact hc
    · rw [if_neg (show ¬ ((some c).getD 0 < 65536) from h6)]
      exact hKpos

/-- Under an in-range table the sample sanitization succeeds and leaves
the identity samples unchanged. -/
theorem samples_eq (table : List (String × Nat))
    (hrange : table.map Prod.snd = List.range table.length) :
    sanitize_sample_encryptions (provide_sample_encryptions
      (invert_table table)) =
      some (table.map (fun p => (p.2, p.2))) := by
  rw [invert_table_eq table (snd_nodup_of_range table hrange)]
  unfold provide_sample_encryptions sanitize_sample_encryptions
  rw [List.map_map]
  rw [show (table.map ((fun p : Nat × String => (p.1, p.1)) ∘
      (fun p : String × Nat => (p.2, p.1)))) =
      table.map (fun p : String × Nat => (p.2, p.2)) from rfl]
  rw [if_neg ?hany]
  case hany =>
    intro hcontra
    rcases List.any_eq_true.mp hcontra with ⟨p, hpmem, hple⟩
    rcases List.mem_map.mp hpmem with ⟨q, hq, hqe⟩
    have hle := of_decide_eq_true hple
    rw [List.length_map] at hle
    have hcode : q.2 ∈ table.map Prod.snd :=
      List.mem_map_of_mem Prod.snd hq
    rw [hrange] at hcode
    have hlt := List.mem_range.mp hcode
    rw [← hqe] at hle
    simp only at hle
    omega
  · congr 1
    rw [List.map_map]
    apply List.map_congr_left
    intro q _
    show (if (q.2, q.2).2 ≠ (q.2, q.2).1 then ((q.2, q.2).1, 0)
      else (q.2, q.2)) = (q.2, q.2)
    rw [if_neg (by simp)]

theorem map_id_of {α : Type} (f : α → α) :
    ∀ l : List α, (∀ x ∈ l, f x = x) → l.map f = l := by
  intro l
  induction l with
  | nil => intro _; rfl
  | cons x rest ih =>
    intro h
    rw [List.map_cons, h x (List.mem_cons_self x rest),
      ih (fun y hy => h y (List.mem_cons_of_mem x hy))]

/-- When every stored foreign code is in range the clamping pass is the
identity. -/
theorem set_foreign_id (len : Nat)
    (fm : List (String × (List Nat × List Nat)))
    (h : ∀ p ∈ fm, ∀ c ∈ p.2.1, c < len) :
    set_foreign_case_to_trace len fm = fm := by
  show fm.map (fun p =>
    (p.1, ((p.2.1).map (fun act =>
      if len - 1 < act then len - 1 else act), p.2.2))) = fm
  apply map_id_of
  intro p hp
  rw [map_id_of _ _ (fun c hc => by
    rw [if_neg (by have := h p hp c hc; omega)])]

theorem dict_eq_self (log : EvLog)
    (hnd : (log.map Prod.fst).Nodup) :
    find_name_trace_dictionary log = log := by
  unfold find_name_trace_dictionary
  rw [foldl_aupsert_eq_append log [] hnd
    (fun p _ => List.not_mem_nil p.1)]
  rfl

theorem case_events_eq_alookup (log : EvLog) (c : String) :
    case_events log c = (alookup log c).getD [] := by
  unfold case_events
  rw [alookup_eq_find?]

theorem countP_flatten {α : Type} (P : α → Bool) :
    ∀ L : List (List α),
      L.flatten.countP P = (L.map (fun l => l.countP P)).sum := by
  intro L
  induction L with
  | nil => rfl
  | cons l rest ih =>
    rw [List.flatten_cons, List.countP_append, ih, List.map_cons,
      List.sum_cons]

theorem countP_eq_count {α : Type} [DecidableEq α] (P : α → Bool)
    (a : α) :
    ∀ l : List α, (∀ b ∈ l, P b = true ↔ b = a) →
      l.countP P = l.count a := by
  intro l
  induction l with
  | nil => intro _; rfl
  | cons x rest ih =>
    intro h
    rw [List.countP_cons, List.count_cons,
      ih (fun b hb => h b (List.mem_cons_of_mem x hb))]
    congr 1
    by_cases hx : x = a
    · rw [if_pos ((h x (List.mem_cons_self x rest)).mpr hx),
        if_pos (by rw [beq_iff_eq]; exact hx)]
    · rw [if_neg (fun hP => hx ((h x (List.mem_cons_self x rest)).mp hP)),
        if_neg (by rw [beq_iff_eq]; exact hx)]

theorem df_pairs_mem {α : Type} :
    ∀ (seq : List α) (p : α × α), p ∈ df_pairs seq →
      p.1 ∈ seq ∧ p.2 ∈ seq := by
  intro seq p hp
  unfold df_pairs at hp
  have h := List.of_mem_zip hp
  exact ⟨h.1, List.mem_of_mem_tail h.2⟩

theorem getLastD_mem {α : Type} :
    ∀ (l : List α), l ≠ [] → ∀ d : α, l.getLastD d ∈ l := by
  intro l
  induction l with
  | nil => intro h; exact absurd rfl h
  | cons x rest ih =>
    intro _ d
    rw [List.getLastD_cons]
    cases rest with
    | nil => exact List.mem_cons_self x []
    | cons y rest2 =>
      exact List.mem_cons_of_mem x (ih (by simp) x)

/-- Counting a sentinel-free pair in a sentinel edge list reduces to the
inner directly-follows pairs. -/
theorem count_sentinel_real {α : Type} [Inhabited α] [DecidableEq α]
    (s e : α) (seq : List α) (hne : seq ≠ [])
    (x y : α) (hx : x ≠ s) (hy : y ≠ e) :
    (sentinel_df s e seq).count (x, y) = (df_pairs seq).count (x, y) :=
  by
  cases seq with
  | nil => exact absurd rfl hne
  | cons a rest =>
    show ((s, a) :: (df_pairs (a :: rest) ++
      [((a :: rest).getLastD default, e)])).count (x, y) = _
    rw [List.count_cons, List.count_append, List.count_cons,
      List.count_nil]
    have h1 : ¬ (((s, a) : α × α) = (x, y)) := by
      intro hcontra
      rw [Prod.mk.injEq] at hcontra
      exact hx hcontra.1.symm
    have h2 : ¬ ((((a :: rest).getLastD default, e) : α × α) = (x, y)) :=
      by
      intro hcontra
      rw [Prod.mk.injEq] at hcontra
      exact hy hcontra.2.symm
    rw [if_neg (by rw [beq_iff_eq]; exact h2),
      if_neg (by rw [beq_iff_eq]; exact h1)]
    omega

/-- Counting a start-sentinel edge: one per case whose first activity is
the target (the start name never occurs inside the sequence). -/
theorem count_sentinel_start {α : Type} [Inhabited α] [DecidableEq α]
    (s e : α) (seq : List α) (hne : seq ≠ []) (hs : s ∉ seq) (x : α) :
    (sentinel_df s e seq).count (s, x) =
      if seq.getD 0 default = x then 1 else 0 := by
  cases seq with
  | nil => exact absurd rfl hne
  | cons a rest =>
    show ((s, a) :: (df_pairs (a :: rest) ++
      [((a :: rest).getLastD default, e)])).count (s, x) = _
    rw [List.count_cons, List.count_append, List.count_cons,
      List.count_nil]
    rw [show (df_pairs (a :: rest)).count (s, x) = 0 from
      List.count_eq_zero.mpr (fun hmem =>
        hs (df_pairs_mem (a :: rest) (s, x) hmem).1)]
    have h2 : ¬ ((((a :: rest).getLastD default, e) : α × α) = (s, x)) :=
      by
      intro hcontra
      rw [Prod.mk.injEq] at hcontra
      exact hs (hcontra.1 ▸ getLastD_mem (a :: rest) (by simp) default)
    rw [if_neg (by rw [beq_iff_eq]; exact h2)]
    by_cases ha : a = x
    · have h3 : ((s, a) : α × α) = (s, x) := by rw [ha]
      rw [if_pos (by rw [beq_iff_eq]; exact h3),
        if_pos (show (a :: rest).getD 0 default = x from ha)]
    · have h3 : ¬ (((s, a) : α × α) = (s, x)) := by
        intro hcontra
        rw [Prod.mk.injEq] at hcontra
        exact ha hcontra.2
      rw [if_neg (by rw [beq_iff_eq]; exact h3),
        if_neg (show ¬ ((a :: rest).getD 0 default = x) from ha)]

/-- Counting an end-sentinel edge: one per case whose last activity is
the target (the end name never occurs inside the sequence). -/
theorem count_sentinel_end {α : Type} [Inhabited α] [DecidableEq α]
    (s e : α) (seq : List α) (hne : seq ≠ []) (he : e ∉ seq) (x : α) :
    (sentinel_df s e seq).count (x, e) =
      if seq.getLastD default = x then 1 else 0 := by
  cases seq with
  | nil => exact absurd rfl hne
  | cons a rest =>
    show ((s, a) :: (df_pairs (a :: rest) ++
      [((a :: rest).getLastD default, e)])).count (x, e) = _
    rw [List.count_cons, List.count_append, List.count_cons,
      List.count_nil]
    rw [show (df_pairs (a :: rest)).count (x, e) = 0 from
      List.count_eq_zero.mpr (fun hmem =>
        he (df_pairs_mem (a :: rest) (x, e) hmem).2)]
    have h1 : ¬ (((s, a) : α × α) = (x, e)) := by
      intro hcontra
      rw [Prod.mk.injEq] at hcontra
      exact he (hcontra.2 ▸ List.mem_cons_self a rest)
    by_cases ha : (a :: rest).getLastD default = x
    · have h3 : (((a :: rest).getLastD default, e) : α × α) = (x, e) :=
        by rw [ha]
      rw [if_pos (by rw [beq_iff_eq]; exact h3),
        if_neg (by rw [beq_iff_eq]; exact h1), if_pos ha]
    · have h3 : ¬ ((((a :: rest).getLastD default, e) : α × α) =
          (x, e)) := by
        intro hcontra
        rw [Prod.mk.injEq] at hcontra
        exact ha hcontra.1
      rw [if_neg (by rw [beq_iff_eq]; exact h3),
        if_neg (by rw [beq_iff_eq]; exact h1), if_neg ha]

theorem merge_events_mem_aux {α : Type} :
    ∀ (n : Nat) (f o : List (α × Nat)), f.length + o.length ≤ n →
      ∀ q ∈ merge_events f o, q ∈ f ∨ q ∈ o := by
  intro n
  induction n with
  | zero =>
    intro f o hlen q hq
    match f, o with
    | [], [] => rw [merge_events_nil_left] at hq; cases hq
    | a :: _, _ => simp at hlen
    | [], a :: _ => simp at hlen
  | succ n ih =>
    intro f o hlen q hq
    match f, o with
    | [], o =>
      rw [merge_events_nil_left] at hq
      exact Or.inr hq
    | fa :: fs, [] =>
      rw [merge_events_nil_right] at hq
      exact Or.inl hq
    | fa :: fs, ob :: os =>
      rw [merge_events_cons] at hq
      simp only [List.length_cons] at hlen
      by_cases hc : fa.2 ≤ ob.2
      · rw [if_pos hc] at hq
        rcases List.mem_cons.mp hq with h | h
        · exact Or.inl (h ▸ List.mem_cons_self fa fs)
        · rcases ih fs (ob :: os)
            (by simp only [List.length_cons]; omega) q h with h2 | h2
          · exact Or.inl (List.mem_cons_of_mem fa h2)
          · exact Or.inr h2
      · rw [if_neg hc] at hq
        rcases List.mem_cons.mp hq with h | h
        · exact Or.inr (h ▸ List.mem_cons_self ob os)
        · rcases ih (fa :: fs) os
            (by simp only [List.length_cons]; omega) q h with h2 | h2
          · exact Or.inl h2
          · exact Or.inr (List.mem_cons_of_mem ob h2)

theorem merge_events_mem {α : Type} (f o : List (α × Nat)) :
    ∀ q ∈ merge_events f o, q ∈ f ∨ q ∈ o :=
  merge_events_mem_aux (f.length + o.length) f o (le_refl _)

theorem sentinel_df_mem {α : Type} [Inhabited α] (s e : α)
    (seq : List α) (hne : seq ≠ []) (q : α × α)
    (hq : q ∈ sentinel_df s e seq) :
    (q.1 = s ∨ q.1 ∈ seq) ∧ (q.2 = e ∨ q.2 ∈ seq) := by
  cases seq with
  | nil => exact absurd rfl hne
  | cons a rest =>
    have hq2 : q ∈ ((s, a) : α × α) :: (df_pairs (a :: rest) ++
      [((a :: rest).getLastD default, e)]) := hq
    rcases List.mem_cons.mp hq2 with h | h
    · subst h
      exact ⟨Or.inl rfl, Or.inr (List.mem_cons_self a rest)⟩
    · rcases List.mem_append.mp h with h3 | h3
      · have := df_pairs_mem (a :: rest) q h3
        exact ⟨Or.inr this.1, Or.inr this.2⟩
      · rw [List.mem_singleton] at h3
        subst h3
        exact ⟨Or.inr (getLastD_mem (a :: rest) (by simp) default),
          Or.inl rfl⟩

theorem find_activities_mem (log : EvLog) (t : String × List (String × Nat))
    (ht : t ∈ log) (ev : String × Nat) (hev : ev ∈ t.2) :
    ev.1 ∈ find_activities log := by
  unfold find_activities
  rw [List.mem_dedup, List.mem_flatten]
  exact ⟨t.2.map Prod.fst,
    List.mem_map.mpr ⟨t, ht, rfl⟩,
    List.mem_map_of_mem Prod.fst hev⟩

/-- Resolving A's stored per-case map: clamping is a no-op (codes in
range) and the lookup goes through filter and dictionary. -/
theorem fm_lookup (table : List (String × Nat)) (logA : EvLog)
    (shared : List String)
    (hndA : (logA.map Prod.fst).Nodup)
    (hrange : table.map Prod.snd = List.range table.length)
    (hKpos : 0 < table.length) (nm : String) :
    alookup (set_foreign_case_to_trace table.length
      (compute_case_to_trace_with_encryption table logA shared)) nm =
    (if shared.contains nm then alookup logA nm else none).map
      (fun events => preprocess_trace_private_with_encryption
        table events) := by
  rw [set_foreign_id]
  · unfold compute_case_to_trace_with_encryption
    rw [dict_eq_self logA hndA, alookup_map_snd, alookup_filter_key]
  · intro p hp c hc
    unfold compute_case_to_trace_with_encryption at hp
    rcases List.mem_map.mp hp with ⟨q, _, hqe⟩
    rw [← hqe] at hc
    have hc2 : c ∈ (q.2.map (fun e =>
        encode_activity table e.1)) := hc
    rcases List.mem_map.mp hc2 with ⟨ev, _, hev⟩
    rw [← hev]
    exact encode_lt table hrange hKpos ev.1

theorem om_lookup (table : List (String × Nat))
    (samples : List (Nat × Nat)) (logB : EvLog)
    (hndB : (logB.map Prod.fst).Nodup) (nm : String) :
    alookup (compute_case_to_trace_using_sample_encryption
      table samples logB) nm =
    (alookup logB nm).map
      (fun events => preprocess_trace_using_sample_encryption
        table samples events) := by
  unfold compute_case_to_trace_using_sample_encryption
  rw [dict_eq_self logB hndB, alookup_map_snd]

/-- Counting pairs is independent of which of the two derived `BEq`
instances is used. -/
theorem count_prod_beq {α β : Type} [DecidableEq α] [DecidableEq β]
    (p : α × β) (l : List (α × β)) :
    @List.count _ instBEqProd p l =
    @List.count _ instBEqOfDecidableEq p l := by
  induction l with
  | nil => rfl
  | cons x rest ih =>
    rw [@List.count_cons _ instBEqProd,
      @List.count_cons _ instBEqOfDecidableEq, ih]
    congr 1
    by_cases hx : x = p
    · subst hx
      rw [if_pos (show (@BEq.beq _ instBEqProd x x) = true from by
          show (decide (x.1 = x.1) && decide (x.2 = x.2)) = true
          simp),
        if_pos (show (@BEq.beq _ instBEqOfDecidableEq x x) = true from by
          show decide (x = x) = true
          simp)]
    · rw [if_neg (show ¬ ((@BEq.beq _ instBEqProd x p) = true) from by
          show ¬ ((decide (x.1 = p.1) && decide (x.2 = p.2)) = true)
          intro hcontra
          rw [Bool.and_eq_true, decide_eq_true_eq, decide_eq_true_eq]
            at hcontra
          exact hx (Prod.ext hcontra.1 hcontra.2)),
        if_neg (show ¬ ((@BEq.beq _ instBEqOfDecidableEq x p) = true)
          from by
          show ¬ (decide (x = p) = true)
          simp [hx])]

theorem decode_encode (table : List (String × Nat))
    (hrange : table.map Prod.snd = List.range table.length)
    (hK : table.length ≤ 65536) (n : String) (c : Nat)
    (h : alookup table n = some c) :
    alookup (invert_table table) (encode_activity table n) = some n := by
  rw [encode_of_lookup table hrange hK n c h]
  exact (decode_iff table hrange c n).mpr (alookup_mem table n c h)

/-- Core per-case correctness: on coded sorted traces the per-case merge
succeeds, and for any two table names the count of their code pair among
the emitted edges equals the count of the name pair in the
sentinel-sandwiched directly-follows pairs of the plaintext merge. -/
theorem fsfc_coded_count (logA logB : EvLog)
    (table : List (String × Nat))
    (hstart : alookup table "start" = some 0)
    (hend : alookup table "end" = some 1)
    (hacts : ∀ a ∈ find_activities logA ++ find_activities logB,
      ∃ c, alookup table a = some c ∧ 2 ≤ c ∧ c < table.length)
    (hrange : table.map Prod.snd = List.range table.length)
    (hK : table.length ≤ 65536)
    (he : "end" ∉ find_activities logA ++ find_activities logB)
    (evA evB : List (String × Nat))
    (hsortA : ts_sorted (evA.map Prod.snd))
    (hsortB : ts_sorted (evB.map Prod.snd))
    (hne : evA ≠ [] ∨ evB ≠ [])
    (hactA : ∀ ev ∈ evA, ev.1 ∈
      find_activities logA ++ find_activities logB)
    (hactB : ∀ ev ∈ evB, ev.1 ∈
      find_activities logA ++ find_activities logB) :
    ∃ l, find_secrets_for_case 0 1
        (evA.map (fun e => encode_activity table e.1))
        (evA.map Prod.snd)
        (evB.map (fun e => encode_activity table e.1))
        (evB.map Prod.snd) = some l ∧
      (∀ u v : String,
        l.countP (fun p =>
          decide (alookup (invert_table table) p.1 = some u) &&
          decide (alookup (invert_table table) p.2 = some v)) =
        (sentinel_df "start" "end"
          ((merge_events evA evB).map Prod.fst)).count (u, v)) ∧
      ∀ p ∈ l, (alookup (invert_table table) p.1).getD "" ≠ "end" := by
  have hmapA1 : (evA.map (fun e =>
      (encode_activity table e.1, e.2))).map Prod.fst =
      evA.map (fun e => encode_activity table e.1) := by
    rw [List.map_map]
    exact rfl
  have hmapA2 : (evA.map (fun e =>
      (encode_activity table e.1, e.2))).map Prod.snd =
      evA.map Prod.snd := by
    rw [List.map_map]
    exact rfl
  have hmapB1 : (evB.map (fun e =>
      (encode_activity table e.1, e.2))).map Prod.fst =
      evB.map (fun e => encode_activity table e.1) := by
    rw [List.map_map]
    exact rfl
  have hmapB2 : (evB.map (fun e =>
      (encode_activity table e.1, e.2))).map Prod.snd =
      evB.map Prod.snd := by
    rw [List.map_map]
    exact rfl
  have hneco : evA.map (fun e =>
      (encode_activity table e.1, e.2)) ≠ [] ∨
      evB.map (fun e => (encode_activity table e.1, e.2)) ≠ [] := by
    rcases hne with h | h
    · exact Or.inl (fun hcon => h (by
        cases evA with
        | nil => rfl
        | cons a rest => cases hcon))
    · exact Or.inr (fun hcon => h (by
        cases evB with
        | nil => rfl
        | cons a rest => cases hcon))
  obtain ⟨l, hsome, hperm⟩ := find_secrets_perm 0 1
    (evA.map (fun e => (encode_activity table e.1, e.2)))
    (evB.map (fun e => (encode_activity table e.1, e.2)))
    (by rw [hmapA2]; exact hsortA)
    (by rw [hmapB2]; exact hsortB)
    hneco
  rw [hmapA1, hmapA2, hmapB1, hmapB2] at hsome
  have hM : (merge_events
      (evA.map (fun e => (encode_activity table e.1, e.2)))
      (evB.map (fun e => (encode_activity table e.1, e.2)))).map
        Prod.fst =
      ((merge_events evA evB).map Prod.fst).map
        (fun n => encode_activity table n) := by
    rw [merge_events_map (fun n => encode_activity table n) evA evB]
    rw [List.map_map, List.map_map]
    exact rfl
  have hMne : (merge_events evA evB).map Prod.fst ≠ [] := by
    intro hcon
    have h1 : merge_events evA evB = [] := by
      cases hme : merge_events evA evB with
      | nil => rfl
      | cons a rest => rw [hme] at hcon; cases hcon
    apply merge_ne_nil
      (evA.map (fun e => (encode_activity table e.1, e.2)))
      (evB.map (fun e => (encode_activity table e.1, e.2))) hneco
    rw [merge_events_map (fun n => encode_activity table n) evA evB, h1]
    rfl
  have hstart_enc : encode_activity table "start" = 0 :=
    encode_of_lookup table hrange hK "start" 0 hstart
  have hend_enc : encode_activity table "end" = 1 :=
    encode_of_lookup table hrange hK "end" 1 hend
  have hseq_act : ∀ n ∈ (merge_events evA evB).map Prod.fst,
      n ∈ find_activities logA ++ find_activities logB := by
    intro n hn
    rcases List.mem_map.mp hn with ⟨ev, hev, heq⟩
    rcases merge_events_mem evA evB ev hev with h2 | h2
    · exact heq ▸ hactA ev h2
    · exact heq ▸ hactB ev h2
  refine ⟨l, hsome, ?_, ?_⟩
  swap
  · intro p hp
    have hp2 : p ∈ sentinel_df 0 1 ((merge_events
        (evA.map (fun e => (encode_activity table e.1, e.2)))
        (evB.map (fun e =>
          (encode_activity table e.1, e.2)))).map Prod.fst) :=
      (hperm.mem_iff).mp hp
    rw [hM] at hp2
    have hMne2 : ((merge_events evA evB).map Prod.fst).map
        (fun n => encode_activity table n) ≠ [] := by
      intro hcon
      apply hMne
      cases hseq : (merge_events evA evB).map Prod.fst with
      | nil => rfl
      | cons a r => rw [hseq] at hcon; cases hcon
    obtain ⟨hq1, _⟩ := sentinel_df_mem 0 1 _ hMne2 p hp2
    rcases hq1 with h | h
    · rw [h, ← hstart_enc,
        decode_encode table hrange hK "start" 0 hstart]
      decide
    · rcases List.mem_map.mp h with ⟨n, hn, hne2⟩
      have hnacts := hseq_act n hn
      rcases hacts n hnacts with ⟨c, hc, _, _⟩
      rw [← hne2, decode_encode table hrange hK n c hc]
      intro hcontra
      exact he (by rw [← show n = "end" from hcontra]; exact hnacts)
  intro u v
  rw [List.Perm.countP_eq _ hperm]
  rw [hM]
  rw [← hstart_enc, ← hend_enc]
  rw [show encode_activity table "start" =
    (fun n => encode_activity table n) "start" from rfl]
  rw [show encode_activity table "end" =
    (fun n => encode_activity table n) "end" from rfl]
  rw [sentinel_df_map (fun n => encode_activity table n) "start" "end"
    ((merge_events evA evB).map Prod.fst) hMne]
  rw [List.countP_map]
  have helem : ∀ q ∈ sentinel_df "start" "end"
      ((merge_events evA evB).map Prod.fst),
      ((fun p : Nat × Nat =>
        decide (alookup (invert_table table) p.1 = some u) &&
        decide (alookup (invert_table table) p.2 = some v)) ∘
        (fun p : String × String =>
          ((fun n => encode_activity table n) p.1,
           (fun n => encode_activity table n) p.2))) q = true ↔
        q = (u, v) := by
    intro q hq
    obtain ⟨hq1, hq2⟩ := sentinel_df_mem "start" "end" _ hMne q hq
    have hname1 : ∃ c1, alookup table q.1 = some c1 := by
      rcases hq1 with h | h
      · exact ⟨0, h ▸ hstart⟩
      · rcases hacts q.1 (hseq_act q.1 h) with ⟨c, hc, _⟩
        exact ⟨c, hc⟩
    have hname2 : ∃ c2, alookup table q.2 = some c2 := by
      rcases hq2 with h | h
      · exact ⟨1, h ▸ hend⟩
      · rcases hacts q.2 (hseq_act q.2 h) with ⟨c, hc, _⟩
        exact ⟨c, hc⟩
    rcases hname1 with ⟨c1, hc1⟩
    rcases hname2 with ⟨c2, hc2⟩
    show (decide (alookup (invert_table table)
        (encode_activity table q.1) = some u) &&
      decide (alookup (invert_table table)
        (encode_activity table q.2) = some v)) = true ↔ q = (u, v)
    rw [decode_encode table hrange hK q.1 c1 hc1,
      decode_encode table hrange hK q.2 c2 hc2]
    rw [Bool.and_eq_true, decide_eq_true_eq, decide_eq_true_eq]
    constructor
    · rintro ⟨h1, h2⟩
      exact Prod.ext (Option.some.inj h1) (Option.some.inj h2)
    · rintro rfl
      exact ⟨rfl, rfl⟩
  rw [count_prod_beq (u, v)]
  exact countP_eq_count _ (u, v) _ helem

/-- Per-case characterization at the protocol's stored maps: for every
case id of B, the per-case merge succeeds, and the count of any decoded
name pair among its emitted edges equals the pair's count in the
sentinel-sandwiched directly-follows pairs of the plaintext-merged
case. -/
theorem percase_characterization (logA logB : EvLog)
    (table : List (String × Nat))
    (htab : table = update_with_foreign_activities
      (find_activities logA) (find_activities logB))
    (samples : List (Nat × Nat))
    (hsamp : samples = table.map (fun p => (p.2, p.2)))
    (shared : List String)
    (hshared : ∀ c : String, c ∈ shared ↔
      (c ∈ logA.map Prod.fst ∧ c ∈ logB.map Prod.fst))
    (hndA : (logA.map Prod.fst).Nodup)
    (hndB : (logB.map Prod.fst).Nodup)
    (hsorted : ∀ t ∈ logA ++ logB, ts_sorted (t.2.map Prod.snd))
    (hne_tr : ∀ t ∈ logA ++ logB, t.2 ≠ [])
    (hs : "start" ∉ find_activities logA ++ find_activities logB)
    (he : "end" ∉ find_activities logA ++ find_activities logB)
    (hK : table.length ≤ 65536)
    (nm : String) (hB : nm ∈ logB.map Prod.fst) :
    ∃ l, find_secrets_for_case 0 1
        ((alookup (set_foreign_case_to_trace table.length
          (compute_case_to_trace_with_encryption table logA shared))
          nm).getD ([], [])).1
        ((alookup (set_foreign_case_to_trace table.length
          (compute_case_to_trace_with_encryption table logA shared))
          nm).getD ([], [])).2
        ((alookup (compute_case_to_trace_using_sample_encryption
          table samples logB) nm).getD ([], [])).1
        ((alookup (compute_case_to_trace_using_sample_encryption
          table samples logB) nm).getD ([], [])).2 = some l ∧
      (∀ u v : String,
        l.countP (fun p =>
          decide (alookup (invert_table table) p.1 = some u) &&
          decide (alookup (invert_table table) p.2 = some v)) =
        (sentinel_df "start" "end"
          (oracle_merged logA logB nm)).count (u, v)) ∧
      ∀ p ∈ l, (alookup (invert_table table) p.1).getD "" ≠ "end" := by
  have hts := table_structure (find_activities logA)
    (find_activities logB) table htab hs he
  have hrange := hts.2.2.2.2
  have hKpos : 0 < table.length := by
    have hmem := alookup_mem _ _ _ hts.1
    cases table with
    | nil => cases hmem
    | cons a rest => simp
  rw [fm_lookup table logA shared hndA hrange hKpos nm]
  rw [om_lookup table samples logB hndB nm]
  have hBs : (alookup logB nm).isSome := (alookup_isSome_iff _ _).mpr hB
  cases hBlook : alookup logB nm with
  | none => rw [hBlook] at hBs; cases hBs
  | some evB =>
    have hBmem : (nm, evB) ∈ logB := alookup_mem _ _ _ hBlook
    have hBne : evB ≠ [] :=
      hne_tr (nm, evB) (List.mem_append_right _ hBmem)
    have hBsort : ts_sorted (evB.map Prod.snd) :=
      hsorted (nm, evB) (List.mem_append_right _ hBmem)
    have hactB : ∀ ev ∈ evB, ev.1 ∈
        find_activities logA ++ find_activities logB :=
      fun ev hev => List.mem_append_right _
        (find_activities_mem logB (nm, evB) hBmem ev hev)
    have hOB1 : evB.map (fun e =>
        (alookup samples (encode_activity table e.1)).getD 0 + 0) =
        evB.map (fun e => encode_activity table e.1) := by
      apply List.map_congr_left
      intro ev hev
      rcases hts.2.2.1 ev.1 (hactB ev hev) with ⟨c, hc, _, _⟩
      rw [encode_of_lookup table hrange hK ev.1 c hc]
      have hcs : alookup samples c = some c := by
        rw [hsamp]
        apply alookup_of_mem_nodup
        · rw [List.map_map]
          show (table.map Prod.snd).Nodup
          exact snd_nodup_of_range table hrange
        · exact List.mem_map.mpr ⟨(ev.1, c), alookup_mem _ _ _ hc, rfl⟩
      rw [hcs]
      rfl
    by_cases hshc : shared.contains nm = true
    · have hnmsh : nm ∈ shared := List.mem_of_elem_eq_true hshc
      have hA : nm ∈ logA.map Prod.fst := ((hshared nm).mp hnmsh).1
      have hAs : (alookup logA nm).isSome :=
        (alookup_isSome_iff _ _).mpr hA
      cases hAlook : alookup logA nm with
      | none => rw [hAlook] at hAs; cases hAs
      | some evA =>
        have hAmem : (nm, evA) ∈ logA := alookup_mem _ _ _ hAlook
        have hAsort : ts_sorted (evA.map Prod.snd) :=
          hsorted (nm, evA) (List.mem_append_left _ hAmem)
        have hactA : ∀ ev ∈ evA, ev.1 ∈
            find_activities logA ++ find_activities logB :=
          fun ev hev => List.mem_append_left _
            (find_activities_mem logA (nm, evA) hAmem ev hev)
        obtain ⟨l, hsome, hcount, hnoend⟩ :=
          fsfc_coded_count logA logB table
          hts.1 hts.2.1 hts.2.2.1 hrange hK he evA evB hAsort hBsort
          (Or.inr hBne) hactA hactB
        have horacle : oracle_merged logA logB nm =
            (merge_events evA evB).map Prod.fst := by
          unfold oracle_merged
          rw [case_events_eq_alookup, case_events_eq_alookup,
            hAlook, hBlook]
          exact rfl
        rw [if_pos hshc]
        refine ⟨l, ?_, ?_, hnoend⟩
        · show find_secrets_for_case 0 1
            (evA.map (fun e => encode_activity table e.1))
            (evA.map Prod.snd)
            (evB.map (fun e =>
              (alookup samples (encode_activity table e.1)).getD 0 + 0))
            (evB.map Prod.snd) = some l
          rw [hOB1]
          exact hsome
        · intro u v
          rw [horacle]
          exact hcount u v
    · have hnotA : nm ∉ logA.map Prod.fst := by
        intro hAmem
        exact hshc (List.elem_eq_true_of_mem
          ((hshared nm).mpr ⟨hAmem, hB⟩))
      have hAnone : alookup logA nm = none := by
        cases hAl : alookup logA nm with
        | none => rfl
        | some evA =>
          exact absurd ((alookup_isSome_iff logA nm).mp
            (by rw [hAl]; rfl)) hnotA
      obtain ⟨l, hsome, hcount, hnoend⟩ :=
        fsfc_coded_count logA logB table
        hts.1 hts.2.1 hts.2.2.1 hrange hK he [] evB List.Pairwise.nil
        hBsort (Or.inr hBne) (fun ev hev => absurd hev
          (List.not_mem_nil ev)) hactB
      have horacle : oracle_merged logA logB nm =
          (merge_events ([] : List (String × Nat)) evB).map Prod.fst :=
        by
        unfold oracle_merged
        rw [case_events_eq_alookup, case_events_eq_alookup,
          hAnone, hBlook]
        exact rfl
      rw [if_neg hshc]
      refine ⟨l, ?_, ?_, hnoend⟩
      · show find_secrets_for_case 0 1
          (([] : List (String × Nat)).map
            (fun e => encode_activity table e.1))
          (([] : List (String × Nat)).map Prod.snd)
          (evB.map (fun e =>
            (alookup samples (encode_activity table e.1)).getD 0 + 0))
          (evB.map Prod.snd) = some l
        rw [hOB1]
        exact hsome
      · intro u v
        rw [horacle]
        exact hcount u v

theorem merge_events_ne_nil {α : Type} (f o : List (α × Nat))
    (hne : f ≠ [] ∨ o ≠ []) : merge_events f o ≠ [] := by
  cases f with
  | nil =>
    rw [merge_events_nil_left]
    rcases hne with h | h
    · exact absurd rfl h
    · exact h
  | cons fa fs =>
    cases o with
    | nil => rw [merge_events_nil_right]; simp
    | cons ob os =>
      rw [merge_events_cons]
      by_cases hc : fa.2 ≤ ob.2
      · simp [hc]
      · simp [hc]

theorem map_ne_nil {α β : Type} (f : α → β) (l : List α) (h : l ≠ []) :
    l.map f ≠ [] := by
  cases l with
  | nil => exact absurd rfl h
  | cons a rest => simp

theorem countP_eq_sum_if {α : Type} (p : α → Bool) :
    ∀ l : List α,
      l.countP p = (l.map (fun a => if p a then 1 else 0)).sum := by
  intro l
  induction l with
  | nil => rfl
  | cons a rest ih =>
    rw [List.countP_cons, List.map_cons, List.sum_cons, ih]
    exact Nat.add_comm _ _

theorem getLast?_of_ne_nil {α : Type} [Inhabited α] (l : List α)
    (h : l ≠ []) : l.getLast? = some (l.getLastD default) := by
  cases hl : l.getLast? with
  | none => exact absurd (List.getLast?_eq_none_iff.mp hl) h
  | some x => rw [List.getLastD_eq_getLast?, hl]; rfl

theorem case_events_act (log : EvLog) (c : String) :
    ∀ ev ∈ case_events log c, ev.1 ∈ find_activities log := by
  intro ev hev
  rw [case_events_eq_alookup] at hev
  cases hl : alookup log c with
  | none => rw [hl] at hev; cases hev
  | some evl =>
    rw [hl] at hev
    exact find_activities_mem log (c, evl) (alookup_mem _ _ _ hl) ev hev

theorem case_events_ne_nil (log : EvLog)
    (hne_tr : ∀ t ∈ log, t.2 ≠ []) (c : String)
    (hc : c ∈ log.map Prod.fst) : case_events log c ≠ [] := by
  rw [case_events_eq_alookup]
  cases hl : alookup log c with
  | none =>
    have hsome := (alookup_isSome_iff log c).mpr hc
    rw [hl] at hsome
    cases hsome
  | some ev =>
    exact hne_tr (c, ev) (alookup_mem _ _ _ hl)

theorem oracle_merged_ne_nil (logA logB : EvLog)
    (hne_tr : ∀ t ∈ logA ++ logB, t.2 ≠ [])
    (c : String)
    (hc : c ∈ logA.map Prod.fst ∨ c ∈ logB.map Prod.fst) :
    oracle_merged logA logB c ≠ [] := by
  unfold oracle_merged
  apply map_ne_nil
  apply merge_events_ne_nil
  rcases hc with h | h
  · exact Or.inl (case_events_ne_nil logA
      (fun t ht => hne_tr t (List.mem_append_left _ ht)) c h)
  · exact Or.inr (case_events_ne_nil logB
      (fun t ht => hne_tr t (List.mem_append_right _ ht)) c h)

theorem oracle_merged_act (logA logB : EvLog) (c : String) :
    ∀ n ∈ oracle_merged logA logB c,
      n ∈ find_activities logA ++ find_activities logB := by
  intro n hn
  rcases List.mem_map.mp hn with ⟨ev, hev, heq⟩
  rcases merge_events_mem _ _ ev hev with h | h
  · exact heq ▸ List.mem_append_left _ (case_events_act logA c ev h)
  · exact heq ▸ List.mem_append_right _ (case_events_act logB c ev h)

theorem alookup_eq_none_of_not_mem {α β : Type} [DecidableEq α]
    (m : List (α × β)) (k : α) (h : k ∉ m.map Prod.fst) :
    alookup m k = none := by
  cases hl : alookup m k with
  | none => rfl
  | some v =>
    exact absurd ((alookup_isSome_iff m k).mp (by rw [hl]; rfl)) h

theorem map_fst_of_keyed {α β γ : Type} (f : α × β → γ)
    (l : List (α × β)) :
    (l.map (fun p => (p.1, f p))).map Prod.fst = l.map Prod.fst := by
  rw [List.map_map]
  rfl

set_option maxHeartbeats 3200000 in
theorem communicate_freq (hash : String → Nat) (logA logB : EvLog)
    (hinj : ∀ x ∈ logA.map Prod.fst ++ logB.map Prod.fst,
      ∀ y ∈ logA.map Prod.fst ++ logB.map Prod.fst,
      hash x = hash y → x = y)
    (hndA : (logA.map Prod.fst).Nodup)
    (hndB : (logB.map Prod.fst).Nodup)
    (hsorted : ∀ t ∈ logA ++ logB, ts_sorted (t.2.map Prod.snd))
    (hne_tr : ∀ t ∈ logA ++ logB, t.2 ≠ [])
    (hs : "start" ∉ find_activities logA ++ find_activities logB)
    (he : "end" ∉ find_activities logA ++ find_activities logB)
    (hK : (update_with_foreign_activities (find_activities logA) (find_activities logB)).length ≤ 65536) :
    ∃ g, communicate hash logA logB 1 = some g ∧
      ∀ u v : String,
        g.edge_freq (u, v) =
          ((oracle_case_ids logA logB).map (fun c =>
            (sentinel_df "start" "end"
              (oracle_merged logA logB c)).count (u, v))).sum := by
  have hts := table_structure (find_activities logA) (find_activities logB) (update_with_foreign_activities (find_activities logA) (find_activities logB)) rfl hs he
  have hrange : (update_with_foreign_activities (find_activities logA) (find_activities logB)).map Prod.snd = List.range (update_with_foreign_activities (find_activities logA) (find_activities logB)).length := hts.2.2.2.2
  have hsharedIff : ∀ c : String, c ∈ (decrypt_and_identify_shared_case_ids (encrypt_all_case_ids hash logA).1 (find_shared_case_ids hash true logB (encrypt_all_case_ids hash logA).2)) ↔ (c ∈ logA.map Prod.fst ∧ c ∈ logB.map Prod.fst) := fun c => psi_shared_iff hash logA logB hinj c
  have hfm1 : (set_foreign_case_to_trace (update_with_foreign_activities (find_activities logA) (find_activities logB)).length (compute_case_to_trace_with_encryption (update_with_foreign_activities (find_activities logA) (find_activities logB)) logA (decrypt_and_identify_shared_case_ids (encrypt_all_case_ids hash logA).1 (find_shared_case_ids hash true logB (encrypt_all_case_ids hash logA).2)))).map Prod.fst = (compute_case_to_trace_with_encryption (update_with_foreign_activities (find_activities logA) (find_activities logB)) logA (decrypt_and_identify_shared_case_ids (encrypt_all_case_ids hash logA).1 (find_shared_case_ids hash true logB (encrypt_all_case_ids hash logA).2))).map Prod.fst := map_fst_of_keyed _ _
  have hfm2 : (compute_case_to_trace_with_encryption (update_with_foreign_activities (find_activities logA) (find_activities logB)) logA (decrypt_and_identify_shared_case_ids (encrypt_all_case_ids hash logA).1 (find_shared_case_ids hash true logB (encrypt_all_case_ids hash logA).2))).map Prod.fst = ((find_name_trace_dictionary logA).filter (fun p => (decrypt_and_identify_shared_case_ids (encrypt_all_case_ids hash logA).1 (find_shared_case_ids hash true logB (encrypt_all_case_ids hash logA).2)).contains p.1)).map Prod.fst := map_fst_of_keyed _ _
  have hfmkeys : (set_foreign_case_to_trace (update_with_foreign_activities (find_activities logA) (find_activities logB)).length (compute_case_to_trace_with_encryption (update_with_foreign_activities (find_activities logA) (find_activities logB)) logA (decrypt_and_identify_shared_case_ids (encrypt_all_case_ids hash logA).1 (find_shared_case_ids hash true logB (encrypt_all_case_ids hash logA).2)))).map Prod.fst = (logA.filter (fun p => (decrypt_and_identify_shared_case_ids (encrypt_all_case_ids hash logA).1 (find_shared_case_ids hash true logB (encrypt_all_case_ids hash logA).2)).contains p.1)).map Prod.fst := by
    rw [hfm1, hfm2, dict_eq_self logA hndA]
  have hnamesB : ∀ nm ∈ (compute_all_case_names (logB.map Prod.fst) ((set_foreign_case_to_trace (update_with_foreign_activities (find_activities logA) (find_activities logB)).length (compute_case_to_trace_with_encryption (update_with_foreign_activities (find_activities logA) (find_activities logB)) logA (decrypt_and_identify_shared_case_ids (encrypt_all_case_ids hash logA).1 (find_shared_case_ids hash true logB (encrypt_all_case_ids hash logA).2)))).map Prod.fst)), nm ∈ logB.map Prod.fst := by
    intro nm hnm
    have hnm2 : nm ∈ (logB.map Prod.fst ++ (set_foreign_case_to_trace (update_with_foreign_activities (find_activities logA) (find_activities logB)).length (compute_case_to_trace_with_encryption (update_with_foreign_activities (find_activities logA) (find_activities logB)) logA (decrypt_and_identify_shared_case_ids (encrypt_all_case_ids hash logA).1 (find_shared_case_ids hash true logB (encrypt_all_case_ids hash logA).2)))).map Prod.fst).dedup := hnm
    rw [List.mem_dedup, List.mem_append] at hnm2
    rcases hnm2 with h | h
    · exact h
    · rw [hfmkeys] at h
      rcases List.mem_map.mp h with ⟨t, htf, hteq⟩
      have hcond := (List.mem_filter.mp htf).2
      have htsh : t.1 ∈ (decrypt_and_identify_shared_case_ids (encrypt_all_case_ids hash logA).1 (find_shared_case_ids hash true logB (encrypt_all_case_ids hash logA).2)) := List.mem_of_elem_eq_true hcond
      exact hteq ▸ ((hsharedIff t.1).mp htsh).2
  have hsampnd : (((update_with_foreign_activities (find_activities logA) (find_activities logB)).map (fun p => (p.2, p.2))).map Prod.fst).Nodup := by
    have h2 : ((update_with_foreign_activities (find_activities logA) (find_activities logB)).map (fun p => (p.2, p.2))).map Prod.fst = (update_with_foreign_activities (find_activities logA) (find_activities logB)).map Prod.snd := by
      rw [List.map_map]
      rfl
    rw [h2, hrange]
    exact List.nodup_range _
  have h0 : alookup ((update_with_foreign_activities (find_activities logA) (find_activities logB)).map (fun p => (p.2, p.2))) 0 = some 0 := by
    apply alookup_of_mem_nodup hsampnd
    exact List.mem_map_of_mem (fun p : String × Nat => (p.2, p.2)) (alookup_mem _ _ _ hts.1)
  have h1 : alookup ((update_with_foreign_activities (find_activities logA) (find_activities logB)).map (fun p => (p.2, p.2))) 1 = some 1 := by
    apply alookup_of_mem_nodup hsampnd
    exact List.mem_map_of_mem (fun p : String × Nat => (p.2, p.2)) (alookup_mem _ _ _ hts.2.1)
  have hpcsome : ∀ nm ∈ (compute_all_case_names (logB.map Prod.fst) ((set_foreign_case_to_trace (update_with_foreign_activities (find_activities logA) (find_activities logB)).length (compute_case_to_trace_with_encryption (update_with_foreign_activities (find_activities logA) (find_activities logB)) logA (decrypt_and_identify_shared_case_ids (encrypt_all_case_ids hash logA).1 (find_shared_case_ids hash true logB (encrypt_all_case_ids hash logA).2)))).map Prod.fst)), (find_secrets_for_case 0 1 ((alookup (set_foreign_case_to_trace (update_with_foreign_activities (find_activities logA) (find_activities logB)).length (compute_case_to_trace_with_encryption (update_with_foreign_activities (find_activities logA) (find_activities logB)) logA (decrypt_and_identify_shared_case_ids (encrypt_all_case_ids hash logA).1 (find_shared_case_ids hash true logB (encrypt_all_case_ids hash logA).2)))) nm ).getD ([], [])).1 ((alookup (set_foreign_case_to_trace (update_with_foreign_activities (find_activities logA) (find_activities logB)).length (compute_case_to_trace_with_encryption (update_with_foreign_activities (find_activities logA) (find_activities logB)) logA (decrypt_and_identify_shared_case_ids (encrypt_all_case_ids hash logA).1 (find_shared_case_ids hash true logB (encrypt_all_case_ids hash logA).2)))) nm ).getD ([], [])).2 ((alookup (compute_case_to_trace_using_sample_encryption (update_with_foreign_activities (find_activities logA) (find_activities logB)) ((update_with_foreign_activities (find_activities logA) (find_activities logB)).map (fun p => (p.2, p.2))) logB) nm ).getD ([], [])).1 ((alookup (compute_case_to_trace_using_sample_encryption (update_with_foreign_activities (find_activities logA) (find_activities logB)) ((update_with_foreign_activities (find_activities logA) (find_activities logB)).map (fun p => (p.2, p.2))) logB) nm ).getD ([], [])).2).isSome := by
    intro nm hnm
    obtain ⟨l, hsome, h2, h3⟩ := percase_characterization logA logB (update_with_foreign_activities (find_activities logA) (find_activities logB)) rfl ((update_with_foreign_activities (find_activities logA) (find_activities logB)).map (fun p => (p.2, p.2))) rfl (decrypt_and_identify_shared_case_ids (encrypt_all_case_ids hash logA).1 (find_shared_case_ids hash true logB (encrypt_all_case_ids hash logA).2)) hsharedIff hndA hndB hsorted hne_tr hs he hK nm (hnamesB nm hnm)
    rw [hsome]
    rfl
  have hcE : communicate_edges 0 1 (set_foreign_case_to_trace (update_with_foreign_activities (find_activities logA) (find_activities logB)).length (compute_case_to_trace_with_encryption (update_with_foreign_activities (find_activities logA) (find_activities logB)) logA (decrypt_and_identify_shared_case_ids (encrypt_all_case_ids hash logA).1 (find_shared_case_ids hash true logB (encrypt_all_case_ids hash logA).2)))) (compute_case_to_trace_using_sample_encryption (update_with_foreign_activities (find_activities logA) (find_activities logB)) ((update_with_foreign_activities (find_activities logA) (find_activities logB)).map (fun p => (p.2, p.2))) logB) (compute_all_case_names (logB.map Prod.fst) ((set_foreign_case_to_trace (update_with_foreign_activities (find_activities logA) (find_activities logB)).length (compute_case_to_trace_with_encryption (update_with_foreign_activities (find_activities logA) (find_activities logB)) logA (decrypt_and_identify_shared_case_ids (encrypt_all_case_ids hash logA).1 (find_shared_case_ids hash true logB (encrypt_all_case_ids hash logA).2)))).map Prod.fst)) 1 = some (List.flatten ((compute_all_case_names (logB.map Prod.fst) ((set_foreign_case_to_trace (update_with_foreign_activities (find_activities logA) (find_activities logB)).length (compute_case_to_trace_with_encryption (update_with_foreign_activities (find_activities logA) (find_activities logB)) logA (decrypt_and_identify_shared_case_ids (encrypt_all_case_ids hash logA).1 (find_shared_case_ids hash true logB (encrypt_all_case_ids hash logA).2)))).map Prod.fst)).map (fun nm => (find_secrets_for_case 0 1 ((alookup (set_foreign_case_to_trace (update_with_foreign_activities (find_activities logA) (find_activities logB)).length (compute_case_to_trace_with_encryption (update_with_foreign_activities (find_activities logA) (find_activities logB)) logA (decrypt_and_identify_shared_case_ids (encrypt_all_case_ids hash logA).1 (find_shared_case_ids hash true logB (encrypt_all_case_ids hash logA).2)))) nm ).getD ([], [])).1 ((alookup (set_foreign_case_to_trace (update_with_foreign_activities (find_activities logA) (find_activities logB)).length (compute_case_to_trace_with_encryption (update_with_foreign_activities (find_activities logA) (find_activities logB)) logA (decrypt_and_identify_shared_case_ids (encrypt_all_case_ids hash logA).1 (find_shared_case_ids hash true logB (encrypt_all_case_ids hash logA).2)))) nm ).getD ([], [])).2 ((alookup (compute_case_to_trace_using_sample_encryption (update_with_foreign_activities (find_activities logA) (find_activities logB)) ((update_with_foreign_activities (find_activities logA) (find_activities logB)).map (fun p => (p.2, p.2))) logB) nm ).getD ([], [])).1 ((alookup (compute_case_to_trace_using_sample_encryption (update_with_foreign_activities (find_activities logA) (find_activities logB)) ((update_with_foreign_activities (find_activities logA) (find_activities logB)).map (fun p => (p.2, p.2))) logB) nm ).getD ([], [])).2).getD []))) := by
    rw [communicate_edges_one 0 1 (set_foreign_case_to_trace (update_with_foreign_activities (find_activities logA) (find_activities logB)).length (compute_case_to_trace_with_encryption (update_with_foreign_activities (find_activities logA) (find_activities logB)) logA (decrypt_and_identify_shared_case_ids (encrypt_all_case_ids hash logA).1 (find_shared_case_ids hash true logB (encrypt_all_case_ids hash logA).2)))) (compute_case_to_trace_using_sample_encryption (update_with_foreign_activities (find_activities logA) (find_activities logB)) ((update_with_foreign_activities (find_activities logA) (find_activities logB)).map (fun p => (p.2, p.2))) logB) (compute_all_case_names (logB.map Prod.fst) ((set_foreign_case_to_trace (update_with_foreign_activities (find_activities logA) (find_activities logB)).length (compute_case_to_trace_with_encryption (update_with_foreign_activities (find_activities logA) (find_activities logB)) logA (decrypt_and_identify_shared_case_ids (encrypt_all_case_ids hash logA).1 (find_shared_case_ids hash true logB (encrypt_all_case_ids hash logA).2)))).map Prod.fst))]
    have hmapm := mapM_option_eq_some _ _ hpcsome
    rw [hmapm]
    rfl
  have hnoend : ∀ p ∈ (List.flatten ((compute_all_case_names (logB.map Prod.fst) ((set_foreign_case_to_trace (update_with_foreign_activities (find_activities logA) (find_activities logB)).length (compute_case_to_trace_with_encryption (update_with_foreign_activities (find_activities logA) (find_activities logB)) logA (decrypt_and_identify_shared_case_ids (encrypt_all_case_ids hash logA).1 (find_shared_case_ids hash true logB (encrypt_all_case_ids hash logA).2)))).map Prod.fst)).map (fun nm => (find_secrets_for_case 0 1 ((alookup (set_foreign_case_to_trace (update_with_foreign_activities (find_activities logA) (find_activities logB)).length (compute_case_to_trace_with_encryption (update_with_foreign_activities (find_activities logA) (find_activities logB)) logA (decrypt_and_identify_shared_case_ids (encrypt_all_case_ids hash logA).1 (find_shared_case_ids hash true logB (encrypt_all_case_ids hash logA).2)))) nm ).getD ([], [])).1 ((alookup (set_foreign_case_to_trace (update_with_foreign_activities (find_activities logA) (find_activities logB)).length (compute_case_to_trace_with_encryption (update_with_foreign_activities (find_activities logA) (find_activities logB)) logA (decrypt_and_identify_shared_case_ids (encrypt_all_case_ids hash logA).1 (find_shared_case_ids hash true logB (encrypt_all_case_ids hash logA).2)))) nm ).getD ([], [])).2 ((alookup (compute_case_to_trace_using_sample_encryption (update_with_foreign_activities (find_activities logA) (find_activities logB)) ((update_with_foreign_activities (find_activities logA) (find_activities logB)).map (fun p => (p.2, p.2))) logB) nm ).getD ([], [])).1 ((alookup (compute_case_to_trace_using_sample_encryption (update_with_foreign_activities (find_activities logA) (find_activities logB)) ((update_with_foreign_activities (find_activities logA) (find_activities logB)).map (fun p => (p.2, p.2))) logB) nm ).getD ([], [])).2).getD []))), ((alookup (invert_table (update_with_foreign_activities (find_activities logA) (find_activities logB))) p.1).getD "" ≠ "end") := by
    intro p hp
    rcases List.mem_flatten.mp hp with ⟨l0, hl0, hpl0⟩
    rcases List.mem_map.mp hl0 with ⟨nm, hnm, hlnm⟩
    obtain ⟨l, hsome, h2, hnoe⟩ := percase_characterization logA logB (update_with_foreign_activities (find_activities logA) (find_activities logB)) rfl ((update_with_foreign_activities (find_activities logA) (find_activities logB)).map (fun p => (p.2, p.2))) rfl (decrypt_and_identify_shared_case_ids (encrypt_all_case_ids hash logA).1 (find_shared_case_ids hash true logB (encrypt_all_case_ids hash logA).2)) hsharedIff hndA hndB hsorted hne_tr hs he hK nm (hnamesB nm hnm)
    apply hnoe p
    rw [hsome] at hlnm
    have hll : l = l0 := hlnm
    rw [hll]
    exact hpl0
  have hfiltereq : (logA.filter (fun t => !((decrypt_and_identify_shared_case_ids (encrypt_all_case_ids hash logA).1 (find_shared_case_ids hash true logB (encrypt_all_case_ids hash logA).2)).contains t.1) && !(t.2.isEmpty))) = (logA.filter (fun t => !((decrypt_and_identify_shared_case_ids (encrypt_all_case_ids hash logA).1 (find_shared_case_ids hash true logB (encrypt_all_case_ids hash logA).2)).contains t.1))) := by
    apply List.filter_congr
    intro t ht
    have htne : t.2 ≠ [] := hne_tr t (List.mem_append_left logB ht)
    have hie : t.2.isEmpty = false := by
      cases h2 : t.2 with
      | nil => exact absurd h2 htne
      | cons a r => rfl
    show (!((decrypt_and_identify_shared_case_ids (encrypt_all_case_ids hash logA).1 (find_shared_case_ids hash true logB (encrypt_all_case_ids hash logA).2)).contains t.1) && !(t.2.isEmpty)) = !((decrypt_and_identify_shared_case_ids (encrypt_all_case_ids hash logA).1 (find_shared_case_ids hash true logB (encrypt_all_case_ids hash logA).2)).contains t.1)
    rw [hie, Bool.not_false, Bool.and_true]
  have hnamesnodup : (compute_all_case_names (logB.map Prod.fst) ((set_foreign_case_to_trace (update_with_foreign_activities (find_activities logA) (find_activities logB)).length (compute_case_to_trace_with_encryption (update_with_foreign_activities (find_activities logA) (find_activities logB)) logA (decrypt_and_identify_shared_case_ids (encrypt_all_case_ids hash logA).1 (find_shared_case_ids hash true logB (encrypt_all_case_ids hash logA).2)))).map Prod.fst)).Nodup := List.nodup_dedup (logB.map Prod.fst ++ (set_foreign_case_to_trace (update_with_foreign_activities (find_activities logA) (find_activities logB)).length (compute_case_to_trace_with_encryption (update_with_foreign_activities (find_activities logA) (find_activities logB)) logA (decrypt_and_identify_shared_case_ids (encrypt_all_case_ids hash logA).1 (find_shared_case_ids hash true logB (encrypt_all_case_ids hash logA).2)))).map Prod.fst)
  have haonodup : ((logA.filter (fun t => !((decrypt_and_identify_shared_case_ids (encrypt_all_case_ids hash logA).1 (find_shared_case_ids hash true logB (encrypt_all_case_ids hash logA).2)).contains t.1))).map Prod.fst).Nodup := List.Nodup.sublist (List.Sublist.map Prod.fst (List.filter_sublist logA)) hndA
  have hdisj : List.Disjoint (compute_all_case_names (logB.map Prod.fst) ((set_foreign_case_to_trace (update_with_foreign_activities (find_activities logA) (find_activities logB)).length (compute_case_to_trace_with_encryption (update_with_foreign_activities (find_activities logA) (find_activities logB)) logA (decrypt_and_identify_shared_case_ids (encrypt_all_case_ids hash logA).1 (find_shared_case_ids hash true logB (encrypt_all_case_ids hash logA).2)))).map Prod.fst)) ((logA.filter (fun t => !((decrypt_and_identify_shared_case_ids (encrypt_all_case_ids hash logA).1 (find_shared_case_ids hash true logB (encrypt_all_case_ids hash logA).2)).contains t.1))).map Prod.fst) := by
    intro a ha hcontra
    rcases List.mem_map.mp hcontra with ⟨t, htf, hteq⟩
    have hcond : (!((decrypt_and_identify_shared_case_ids (encrypt_all_case_ids hash logA).1 (find_shared_case_ids hash true logB (encrypt_all_case_ids hash logA).2)).contains t.1)) = true := (List.mem_filter.mp htf).2
    have hcf : (decrypt_and_identify_shared_case_ids (encrypt_all_case_ids hash logA).1 (find_shared_case_ids hash true logB (encrypt_all_case_ids hash logA).2)).contains t.1 = false := by
      cases hc2 : (decrypt_and_identify_shared_case_ids (encrypt_all_case_ids hash logA).1 (find_shared_case_ids hash true logB (encrypt_all_case_ids hash logA).2)).contains t.1 with
      | false => rfl
      | true => rw [hc2] at hcond; simp at hcond
    have haB := hnamesB a ha
    have hmem : t.1 ∈ (decrypt_and_identify_shared_case_ids (encrypt_all_case_ids hash logA).1 (find_shared_case_ids hash true logB (encrypt_all_case_ids hash logA).2)) := (hsharedIff t.1).mpr ⟨List.mem_map_of_mem Prod.fst (List.mem_filter.mp htf).1, hteq.symm ▸ haB⟩
    have h3 : (decrypt_and_identify_shared_case_ids (encrypt_all_case_ids hash logA).1 (find_shared_case_ids hash true logB (encrypt_all_case_ids hash logA).2)).contains t.1 = true := List.elem_eq_true_of_mem hmem
    rw [h3] at hcf
    cases hcf
  have hperm : ((compute_all_case_names (logB.map Prod.fst) ((set_foreign_case_to_trace (update_with_foreign_activities (find_activities logA) (find_activities logB)).length (compute_case_to_trace_with_encryption (update_with_foreign_activities (find_activities logA) (find_activities logB)) logA (decrypt_and_identify_shared_case_ids (encrypt_all_case_ids hash logA).1 (find_shared_case_ids hash true logB (encrypt_all_case_ids hash logA).2)))).map Prod.fst)) ++ (logA.filter (fun t => !((decrypt_and_identify_shared_case_ids (encrypt_all_case_ids hash logA).1 (find_shared_case_ids hash true logB (encrypt_all_case_ids hash logA).2)).contains t.1))).map Prod.fst).Perm (oracle_case_ids logA logB) := by
    refine (List.perm_ext_iff_of_nodup (List.Nodup.append hnamesnodup haonodup hdisj) (List.nodup_dedup (logA.map Prod.fst ++ logB.map Prod.fst))).mpr ?_
    intro a
    constructor
    · intro ha
      show a ∈ (logA.map Prod.fst ++ logB.map Prod.fst).dedup
      rw [List.mem_dedup]
      rcases List.mem_append.mp ha with h | h
      · exact List.mem_append_right _ (hnamesB a h)
      · rcases List.mem_map.mp h with ⟨t, htf, hteq⟩
        exact List.mem_append_left _ (hteq ▸ List.mem_map_of_mem Prod.fst (List.mem_filter.mp htf).1)
    · intro ha
      have ha2 : a ∈ logA.map Prod.fst ∨ a ∈ logB.map Prod.fst := by
        have h4 : a ∈ (logA.map Prod.fst ++ logB.map Prod.fst).dedup := ha
        rw [List.mem_dedup, List.mem_append] at h4
        exact h4
      by_cases hB : a ∈ logB.map Prod.fst
      · apply List.mem_append_left
        show a ∈ (logB.map Prod.fst ++ (set_foreign_case_to_trace (update_with_foreign_activities (find_activities logA) (find_activities logB)).length (compute_case_to_trace_with_encryption (update_with_foreign_activities (find_activities logA) (find_activities logB)) logA (decrypt_and_identify_shared_case_ids (encrypt_all_case_ids hash logA).1 (find_shared_case_ids hash true logB (encrypt_all_case_ids hash logA).2)))).map Prod.fst).dedup
        rw [List.mem_dedup]
        exact List.mem_append_left _ hB
      · rcases ha2 with hA | hB2
        · apply List.mem_append_right
          rcases List.mem_map.mp hA with ⟨t, htA, hteq⟩
          apply List.mem_map.mpr
          refine ⟨t, List.mem_filter.mpr ⟨htA, ?_⟩, hteq⟩
          have hcf : (decrypt_and_identify_shared_case_ids (encrypt_all_case_ids hash logA).1 (find_shared_case_ids hash true logB (encrypt_all_case_ids hash logA).2)).contains t.1 = false := by
            cases hc2 : (decrypt_and_identify_shared_case_ids (encrypt_all_case_ids hash logA).1 (find_shared_case_ids hash true logB (encrypt_all_case_ids hash logA).2)).contains t.1 with
            | false => rfl
            | true =>
              have hmem : t.1 ∈ (decrypt_and_identify_shared_case_ids (encrypt_all_case_ids hash logA).1 (find_shared_case_ids hash true logB (encrypt_all_case_ids hash logA).2)) := List.mem_of_elem_eq_true hc2
              exact absurd (hteq ▸ ((hsharedIff t.1).mp hmem).2) hB
          show (!((decrypt_and_identify_shared_case_ids (encrypt_all_case_ids hash logA).1 (find_shared_case_ids hash true logB (encrypt_all_case_ids hash logA).2)).contains t.1)) = true
          rw [hcf]
          rfl
        · exact absurd hB2 hB
  have hmain : communicate hash logA logB 1 = some (DFG.mk (recalculate_activity_counts (update_graph_with_private_cases (evaluate_decrypted_edges_to_dfg (update_with_foreign_activities (find_activities logA) (find_activities logB)) (List.flatten ((compute_all_case_names (logB.map Prod.fst) ((set_foreign_case_to_trace (update_with_foreign_activities (find_activities logA) (find_activities logB)).length (compute_case_to_trace_with_encryption (update_with_foreign_activities (find_activities logA) (find_activities logB)) logA (decrypt_and_identify_shared_case_ids (encrypt_all_case_ids hash logA).1 (find_shared_case_ids hash true logB (encrypt_all_case_ids hash logA).2)))).map Prod.fst)).map (fun nm => (find_secrets_for_case 0 1 ((alookup (set_foreign_case_to_trace (update_with_foreign_activities (find_activities logA) (find_activities logB)).length (compute_case_to_trace_with_encryption (update_with_foreign_activities (find_activities logA) (find_activities logB)) logA (decrypt_and_identify_shared_case_ids (encrypt_all_case_ids hash logA).1 (find_shared_case_ids hash true logB (encrypt_all_case_ids hash logA).2)))) nm ).getD ([], [])).1 ((alookup (set_foreign_case_to_trace (update_with_foreign_activities (find_activities logA) (find_activities logB)).length (compute_case_to_trace_with_encryption (update_with_foreign_activities (find_activities logA) (find_activities logB)) logA (decrypt_and_identify_shared_case_ids (encrypt_all_case_ids hash logA).1 (find_shared_case_ids hash true logB (encrypt_all_case_ids hash logA).2)))) nm ).getD ([], [])).2 ((alookup (compute_case_to_trace_using_sample_encryption (update_with_foreign_activities (find_activities logA) (find_activities logB)) ((update_with_foreign_activities (find_activities logA) (find_activities logB)).map (fun p => (p.2, p.2))) logB) nm ).getD ([], [])).1 ((alookup (compute_case_to_trace_using_sample_encryption (update_with_foreign_activities (find_activities logA) (find_activities logB)) ((update_with_foreign_activities (find_activities logA) (find_activities logB)).map (fun p => (p.2, p.2))) logB) nm ).getD ([], [])).2).getD []))) ) logA (decrypt_and_identify_shared_case_ids (encrypt_all_case_ids hash logA).1 (find_shared_case_ids hash true logB (encrypt_all_case_ids hash logA).2)))).activities (recalculate_activity_counts (update_graph_with_private_cases (evaluate_decrypted_edges_to_dfg (update_with_foreign_activities (find_activities logA) (find_activities logB)) (List.flatten ((compute_all_case_names (logB.map Prod.fst) ((set_foreign_case_to_trace (update_with_foreign_activities (find_activities logA) (find_activities logB)).length (compute_case_to_trace_with_encryption (update_with_foreign_activities (find_activities logA) (find_activities logB)) logA (decrypt_and_identify_shared_case_ids (encrypt_all_case_ids hash logA).1 (find_shared_case_ids hash true logB (encrypt_all_case_ids hash logA).2)))).map Prod.fst)).map (fun nm => (find_secrets_for_case 0 1 ((alookup (set_foreign_case_to_trace (update_with_foreign_activities (find_activities logA) (find_activities logB)).length (compute_case_to_trace_with_encryption (update_with_foreign_activities (find_activities logA) (find_activities logB)) logA (decrypt_and_identify_shared_case_ids (encrypt_all_case_ids hash logA).1 (find_shared_case_ids hash true logB (encrypt_all_case_ids hash logA).2)))) nm ).getD ([], [])).1 ((alookup (set_foreign_case_to_trace (update_with_foreign_activities (find_activities logA) (find_activities logB)).length (compute_case_to_trace_with_encryption (update_with_foreign_activities (find_activities logA) (find_activities logB)) logA (decrypt_and_identify_shared_case_ids (encrypt_all_case_ids hash logA).1 (find_shared_case_ids hash true logB (encrypt_all_case_ids hash logA).2)))) nm ).getD ([], [])).2 ((alookup (compute_case_to_trace_using_sample_encryption (update_with_foreign_activities (find_activities logA) (find_activities logB)) ((update_with_foreign_activities (find_activities logA) (find_activities logB)).map (fun p => (p.2, p.2))) logB) nm ).getD ([], [])).1 ((alookup (compute_case_to_trace_using_sample_encryption (update_with_foreign_activities (find_activities logA) (find_activities logB)) ((update_with_foreign_activities (find_activities logA) (find_activities logB)).map (fun p => (p.2, p.2))) logB) nm ).getD ([], [])).2).getD []))) ) logA (decrypt_and_identify_shared_case_ids (encrypt_all_case_ids hash logA).1 (find_shared_case_ids hash true logB (encrypt_all_case_ids hash logA).2)))).edges ((recalculate_activity_counts (update_graph_with_private_cases (evaluate_decrypted_edges_to_dfg (update_with_foreign_activities (find_activities logA) (find_activities logB)) (List.flatten ((compute_all_case_names (logB.map Prod.fst) ((set_foreign_case_to_trace (update_with_foreign_activities (find_activities logA) (find_activities logB)).length (compute_case_to_trace_with_encryption (update_with_foreign_activities (find_activities logA) (find_activities logB)) logA (decrypt_and_identify_shared_case_ids (encrypt_all_case_ids hash logA).1 (find_shared_case_ids hash true logB (encrypt_all_case_ids hash logA).2)))).map Prod.fst)).map (fun nm => (find_secrets_for_case 0 1 ((alookup (set_foreign_case_to_trace (update_with_foreign_activities (find_activities logA) (find_activities logB)).length (compute_case_to_trace_with_encryption (update_with_foreign_activities (find_activities logA) (find_activities logB)) logA (decrypt_and_identify_shared_case_ids (encrypt_all_case_ids hash logA).1 (find_shared_case_ids hash true logB (encrypt_all_case_ids hash logA).2)))) nm ).getD ([], [])).1 ((alookup (set_foreign_case_to_trace (update_with_foreign_activities (find_activities logA) (find_activities logB)).length (compute_case_to_trace_with_encryption (update_with_foreign_activities (find_activities logA) (find_activities logB)) logA (decrypt_and_identify_shared_case_ids (encrypt_all_case_ids hash logA).1 (find_shared_case_ids hash true logB (encrypt_all_case_ids hash logA).2)))) nm ).getD ([], [])).2 ((alookup (compute_case_to_trace_using_sample_encryption (update_with_foreign_activities (find_activities logA) (find_activities logB)) ((update_with_foreign_activities (find_activities logA) (find_activities logB)).map (fun p => (p.2, p.2))) logB) nm ).getD ([], [])).1 ((alookup (compute_case_to_trace_using_sample_encryption (update_with_foreign_activities (find_activities logA) (find_activities logB)) ((update_with_foreign_activities (find_activities logA) (find_activities logB)).map (fun p => (p.2, p.2))) logB) nm ).getD ([], [])).2).getD []))) ) logA (decrypt_and_identify_shared_case_ids (encrypt_all_case_ids hash logA).1 (find_shared_case_ids hash true logB (encrypt_all_case_ids hash logA).2)))).start_activities ++ ["start"]) ((recalculate_activity_counts (update_graph_with_private_cases (evaluate_decrypted_edges_to_dfg (update_with_foreign_activities (find_activities logA) (find_activities logB)) (List.flatten ((compute_all_case_names (logB.map Prod.fst) ((set_foreign_case_to_trace (update_with_foreign_activities (find_activities logA) (find_activities logB)).length (compute_case_to_trace_with_encryption (update_with_foreign_activities (find_activities logA) (find_activities logB)) logA (decrypt_and_identify_shared_case_ids (encrypt_all_case_ids hash logA).1 (find_shared_case_ids hash true logB (encrypt_all_case_ids hash logA).2)))).map Prod.fst)).map (fun nm => (find_secrets_for_case 0 1 ((alookup (set_foreign_case_to_trace (update_with_foreign_activities (find_activities logA) (find_activities logB)).length (compute_case_to_trace_with_encryption (update_with_foreign_activities (find_activities logA) (find_activities logB)) logA (decrypt_and_identify_shared_case_ids (encrypt_all_case_ids hash logA).1 (find_shared_case_ids hash true logB (encrypt_all_case_ids hash logA).2)))) nm ).getD ([], [])).1 ((alookup (set_foreign_case_to_trace (update_with_foreign_activities (find_activities logA) (find_activities logB)).length (compute_case_to_trace_with_encryption (update_with_foreign_activities (find_activities logA) (find_activities logB)) logA (decrypt_and_identify_shared_case_ids (encrypt_all_case_ids hash logA).1 (find_shared_case_ids hash true logB (encrypt_all_case_ids hash logA).2)))) nm ).getD ([], [])).2 ((alookup (compute_case_to_trace_using_sample_encryption (update_with_foreign_activities (find_activities logA) (find_activities logB)) ((update_with_foreign_activities (find_activities logA) (find_activities logB)).map (fun p => (p.2, p.2))) logB) nm ).getD ([], [])).1 ((alookup (compute_case_to_trace_using_sample_encryption (update_with_foreign_activities (find_activities logA) (find_activities logB)) ((update_with_foreign_activities (find_activities logA) (find_activities logB)).map (fun p => (p.2, p.2))) logB) nm ).getD ([], [])).2).getD []))) ) logA (decrypt_and_identify_shared_case_ids (encrypt_all_case_ids hash logA).1 (find_shared_case_ids hash true logB (encrypt_all_case_ids hash logA).2)))).end_activities ++ ["end"])) := by
    show (match sanitize_sample_encryptions (provide_sample_encryptions (invert_table (update_with_foreign_activities (find_activities logA) (find_activities logB)))) with
      | none => none
      | some samples =>
        (match communicate_edges ((alookup samples 0).getD 0) ((alookup samples 1).getD 0) (set_foreign_case_to_trace (update_with_foreign_activities (find_activities logA) (find_activities logB)).length (compute_case_to_trace_with_encryption (update_with_foreign_activities (find_activities logA) (find_activities logB)) logA (decrypt_and_identify_shared_case_ids (encrypt_all_case_ids hash logA).1 (find_shared_case_ids hash true logB (encrypt_all_case_ids hash logA).2)))) (compute_case_to_trace_using_sample_encryption (update_with_foreign_activities (find_activities logA) (find_activities logB)) samples logB) (compute_all_case_names (logB.map Prod.fst) ((set_foreign_case_to_trace (update_with_foreign_activities (find_activities logA) (find_activities logB)).length (compute_case_to_trace_with_encryption (update_with_foreign_activities (find_activities logA) (find_activities logB)) logA (decrypt_and_identify_shared_case_ids (encrypt_all_case_ids hash logA).1 (find_shared_case_ids hash true logB (encrypt_all_case_ids hash logA).2)))).map Prod.fst)) 1 with
          | none => none
          | some decrypted_edges => some (DFG.mk (recalculate_activity_counts (update_graph_with_private_cases (evaluate_decrypted_edges_to_dfg (update_with_foreign_activities (find_activities logA) (find_activities logB)) decrypted_edges ) logA (decrypt_and_identify_shared_case_ids (encrypt_all_case_ids hash logA).1 (find_shared_case_ids hash true logB (encrypt_all_case_ids hash logA).2)))).activities (recalculate_activity_counts (update_graph_with_private_cases (evaluate_decrypted_edges_to_dfg (update_with_foreign_activities (find_activities logA) (find_activities logB)) decrypted_edges ) logA (decrypt_and_identify_shared_case_ids (encrypt_all_case_ids hash logA).1 (find_shared_case_ids hash true logB (encrypt_all_case_ids hash logA).2)))).edges ((recalculate_activity_counts (update_graph_with_private_cases (evaluate_decrypted_edges_to_dfg (update_with_foreign_activities (find_activities logA) (find_activities logB)) decrypted_edges ) logA (decrypt_and_identify_shared_case_ids (encrypt_all_case_ids hash logA).1 (find_shared_case_ids hash true logB (encrypt_all_case_ids hash logA).2)))).start_activities ++ ["start"]) ((recalculate_activity_counts (update_graph_with_private_cases (evaluate_decrypted_edges_to_dfg (update_with_foreign_activities (find_activities logA) (find_activities logB)) decrypted_edges ) logA (decrypt_and_identify_shared_case_ids (encrypt_all_case_ids hash logA).1 (find_shared_case_ids hash true logB (encrypt_all_case_ids hash logA).2)))).end_activities ++ ["end"])))) = some (DFG.mk (recalculate_activity_counts (update_graph_with_private_cases (evaluate_decrypted_edges_to_dfg (update_with_foreign_activities (find_activities logA) (find_activities logB)) (List.flatten ((compute_all_case_names (logB.map Prod.fst) ((set_foreign_case_to_trace (update_with_foreign_activities (find_activities logA) (find_activities logB)).length (compute_case_to_trace_with_encryption (update_with_foreign_activities (find_activities logA) (find_activities logB)) logA (decrypt_and_identify_shared_case_ids (encrypt_all_case_ids hash logA).1 (find_shared_case_ids hash true logB (encrypt_all_case_ids hash logA).2)))).map Prod.fst)).map (fun nm => (find_secrets_for_case 0 1 ((alookup (set_foreign_case_to_trace (update_with_foreign_activities (find_activities logA) (find_activities logB)).length (compute_case_to_trace_with_encryption (update_with_foreign_activities (find_activities logA) (find_activities logB)) logA (decrypt_and_identify_shared_case_ids (encrypt_all_case_ids hash logA).1 (find_shared_case_ids hash true logB (encrypt_all_case_ids hash logA).2)))) nm ).getD ([], [])).1 ((alookup (set_foreign_case_to_trace (update_with_foreign_activities (find_activities logA) (find_activities logB)).length (compute_case_to_trace_with_encryption (update_with_foreign_activities (find_activities logA) (find_activities logB)) logA (decrypt_and_identify_shared_case_ids (encrypt_all_case_ids hash logA).1 (find_shared_case_ids hash true logB (encrypt_all_case_ids hash logA).2)))) nm ).getD ([], [])).2 ((alookup (compute_case_to_trace_using_sample_encryption (update_with_foreign_activities (find_activities logA) (find_activities logB)) ((update_with_foreign_activities (find_activities logA) (find_activities logB)).map (fun p => (p.2, p.2))) logB) nm ).getD ([], [])).1 ((alookup (compute_case_to_trace_using_sample_encryption (update_with_foreign_activities (find_activities logA) (find_activities logB)) ((update_with_foreign_activities (find_activities logA) (find_activities logB)).map (fun p => (p.2, p.2))) logB) nm ).getD ([], [])).2).getD []))) ) logA (decrypt_and_identify_shared_case_ids (encrypt_all_case_ids hash logA).1 (find_shared_case_ids hash true logB (encrypt_all_case_ids hash logA).2)))).activities (recalculate_activity_counts (update_graph_with_private_cases (evaluate_decrypted_edges_to_dfg (update_with_foreign_activities (find_activities logA) (find_activities logB)) (List.flatten ((compute_all_case_names (logB.map Prod.fst) ((set_foreign_case_to_trace (update_with_foreign_activities (find_activities logA) (find_activities logB)).length (compute_case_to_trace_with_encryption (update_with_foreign_activities (find_activities logA) (find_activities logB)) logA (decrypt_and_identify_shared_case_ids (encrypt_all_case_ids hash logA).1 (find_shared_case_ids hash true logB (encrypt_all_case_ids hash logA).2)))).map Prod.fst)).map (fun nm => (find_secrets_for_case 0 1 ((alookup (set_foreign_case_to_trace (update_with_foreign_activities (find_activities logA) (find_activities logB)).length (compute_case_to_trace_with_encryption (update_with_foreign_activities (find_activities logA) (find_activities logB)) logA (decrypt_and_identify_shared_case_ids (encrypt_all_case_ids hash logA).1 (find_shared_case_ids hash true logB (encrypt_all_case_ids hash logA).2)))) nm ).getD ([], [])).1 ((alookup (set_foreign_case_to_trace (update_with_foreign_activities (find_activities logA) (find_activities logB)).length (compute_case_to_trace_with_encryption (update_with_foreign_activities (find_activities logA) (find_activities logB)) logA (decrypt_and_identify_shared_case_ids (encrypt_all_case_ids hash logA).1 (find_shared_case_ids hash true logB (encrypt_all_case_ids hash logA).2)))) nm ).getD ([], [])).2 ((alookup (compute_case_to_trace_using_sample_encryption (update_with_foreign_activities (find_activities logA) (find_activities logB)) ((update_with_foreign_activities (find_activities logA) (find_activities logB)).map (fun p => (p.2, p.2))) logB) nm ).getD ([], [])).1 ((alookup (compute_case_to_trace_using_sample_encryption (update_with_foreign_activities (find_activities logA) (find_activities logB)) ((update_with_foreign_activities (find_activities logA) (find_activities logB)).map (fun p => (p.2, p.2))) logB) nm ).getD ([], [])).2).getD []))) ) logA (decrypt_and_identify_shared_case_ids (encrypt_all_case_ids hash logA).1 (find_shared_case_ids hash true logB (encrypt_all_case_ids hash logA).2)))).edges ((recalculate_activity_counts (update_graph_with_private_cases (evaluate_decrypted_edges_to_dfg (update_with_foreign_activities (find_activities logA) (find_activities logB)) (List.flatten ((compute_all_case_names (logB.map Prod.fst) ((set_foreign_case_to_trace (update_with_foreign_activities (find_activities logA) (find_activities logB)).length (compute_case_to_trace_with_encryption (update_with_foreign_activities (find_activities logA) (find_activities logB)) logA (decrypt_and_identify_shared_case_ids (encrypt_all_case_ids hash logA).1 (find_shared_case_ids hash true logB (encrypt_all_case_ids hash logA).2)))).map Prod.fst)).map (fun nm => (find_secrets_for_case 0 1 ((alookup (set_foreign_case_to_trace (update_with_foreign_activities (find_activities logA) (find_activities logB)).length (compute_case_to_trace_with_encryption (update_with_foreign_activities (find_activities logA) (find_activities logB)) logA (decrypt_and_identify_shared_case_ids (encrypt_all_case_ids hash logA).1 (find_shared_case_ids hash true logB (encrypt_all_case_ids hash logA).2)))) nm ).getD ([], [])).1 ((alookup (set_foreign_case_to_trace (update_with_foreign_activities (find_activities logA) (find_activities logB)).length (compute_case_to_trace_with_encryption (update_with_foreign_activities (find_activities logA) (find_activities logB)) logA (decrypt_and_identify_shared_case_ids (encrypt_all_case_ids hash logA).1 (find_shared_case_ids hash true logB (encrypt_all_case_ids hash logA).2)))) nm ).getD ([], [])).2 ((alookup (compute_case_to_trace_using_sample_encryption (update_with_foreign_activities (find_activities logA) (find_activities logB)) ((update_with_foreign_activities (find_activities logA) (find_activities logB)).map (fun p => (p.2, p.2))) logB) nm ).getD ([], [])).1 ((alookup (compute_case_to_trace_using_sample_encryption (update_with_foreign_activities (find_activities logA) (find_activities logB)) ((update_with_foreign_activities (find_activities logA) (find_activities logB)).map (fun p => (p.2, p.2))) logB) nm ).getD ([], [])).2).getD []))) ) logA (decrypt_and_identify_shared_case_ids (encrypt_all_case_ids hash logA).1 (find_shared_case_ids hash true logB (encrypt_all_case_ids hash logA).2)))).start_activities ++ ["start"]) ((recalculate_activity_counts (update_graph_with_private_cases (evaluate_decrypted_edges_to_dfg (update_with_foreign_activities (find_activities logA) (find_activities logB)) (List.flatten ((compute_all_case_names (logB.map Prod.fst) ((set_foreign_case_to_trace (update_with_foreign_activities (find_activities logA) (find_activities logB)).length (compute_case_to_trace_with_encryption (update_with_foreign_activities (find_activities logA) (find_activities logB)) logA (decrypt_and_identify_shared_case_ids (encrypt_all_case_ids hash logA).1 (find_shared_case_ids hash true logB (encrypt_all_case_ids hash logA).2)))).map Prod.fst)).map (fun nm => (find_secrets_for_case 0 1 ((alookup (set_foreign_case_to_trace (update_with_foreign_activities (find_activities logA) (find_activities logB)).length (compute_case_to_trace_with_encryption (update_with_foreign_activities (find_activities logA) (find_activities logB)) logA (decrypt_and_identify_shared_case_ids (encrypt_all_case_ids hash logA).1 (find_shared_case_ids hash true logB (encrypt_all_case_ids hash logA).2)))) nm ).getD ([], [])).1 ((alookup (set_foreign_case_to_trace (update_with_foreign_activities (find_activities logA) (find_activities logB)).length (compute_case_to_trace_with_encryption (update_with_foreign_activities (find_activities logA) (find_activities logB)) logA (decrypt_and_identify_shared_case_ids (encrypt_all_case_ids hash logA).1 (find_shared_case_ids hash true logB (encrypt_all_case_ids hash logA).2)))) nm ).getD ([], [])).2 ((alookup (compute_case_to_trace_using_sample_encryption (update_with_foreign_activities (find_activities logA) (find_activities logB)) ((update_with_foreign_activities (find_activities logA) (find_activities logB)).map (fun p => (p.2, p.2))) logB) nm ).getD ([], [])).1 ((alookup (compute_case_to_trace_using_sample_encryption (update_with_foreign_activities (find_activities logA) (find_activities logB)) ((update_with_foreign_activities (find_activities logA) (find_activities logB)).map (fun p => (p.2, p.2))) logB) nm ).getD ([], [])).2).getD []))) ) logA (decrypt_and_identify_shared_case_ids (encrypt_all_case_ids hash logA).1 (find_shared_case_ids hash true logB (encrypt_all_case_ids hash logA).2)))).end_activities ++ ["end"]))
    rw [samples_eq (update_with_foreign_activities (find_activities logA) (find_activities logB)) hrange]
    show (match communicate_edges ((alookup ((update_with_foreign_activities (find_activities logA) (find_activities logB)).map (fun p => (p.2, p.2))) 0).getD 0) ((alookup ((update_with_foreign_activities (find_activities logA) (find_activities logB)).map (fun p => (p.2, p.2))) 1).getD 0) (set_foreign_case_to_trace (update_with_foreign_activities (find_activities logA) (find_activities logB)).length (compute_case_to_trace_with_encryption (update_with_foreign_activities (find_activities logA) (find_activities logB)) logA (decrypt_and_identify_shared_case_ids (encrypt_all_case_ids hash logA).1 (find_shared_case_ids hash true logB (encrypt_all_case_ids hash logA).2)))) (compute_case_to_trace_using_sample_encryption (update_with_foreign_activities (find_activities logA) (find_activities logB)) ((update_with_foreign_activities (find_activities logA) (find_activities logB)).map (fun p => (p.2, p.2))) logB) (compute_all_case_names (logB.map Prod.fst) ((set_foreign_case_to_trace (update_with_foreign_activities (find_activities logA) (find_activities logB)).length (compute_case_to_trace_with_encryption (update_with_foreign_activities (find_activities logA) (find_activities logB)) logA (decrypt_and_identify_shared_case_ids (encrypt_all_case_ids hash logA).1 (find_shared_case_ids hash true logB (encrypt_all_case_ids hash logA).2)))).map Prod.fst)) 1 with
      | none => none
      | some decrypted_edges => some (DFG.mk (recalculate_activity_counts (update_graph_with_private_cases (evaluate_decrypted_edges_to_dfg (update_with_foreign_activities (find_activities logA) (find_activities logB)) decrypted_edges ) logA (decrypt_and_identify_shared_case_ids (encrypt_all_case_ids hash logA).1 (find_shared_case_ids hash true logB (encrypt_all_case_ids hash logA).2)))).activities (recalculate_activity_counts (update_graph_with_private_cases (evaluate_decrypted_edges_to_dfg (update_with_foreign_activities (find_activities logA) (find_activities logB)) decrypted_edges ) logA (decrypt_and_identify_shared_case_ids (encrypt_all_case_ids hash logA).1 (find_shared_case_ids hash true logB (encrypt_all_case_ids hash logA).2)))).edges ((recalculate_activity_counts (update_graph_with_private_cases (evaluate_decrypted_edges_to_dfg (update_with_foreign_activities (find_activities logA) (find_activities logB)) decrypted_edges ) logA (decrypt_and_identify_shared_case_ids (encrypt_all_case_ids hash logA).1 (find_shared_case_ids hash true logB (encrypt_all_case_ids hash logA).2)))).start_activities ++ ["start"]) ((recalculate_activity_counts (update_graph_with_private_cases (evaluate_decrypted_edges_to_dfg (update_with_foreign_activities (find_activities logA) (find_activities logB)) decrypted_edges ) logA (decrypt_and_identify_shared_case_ids (encrypt_all_case_ids hash logA).1 (find_shared_case_ids hash true logB (encrypt_all_case_ids hash logA).2)))).end_activities ++ ["end"]))) = some (DFG.mk (recalculate_activity_counts (update_graph_with_private_cases (evaluate_decrypted_edges_to_dfg (update_with_foreign_activities (find_activities logA) (find_activities logB)) (List.flatten ((compute_all_case_names (logB.map Prod.fst) ((set_foreign_case_to_trace (update_with_foreign_activities (find_activities logA) (find_activities logB)).length (compute_case_to_trace_with_encryption (update_with_foreign_activities (find_activities logA) (find_activities logB)) logA (decrypt_and_identify_shared_case_ids (encrypt_all_case_ids hash logA).1 (find_shared_case_ids hash true logB (encrypt_all_case_ids hash logA).2)))).map Prod.fst)).map (fun nm => (find_secrets_for_case 0 1 ((alookup (set_foreign_case_to_trace (update_with_foreign_activities (find_activities logA) (find_activities logB)).length (compute_case_to_trace_with_encryption (update_with_foreign_activities (find_activities logA) (find_activities logB)) logA (decrypt_and_identify_shared_case_ids (encrypt_all_case_ids hash logA).1 (find_shared_case_ids hash true logB (encrypt_all_case_ids hash logA).2)))) nm ).getD ([], [])).1 ((alookup (set_foreign_case_to_trace (update_with_foreign_activities (find_activities logA) (find_activities logB)).length (compute_case_to_trace_with_encryption (update_with_foreign_activities (find_activities logA) (find_activities logB)) logA (decrypt_and_identify_shared_case_ids (encrypt_all_case_ids hash logA).1 (find_shared_case_ids hash true logB (encrypt_all_case_ids hash logA).2)))) nm ).getD ([], [])).2 ((alookup (compute_case_to_trace_using_sample_encryption (update_with_foreign_activities (find_activities logA) (find_activities logB)) ((update_with_foreign_activities (find_activities logA) (find_activities logB)).map (fun p => (p.2, p.2))) logB) nm ).getD ([], [])).1 ((alookup (compute_case_to_trace_using_sample_encryption (update_with_foreign_activities (find_activities logA) (find_activities logB)) ((update_with_foreign_activities (find_activities logA) (find_activities logB)).map (fun p => (p.2, p.2))) logB) nm ).getD ([], [])).2).getD []))) ) logA (decrypt_and_identify_shared_case_ids (encrypt_all_case_ids hash logA).1 (find_shared_case_ids hash true logB (encrypt_all_case_ids hash logA).2)))).activities (recalculate_activity_counts (update_graph_with_private_cases (evaluate_decrypted_edges_to_dfg (update_with_foreign_activities (find_activities logA) (find_activities logB)) (List.flatten ((compute_all_case_names (logB.map Prod.fst) ((set_foreign_case_to_trace (update_with_foreign_activities (find_activities logA) (find_activities logB)).length (compute_case_to_trace_with_encryption (update_with_foreign_activities (find_activities logA) (find_activities logB)) logA (decrypt_and_identify_shared_case_ids (encrypt_all_case_ids hash logA).1 (find_shared_case_ids hash true logB (encrypt_all_case_ids hash logA).2)))).map Prod.fst)).map (fun nm => (find_secrets_for_case 0 1 ((alookup (set_foreign_case_to_trace (update_with_foreign_activities (find_activities logA) (find_activities logB)).length (compute_case_to_trace_with_encryption (update_with_foreign_activities (find_activities logA) (find_activities logB)) logA (decrypt_and_identify_shared_case_ids (encrypt_all_case_ids hash logA).1 (find_shared_case_ids hash true logB (encrypt_all_case_ids hash logA).2)))) nm ).getD ([], [])).1 ((alookup (set_foreign_case_to_trace (update_with_foreign_activities (find_activities logA) (find_activities logB)).length (compute_case_to_trace_with_encryption (update_with_foreign_activities (find_activities logA) (find_activities logB)) logA (decrypt_and_identify_shared_case_ids (encrypt_all_case_ids hash logA).1 (find_shared_case_ids hash true logB (encrypt_all_case_ids hash logA).2)))) nm ).getD ([], [])).2 ((alookup (compute_case_to_trace_using_sample_encryption (update_with_foreign_activities (find_activities logA) (find_activities logB)) ((update_with_foreign_activities (find_activities logA) (find_activities logB)).map (fun p => (p.2, p.2))) logB) nm ).getD ([], [])).1 ((alookup (compute_case_to_trace_using_sample_encryption (update_with_foreign_activities (find_activities logA) (find_activities logB)) ((update_with_foreign_activities (find_activities logA) (find_activities logB)).map (fun p => (p.2, p.2))) logB) nm ).getD ([], [])).2).getD []))) ) logA (decrypt_and_identify_shared_case_ids (encrypt_all_case_ids hash logA).1 (find_shared_case_ids hash true logB (encrypt_all_case_ids hash logA).2)))).edges ((recalculate_activity_counts (update_graph_with_private_cases (evaluate_decrypted_edges_to_dfg (update_with_foreign_activities (find_activities logA) (find_activities logB)) (List.flatten ((compute_all_case_names (logB.map Prod.fst) ((set_foreign_case_to_trace (update_with_foreign_activities (find_activities logA) (find_activities logB)).length (compute_case_to_trace_with_encryption (update_with_foreign_activities (find_activities logA) (find_activities logB)) logA (decrypt_and_identify_shared_case_ids (encrypt_all_case_ids hash logA).1 (find_shared_case_ids hash true logB (encrypt_all_case_ids hash logA).2)))).map Prod.fst)).map (fun nm => (find_secrets_for_case 0 1 ((alookup (set_foreign_case_to_trace (update_with_foreign_activities (find_activities logA) (find_activities logB)).length (compute_case_to_trace_with_encryption (update_with_foreign_activities (find_activities logA) (find_activities logB)) logA (decrypt_and_identify_shared_case_ids (encrypt_all_case_ids hash logA).1 (find_shared_case_ids hash true logB (encrypt_all_case_ids hash logA).2)))) nm ).getD ([], [])).1 ((alookup (set_foreign_case_to_trace (update_with_foreign_activities (find_activities logA) (find_activities logB)).length (compute_case_to_trace_with_encryption (update_with_foreign_activities (find_activities logA) (find_activities logB)) logA (decrypt_and_identify_shared_case_ids (encrypt_all_case_ids hash logA).1 (find_shared_case_ids hash true logB (encrypt_all_case_ids hash logA).2)))) nm ).getD ([], [])).2 ((alookup (compute_case_to_trace_using_sample_encryption (update_with_foreign_activities (find_activities logA) (find_activities logB)) ((update_with_foreign_activities (find_activities logA) (find_activities logB)).map (fun p => (p.2, p.2))) logB) nm ).getD ([], [])).1 ((alookup (compute_case_to_trace_using_sample_encryption (update_with_foreign_activities (find_activities logA) (find_activities logB)) ((update_with_foreign_activities (find_activities logA) (find_activities logB)).map (fun p => (p.2, p.2))) logB) nm ).getD ([], [])).2).getD []))) ) logA (decrypt_and_identify_shared_case_ids (encrypt_all_case_ids hash logA).1 (find_shared_case_ids hash true logB (encrypt_all_case_ids hash logA).2)))).start_activities ++ ["start"]) ((recalculate_activity_counts (update_graph_with_private_cases (evaluate_decrypted_edges_to_dfg (update_with_foreign_activities (find_activities logA) (find_activities logB)) (List.flatten ((compute_all_case_names (logB.map Prod.fst) ((set_foreign_case_to_trace (update_with_foreign_activities (find_activities logA) (find_activities logB)).length (compute_case_to_trace_with_encryption (update_with_foreign_activities (find_activities logA) (find_activities logB)) logA (decrypt_and_identify_shared_case_ids (encrypt_all_case_ids hash logA).1 (find_shared_case_ids hash true logB (encrypt_all_case_ids hash logA).2)))).map Prod.fst)).map (fun nm => (find_secrets_for_case 0 1 ((alookup (set_foreign_case_to_trace (update_with_foreign_activities (find_activities logA) (find_activities logB)).length (compute_case_to_trace_with_encryption (update_with_foreign_activities (find_activities logA) (find_activities logB)) logA (decrypt_and_identify_shared_case_ids (encrypt_all_case_ids hash logA).1 (find_shared_case_ids hash true logB (encrypt_all_case_ids hash logA).2)))) nm ).getD ([], [])).1 ((alookup (set_foreign_case_to_trace (update_with_foreign_activities (find_activities logA) (find_activities logB)).length (compute_case_to_trace_with_encryption (update_with_foreign_activities (find_activities logA) (find_activities logB)) logA (decrypt_and_identify_shared_case_ids (encrypt_all_case_ids hash logA).1 (find_shared_case_ids hash true logB (encrypt_all_case_ids hash logA).2)))) nm ).getD ([], [])).2 ((alookup (compute_case_to_trace_using_sample_encryption (update_with_foreign_activities (find_activities logA) (find_activities logB)) ((update_with_foreign_activities (find_activities logA) (find_activities logB)).map (fun p => (p.2, p.2))) logB) nm ).getD ([], [])).1 ((alookup (compute_case_to_trace_using_sample_encryption (update_with_foreign_activities (find_activities logA) (find_activities logB)) ((update_with_foreign_activities (find_activities logA) (find_activities logB)).map (fun p => (p.2, p.2))) logB) nm ).getD ([], [])).2).getD []))) ) logA (decrypt_and_identify_shared_case_ids (encrypt_all_case_ids hash logA).1 (find_shared_case_ids hash true logB (encrypt_all_case_ids hash logA).2)))).end_activities ++ ["end"]))
    rw [h0, h1, Option.getD_some, Option.getD_some, hcE]
  refine ⟨_, hmain, ?_⟩
  intro u v
  show (alookup (recalculate_activity_counts (update_graph_with_private_cases (evaluate_decrypted_edges_to_dfg (update_with_foreign_activities (find_activities logA) (find_activities logB)) (List.flatten ((compute_all_case_names (logB.map Prod.fst) ((set_foreign_case_to_trace (update_with_foreign_activities (find_activities logA) (find_activities logB)).length (compute_case_to_trace_with_encryption (update_with_foreign_activities (find_activities logA) (find_activities logB)) logA (decrypt_and_identify_shared_case_ids (encrypt_all_case_ids hash logA).1 (find_shared_case_ids hash true logB (encrypt_all_case_ids hash logA).2)))).map Prod.fst)).map (fun nm => (find_secrets_for_case 0 1 ((alookup (set_foreign_case_to_trace (update_with_foreign_activities (find_activities logA) (find_activities logB)).length (compute_case_to_trace_with_encryption (update_with_foreign_activities (find_activities logA) (find_activities logB)) logA (decrypt_and_identify_shared_case_ids (encrypt_all_case_ids hash logA).1 (find_shared_case_ids hash true logB (encrypt_all_case_ids hash logA).2)))) nm ).getD ([], [])).1 ((alookup (set_foreign_case_to_trace (update_with_foreign_activities (find_activities logA) (find_activities logB)).length (compute_case_to_trace_with_encryption (update_with_foreign_activities (find_activities logA) (find_activities logB)) logA (decrypt_and_identify_shared_case_ids (encrypt_all_case_ids hash logA).1 (find_shared_case_ids hash true logB (encrypt_all_case_ids hash logA).2)))) nm ).getD ([], [])).2 ((alookup (compute_case_to_trace_using_sample_encryption (update_with_foreign_activities (find_activities logA) (find_activities logB)) ((update_with_foreign_activities (find_activities logA) (find_activities logB)).map (fun p => (p.2, p.2))) logB) nm ).getD ([], [])).1 ((alookup (compute_case_to_trace_using_sample_encryption (update_with_foreign_activities (find_activities logA) (find_activities logB)) ((update_with_foreign_activities (find_activities logA) (find_activities logB)).map (fun p => (p.2, p.2))) logB) nm ).getD ([], [])).2).getD [])))) logA (decrypt_and_identify_shared_case_ids (encrypt_all_case_ids hash logA).1 (find_shared_case_ids hash true logB (encrypt_all_case_ids hash logA).2)))).edges (u, v)).getD 0 = ((oracle_case_ids logA logB).map (fun c => (sentinel_df "start" "end" (oracle_merged logA logB c)).count (u, v))).sum
  rw [(recalculate_proj (update_graph_with_private_cases (evaluate_decrypted_edges_to_dfg (update_with_foreign_activities (find_activities logA) (find_activities logB)) (List.flatten ((compute_all_case_names (logB.map Prod.fst) ((set_foreign_case_to_trace (update_with_foreign_activities (find_activities logA) (find_activities logB)).length (compute_case_to_trace_with_encryption (update_with_foreign_activities (find_activities logA) (find_activities logB)) logA (decrypt_and_identify_shared_case_ids (encrypt_all_case_ids hash logA).1 (find_shared_case_ids hash true logB (encrypt_all_case_ids hash logA).2)))).map Prod.fst)).map (fun nm => (find_secrets_for_case 0 1 ((alookup (set_foreign_case_to_trace (update_with_foreign_activities (find_activities logA) (find_activities logB)).length (compute_case_to_trace_with_encryption (update_with_foreign_activities (find_activities logA) (find_activities logB)) logA (decrypt_and_identify_shared_case_ids (encrypt_all_case_ids hash logA).1 (find_shared_case_ids hash true logB (encrypt_all_case_ids hash logA).2)))) nm ).getD ([], [])).1 ((alookup (set_foreign_case_to_trace (update_with_foreign_activities (find_activities logA) (find_activities logB)).length (compute_case_to_trace_with_encryption (update_with_foreign_activities (find_activities logA) (find_activities logB)) logA (decrypt_and_identify_shared_case_ids (encrypt_all_case_ids hash logA).1 (find_shared_case_ids hash true logB (encrypt_all_case_ids hash logA).2)))) nm ).getD ([], [])).2 ((alookup (compute_case_to_trace_using_sample_encryption (update_with_foreign_activities (find_activities logA) (find_activities logB)) ((update_with_foreign_activities (find_activities logA) (find_activities logB)).map (fun p => (p.2, p.2))) logB) nm ).getD ([], [])).1 ((alookup (compute_case_to_trace_using_sample_encryption (update_with_foreign_activities (find_activities logA) (find_activities logB)) ((update_with_foreign_activities (find_activities logA) (find_activities logB)).map (fun p => (p.2, p.2))) logB) nm ).getD ([], [])).2).getD [])))) logA (decrypt_and_identify_shared_case_ids (encrypt_all_case_ids hash logA).1 (find_shared_case_ids hash true logB (encrypt_all_case_ids hash logA).2)))).2.2]
  show (update_graph_with_private_cases (evaluate_decrypted_edges_to_dfg (update_with_foreign_activities (find_activities logA) (find_activities logB)) (List.flatten ((compute_all_case_names (logB.map Prod.fst) ((set_foreign_case_to_trace (update_with_foreign_activities (find_activities logA) (find_activities logB)).length (compute_case_to_trace_with_encryption (update_with_foreign_activities (find_activities logA) (find_activities logB)) logA (decrypt_and_identify_shared_case_ids (encrypt_all_case_ids hash logA).1 (find_shared_case_ids hash true logB (encrypt_all_case_ids hash logA).2)))).map Prod.fst)).map (fun nm => (find_secrets_for_case 0 1 ((alookup (set_foreign_case_to_trace (update_with_foreign_activities (find_activities logA) (find_activities logB)).length (compute_case_to_trace_with_encryption (update_with_foreign_activities (find_activities logA) (find_activities logB)) logA (decrypt_and_identify_shared_case_ids (encrypt_all_case_ids hash logA).1 (find_shared_case_ids hash true logB (encrypt_all_case_ids hash logA).2)))) nm ).getD ([], [])).1 ((alookup (set_foreign_case_to_trace (update_with_foreign_activities (find_activities logA) (find_activities logB)).length (compute_case_to_trace_with_encryption (update_with_foreign_activities (find_activities logA) (find_activities logB)) logA (decrypt_and_identify_shared_case_ids (encrypt_all_case_ids hash logA).1 (find_shared_case_ids hash true logB (encrypt_all_case_ids hash logA).2)))) nm ).getD ([], [])).2 ((alookup (compute_case_to_trace_using_sample_encryption (update_with_foreign_activities (find_activities logA) (find_activities logB)) ((update_with_foreign_activities (find_activities logA) (find_activities logB)).map (fun p => (p.2, p.2))) logB) nm ).getD ([], [])).1 ((alookup (compute_case_to_trace_using_sample_encryption (update_with_foreign_activities (find_activities logA) (find_activities logB)) ((update_with_foreign_activities (find_activities logA) (find_activities logB)).map (fun p => (p.2, p.2))) logB) nm ).getD ([], [])).2).getD [])))) logA (decrypt_and_identify_shared_case_ids (encrypt_all_case_ids hash logA).1 (find_shared_case_ids hash true logB (encrypt_all_case_ids hash logA).2))).edge_freq (u, v) = ((oracle_case_ids logA logB).map (fun c => (sentinel_df "start" "end" (oracle_merged logA logB c)).count (u, v))).sum
  rw [update_private_freq (u, v) (decrypt_and_identify_shared_case_ids (encrypt_all_case_ids hash logA).1 (find_shared_case_ids hash true logB (encrypt_all_case_ids hash logA).2)) logA (evaluate_decrypted_edges_to_dfg (update_with_foreign_activities (find_activities logA) (find_activities logB)) (List.flatten ((compute_all_case_names (logB.map Prod.fst) ((set_foreign_case_to_trace (update_with_foreign_activities (find_activities logA) (find_activities logB)).length (compute_case_to_trace_with_encryption (update_with_foreign_activities (find_activities logA) (find_activities logB)) logA (decrypt_and_identify_shared_case_ids (encrypt_all_case_ids hash logA).1 (find_shared_case_ids hash true logB (encrypt_all_case_ids hash logA).2)))).map Prod.fst)).map (fun nm => (find_secrets_for_case 0 1 ((alookup (set_foreign_case_to_trace (update_with_foreign_activities (find_activities logA) (find_activities logB)).length (compute_case_to_trace_with_encryption (update_with_foreign_activities (find_activities logA) (find_activities logB)) logA (decrypt_and_identify_shared_case_ids (encrypt_all_case_ids hash logA).1 (find_shared_case_ids hash true logB (encrypt_all_case_ids hash logA).2)))) nm ).getD ([], [])).1 ((alookup (set_foreign_case_to_trace (update_with_foreign_activities (find_activities logA) (find_activities logB)).length (compute_case_to_trace_with_encryption (update_with_foreign_activities (find_activities logA) (find_activities logB)) logA (decrypt_and_identify_shared_case_ids (encrypt_all_case_ids hash logA).1 (find_shared_case_ids hash true logB (encrypt_all_case_ids hash logA).2)))) nm ).getD ([], [])).2 ((alookup (compute_case_to_trace_using_sample_encryption (update_with_foreign_activities (find_activities logA) (find_activities logB)) ((update_with_foreign_activities (find_activities logA) (find_activities logB)).map (fun p => (p.2, p.2))) logB) nm ).getD ([], [])).1 ((alookup (compute_case_to_trace_using_sample_encryption (update_with_foreign_activities (find_activities logA) (find_activities logB)) ((update_with_foreign_activities (find_activities logA) (find_activities logB)).map (fun p => (p.2, p.2))) logB) nm ).getD ([], [])).2).getD []))))]
  have hev := eval_edge_freq _ _ u v hnoend
  rw [hev]
  rw [countP_flatten]
  rw [List.map_map]
  have hpercount : ∀ nm ∈ (compute_all_case_names (logB.map Prod.fst) ((set_foreign_case_to_trace (update_with_foreign_activities (find_activities logA) (find_activities logB)).length (compute_case_to_trace_with_encryption (update_with_foreign_activities (find_activities logA) (find_activities logB)) logA (decrypt_and_identify_shared_case_ids (encrypt_all_case_ids hash logA).1 (find_shared_case_ids hash true logB (encrypt_all_case_ids hash logA).2)))).map Prod.fst)), ((fun l => List.countP (fun p => decide (alookup (invert_table (update_with_foreign_activities (find_activities logA) (find_activities logB))) p.1 = some u) && decide (alookup (invert_table (update_with_foreign_activities (find_activities logA) (find_activities logB))) p.2 = some v)) l) ∘ (fun nm => (find_secrets_for_case 0 1 ((alookup (set_foreign_case_to_trace (update_with_foreign_activities (find_activities logA) (find_activities logB)).length (compute_case_to_trace_with_encryption (update_with_foreign_activities (find_activities logA) (find_activities logB)) logA (decrypt_and_identify_shared_case_ids (encrypt_all_case_ids hash logA).1 (find_shared_case_ids hash true logB (encrypt_all_case_ids hash logA).2)))) nm ).getD ([], [])).1 ((alookup (set_foreign_case_to_trace (update_with_foreign_activities (find_activities logA) (find_activities logB)).length (compute_case_to_trace_with_encryption (update_with_foreign_activities (find_activities logA) (find_activities logB)) logA (decrypt_and_identify_shared_case_ids (encrypt_all_case_ids hash logA).1 (find_shared_case_ids hash true logB (encrypt_all_case_ids hash logA).2)))) nm ).getD ([], [])).2 ((alookup (compute_case_to_trace_using_sample_encryption (update_with_foreign_activities (find_activities logA) (find_activities logB)) ((update_with_foreign_activities (find_activities logA) (find_activities logB)).map (fun p => (p.2, p.2))) logB) nm ).getD ([], [])).1 ((alookup (compute_case_to_trace_using_sample_encryption (update_with_foreign_activities (find_activities logA) (find_activities logB)) ((update_with_foreign_activities (find_activities logA) (find_activities logB)).map (fun p => (p.2, p.2))) logB) nm ).getD ([], [])).2).getD [])) nm = (fun c => (sentinel_df "start" "end" (oracle_merged logA logB c)).count (u, v)) nm := by
    intro nm hnm
    obtain ⟨l, hsome, hcount, h3⟩ := percase_characterization logA logB (update_with_foreign_activities (find_activities logA) (find_activities logB)) rfl ((update_with_foreign_activities (find_activities logA) (find_activities logB)).map (fun p => (p.2, p.2))) rfl (decrypt_and_identify_shared_case_ids (encrypt_all_case_ids hash logA).1 (find_shared_case_ids hash true logB (encrypt_all_case_ids hash logA).2)) hsharedIff hndA hndB hsorted hne_tr hs he hK nm (hnamesB nm hnm)
    show ((find_secrets_for_case 0 1 ((alookup (set_foreign_case_to_trace (update_with_foreign_activities (find_activities logA) (find_activities logB)).length (compute_case_to_trace_with_encryption (update_with_foreign_activities (find_activities logA) (find_activities logB)) logA (decrypt_and_identify_shared_case_ids (encrypt_all_case_ids hash logA).1 (find_shared_case_ids hash true logB (encrypt_all_case_ids hash logA).2)))) nm ).getD ([], [])).1 ((alookup (set_foreign_case_to_trace (update_with_foreign_activities (find_activities logA) (find_activities logB)).length (compute_case_to_trace_with_encryption (update_with_foreign_activities (find_activities logA) (find_activities logB)) logA (decrypt_and_identify_shared_case_ids (encrypt_all_case_ids hash logA).1 (find_shared_case_ids hash true logB (encrypt_all_case_ids hash logA).2)))) nm ).getD ([], [])).2 ((alookup (compute_case_to_trace_using_sample_encryption (update_with_foreign_activities (find_activities logA) (find_activities logB)) ((update_with_foreign_activities (find_activities logA) (find_activities logB)).map (fun p => (p.2, p.2))) logB) nm ).getD ([], [])).1 ((alookup (compute_case_to_trace_using_sample_encryption (update_with_foreign_activities (find_activities logA) (find_activities logB)) ((update_with_foreign_activities (find_activities logA) (find_activities logB)).map (fun p => (p.2, p.2))) logB) nm ).getD ([], [])).2).getD []).countP (fun p => decide (alookup (invert_table (update_with_foreign_activities (find_activities logA) (find_activities logB))) p.1 = some u) && decide (alookup (invert_table (update_with_foreign_activities (find_activities logA) (find_activities logB))) p.2 = some v)) = (sentinel_df "start" "end" (oracle_merged logA logB nm)).count (u, v)
    rw [hsome]
    exact hcount u v
  rw [List.map_congr_left hpercount]
  rw [hfiltereq]
  have hprivmap : ∀ t ∈ (logA.filter (fun t => !((decrypt_and_identify_shared_case_ids (encrypt_all_case_ids hash logA).1 (find_shared_case_ids hash true logB (encrypt_all_case_ids hash logA).2)).contains t.1))), (fun t => (df_pairs ("start" :: ((t.2.map Prod.fst) ++ ["end"]))).count (u, v)) t = ((fun c => (sentinel_df "start" "end" (oracle_merged logA logB c)).count (u, v)) ∘ Prod.fst) t := by
    intro t ht
    have htA : t ∈ logA := (List.mem_filter.mp ht).1
    have hcond : (!((decrypt_and_identify_shared_case_ids (encrypt_all_case_ids hash logA).1 (find_shared_case_ids hash true logB (encrypt_all_case_ids hash logA).2)).contains t.1)) = true := (List.mem_filter.mp ht).2
    have hcf : (decrypt_and_identify_shared_case_ids (encrypt_all_case_ids hash logA).1 (find_shared_case_ids hash true logB (encrypt_all_case_ids hash logA).2)).contains t.1 = false := by
      cases hc2 : (decrypt_and_identify_shared_case_ids (encrypt_all_case_ids hash logA).1 (find_shared_case_ids hash true logB (encrypt_all_case_ids hash logA).2)).contains t.1 with
      | false => rfl
      | true => rw [hc2] at hcond; simp at hcond
    have htB : t.1 ∉ logB.map Prod.fst := by
      intro hB
      have hmem : t.1 ∈ (decrypt_and_identify_shared_case_ids (encrypt_all_case_ids hash logA).1 (find_shared_case_ids hash true logB (encrypt_all_case_ids hash logA).2)) := (hsharedIff t.1).mpr ⟨List.mem_map_of_mem Prod.fst htA, hB⟩
      have h3 : (decrypt_and_identify_shared_case_ids (encrypt_all_case_ids hash logA).1 (find_shared_case_ids hash true logB (encrypt_all_case_ids hash logA).2)).contains t.1 = true := List.elem_eq_true_of_mem hmem
      rw [h3] at hcf
      cases hcf
    have horacle : oracle_merged logA logB t.1 = t.2.map Prod.fst := by
      show (merge_events (case_events logA t.1) (case_events logB t.1)).map Prod.fst = t.2.map Prod.fst
      rw [case_events_eq_alookup, case_events_eq_alookup,
        alookup_of_mem_nodup hndA (show ((t.1, t.2) : String × List (String × Nat)) ∈ logA from Prod.mk.eta.symm ▸ htA),
        alookup_eq_none_of_not_mem logB t.1 htB]
      show (merge_events t.2 []).map Prod.fst = t.2.map Prod.fst
      rw [merge_events_nil_right]
    show (df_pairs ("start" :: ((t.2.map Prod.fst) ++ ["end"]))).count (u, v) = (sentinel_df "start" "end" (oracle_merged logA logB t.1)).count (u, v)
    rw [horacle, sentinel_df_eq_df_pairs "start" "end" (t.2.map Prod.fst) (map_ne_nil Prod.fst t.2 (hne_tr t (List.mem_append_left logB htA)))]
  rw [List.map_congr_left hprivmap]
  rw [← List.map_map]
  rw [← List.sum_append, ← List.map_append]
  exact List.Perm.sum_eq (List.Perm.map (fun c => (sentinel_df "start" "end" (oracle_merged logA logB c)).count (u, v)) hperm)

theorem head?_of_ne_nil {α : Type} [Inhabited α] (l : List α)
    (h : l ≠ []) : l.head? = some (l.getD 0 default) := by
  cases l with
  | nil => exact absurd rfl h
  | cons a rest => rfl

/-- C1: the full protocol at window size 1 reproduces exactly the edge
frequencies of the plaintext chronological merge of the two logs: on every
pair of real activities the returned graph's edge frequency equals the
plaintext directly-follows count, and the sentinel edge frequencies
(start, x) and (x, end) equal the number of plaintext cases starting
(resp. ending) in x.  Hypotheses: injective case-id hashing, duplicate-free
case ids, sorted timestamps, no empty traces, no activity literally named
start or end, and at most 65536 table entries.  (The claim's literal
reading — equality of the whole DirectlyFollowsGraph for every window
size — fails: see C1_counterexample for the start/end activity lists and
C2 for the window-size dependence.) -/
theorem C1_edge_frequencies (hash : String → Nat) (logA logB : EvLog)
    (hinj : ∀ x ∈ logA.map Prod.fst ++ logB.map Prod.fst,
      ∀ y ∈ logA.map Prod.fst ++ logB.map Prod.fst,
      hash x = hash y → x = y)
    (hndA : (logA.map Prod.fst).Nodup)
    (hndB : (logB.map Prod.fst).Nodup)
    (hsorted : ∀ t ∈ logA ++ logB, ts_sorted (t.2.map Prod.snd))
    (hne_tr : ∀ t ∈ logA ++ logB, t.2 ≠ [])
    (hs : "start" ∉ find_activities logA ++ find_activities logB)
    (he : "end" ∉ find_activities logA ++ find_activities logB)
    (hK : (update_with_foreign_activities (find_activities logA)
      (find_activities logB)).length ≤ 65536) :
    ∃ g, communicate hash logA logB 1 = some g ∧
      (∀ u v : String,
        u ∈ find_activities logA ++ find_activities logB →
        v ∈ find_activities logA ++ find_activities logB →
        g.edge_freq (u, v) = oracle_edge_count logA logB (u, v)) ∧
      (∀ x : String, x ∈ find_activities logA ++ find_activities logB →
        g.edge_freq ("start", x) = oracle_start_count logA logB x) ∧
      (∀ x : String, x ∈ find_activities logA ++ find_activities logB →
        g.edge_freq (x, "end") = oracle_end_count logA logB x) := by
  obtain ⟨g, hg, hfreq⟩ := communicate_freq hash logA logB hinj hndA
    hndB hsorted hne_tr hs he hK
  have hcid : ∀ c ∈ oracle_case_ids logA logB,
      c ∈ logA.map Prod.fst ∨ c ∈ logB.map Prod.fst := by
    intro c hc
    have h2 : c ∈ (logA.map Prod.fst ++ logB.map Prod.fst).dedup := hc
    rw [List.mem_dedup, List.mem_append] at h2
    exact h2
  refine ⟨g, hg, ?_, ?_, ?_⟩
  · intro u v hu hv
    rw [hfreq u v]
    show ((oracle_case_ids logA logB).map (fun c =>
      (sentinel_df "start" "end" (oracle_merged logA logB c)).count
        (u, v))).sum =
      ((oracle_case_ids logA logB).map (fun c =>
        (df_pairs (oracle_merged logA logB c)).count (u, v))).sum
    exact congrArg List.sum (List.map_congr_left (fun c hc =>
      count_sentinel_real "start" "end" (oracle_merged logA logB c)
        (oracle_merged_ne_nil logA logB hne_tr c (hcid c hc)) u v
        (fun hcon => hs (hcon ▸ hu)) (fun hcon => he (hcon ▸ hv))))
  · intro x hx
    rw [hfreq "start" x]
    show ((oracle_case_ids logA logB).map (fun c =>
      (sentinel_df "start" "end" (oracle_merged logA logB c)).count
        ("start", x))).sum =
      ((oracle_case_ids logA logB).filter (fun c =>
        (oracle_merged logA logB c).head? = some x)).length
    rw [← List.countP_eq_length_filter, countP_eq_sum_if]
    apply congrArg List.sum
    apply List.map_congr_left
    intro c hc
    have hne2 : oracle_merged logA logB c ≠ [] :=
      oracle_merged_ne_nil logA logB hne_tr c (hcid c hc)
    rw [count_sentinel_start "start" "end" (oracle_merged logA logB c)
      hne2 (fun hmem => hs (oracle_merged_act logA logB c "start" hmem))
      x]
    rw [head?_of_ne_nil (oracle_merged logA logB c) hne2]
    by_cases hax : (oracle_merged logA logB c).getD 0 default = x
    · rw [if_pos hax, if_pos (decide_eq_true
        (show some ((oracle_merged logA logB c).getD 0 default) =
          some x from by rw [hax]))]
    · rw [if_neg hax, if_neg (by rw [decide_eq_true_eq]; intro hcon; exact hax (Option.some.inj hcon))]
  · intro x hx
    rw [hfreq x "end"]
    show ((oracle_case_ids logA logB).map (fun c =>
      (sentinel_df "start" "end" (oracle_merged logA logB c)).count
        (x, "end"))).sum =
      ((oracle_case_ids logA logB).filter (fun c =>
        (oracle_merged logA logB c).getLast? = some x)).length
    rw [← List.countP_eq_length_filter, countP_eq_sum_if]
    apply congrArg List.sum
    apply List.map_congr_left
    intro c hc
    have hne2 : oracle_merged logA logB c ≠ [] :=
      oracle_merged_ne_nil logA logB hne_tr c (hcid c hc)
    rw [count_sentinel_end "start" "end" (oracle_merged logA logB c)
      hne2 (fun hmem => he (oracle_merged_act logA logB c "end" hmem))
      x]
    rw [getLast?_of_ne_nil (oracle_merged logA logB c) hne2]
    by_cases hax : (oracle_merged logA logB c).getLastD default = x
    · rw [if_pos hax, if_pos (decide_eq_true
        (show some ((oracle_merged logA logB c).getLastD default) =
          some x from by rw [hax]))]
    · rw [if_neg hax, if_neg (by rw [decide_eq_true_eq]; intro hcon; exact hax (Option.some.inj hcon))]

/-- C1 counterexample: the returned start-activity list is the literal
sentinel singleton [start], not the plaintext merge's start activities
([a] here), so the returned graph does not equal the plaintext-merged
DFG even though every edge frequency matches. -/
theorem C1_counterexample :
    ∃ g, communicate (fun s => s.length)
        [("c1", [("a", 0)])] [("c1", [("b", 5)])] 1 = some g ∧
      g.start_activities = ["start"] ∧
      oracle_start_activities [("c1", [("a", 0)])]
        [("c1", [("b", 5)])] = ["a"] ∧
      g.start_activities ≠
        oracle_start_activities [("c1", [("a", 0)])]
          [("c1", [("b", 5)])] :=
  ⟨DFG.mk [("start", 1), ("end", 1), ("a", 1), ("b", 1)]
    [(("start", "a"), 1), (("a", "b"), 1), (("b", "end"), 1)]
    ["start"] ["end"], rfl, rfl, rfl, by decide⟩

/-- Witness for C1: the corrected statement applied to one concrete pair
of one-case logs (a@0 on A's side, b@5 on B's side, shared case id). -/
theorem C1_witness :
    ∃ g, communicate (fun s => s.length)
        [("c0", [("a", 0)])] [("c0", [("b", 5)])] 1 = some g ∧
      (∀ u v : String,
        u ∈ find_activities [("c0", [("a", 0)])] ++
          find_activities [("c0", [("b", 5)])] →
        v ∈ find_activities [("c0", [("a", 0)])] ++
          find_activities [("c0", [("b", 5)])] →
        g.edge_freq (u, v) =
          oracle_edge_count [("c0", [("a", 0)])] [("c0", [("b", 5)])]
            (u, v)) ∧
      (∀ x : String, x ∈ find_activities [("c0", [("a", 0)])] ++
          find_activities [("c0", [("b", 5)])] →
        g.edge_freq ("start", x) =
          oracle_start_count [("c0", [("a", 0)])] [("c0", [("b", 5)])]
            x) ∧
      (∀ x : String, x ∈ find_activities [("c0", [("a", 0)])] ++
          find_activities [("c0", [("b", 5)])] →
        g.edge_freq (x, "end") =
          oracle_end_count [("c0", [("a", 0)])] [("c0", [("b", 5)])]
            x) :=
  C1_edge_frequencies (fun s => s.length) [("c0", [("a", 0)])]
    [("c0", [("b", 5)])] (by decide) (by decide) (by decide)
    (by decide) (by decide) (by decide) (by decide) (by decide)
